import Mathlib

/-!
# Mission document model of the autonomous mission planner

A shallow embedding of `missionitem.cpp` and `autonomousvehicleproject.cpp`.

* Objects live in a store `items : Nat → Option MissionItem`, indexed by their address.
  Addresses are handed out in construction order (`nextAddress`), an address whose
  object has been deleted is never handed out again, so a stale pointer stays
  recognisable as an address with no object behind it.
* A C++ pointer is an `Option Nat` (`none` is `nullptr`).
* An operation returns `none` when the C++ code would dereference a null or a
  dangling pointer (undefined behaviour), or when a loop runs out of fuel.
* The graphics scene, the change notifications (`beginInsertRows`, `emit ...`) and the
  ROS link carry no document state and are left out.
-/

namespace MissionPlanner

/-! ## Qt containers and JSON values -/

/-- The concrete classes of the mission items (`metaObject()->className()`). -/
inductive ClassName where
  | Group
  | Platform
  | Waypoint
  | TrackLine
  | SurveyPattern
  | SurveyArea
  | Behavior
  | BackgroundRaster
  | VectorDataset
  deriving DecidableEq, Repr

/-- A `QJsonValue`. -/
inductive QJsonValue where
  | null : QJsonValue
  | bool (b : Bool) : QJsonValue
  | double (d : Rat) : QJsonValue
  | string (s : String) : QJsonValue
  | array (a : List QJsonValue) : QJsonValue
  | object (o : List (String × QJsonValue)) : QJsonValue

abbrev QJsonArray := List QJsonValue

abbrev QJsonObject := List (String × QJsonValue)

/-- The call `QJsonObject::operator[](key) const`: the value stored under `key`,
    an undefined value (here `null`) when the key is absent. -/
def QJsonObject.value : QJsonObject → String → QJsonValue
  | [], _ => QJsonValue.null
  | (k, v) :: rest, key => if k = key then v else QJsonObject.value rest key

/-- The assignment `json[key] = v`: replaces the value under `key`, or adds the key. -/
def QJsonObject.set : QJsonObject → String → QJsonValue → QJsonObject
  | [], key, v => [(key, v)]
  | (k, w) :: rest, key, v =>
    if k = key then (k, v) :: rest else (k, w) :: QJsonObject.set rest key v

/-- The call `QJsonValue::toString()`: the string, or the empty string for any other type. -/
def QJsonValue.toString : QJsonValue → String
  | QJsonValue.string s => s
  | _ => ""

/-- The call `QJsonValue::toObject()`: the object, or an empty object for any other type. -/
def QJsonValue.toObject : QJsonValue → QJsonObject
  | QJsonValue.object o => o
  | _ => []

/-- The call `QJsonValue::toArray()`: the array, or an empty array for any other type. -/
def QJsonValue.toArray : QJsonValue → QJsonArray
  | QJsonValue.array a => a
  | _ => []

/-- The comparison `value == "text"` of a `QJsonValue` with a string literal. -/
def QJsonValue.isString : QJsonValue → String → Bool
  | QJsonValue.string s, t => decide (s = t)
  | _, _ => false

/-- The call `QList::insert(i, x)` of Qt 5: prepends for `i <= 0`, appends for
    `i >= size()`, otherwise puts `x` before position `i`. -/
def QList.insert (l : List Nat) (i : Int) (x : Nat) : List Nat :=
  if i ≤ 0 then x :: l
  else if (l.length : Int) ≤ i then l ++ [x]
  else l.take i.toNat ++ x :: l.drop i.toNat

/-- The call `QList::indexOf(x)`: the first position of `x`, or `-1`. -/
def QList.indexOf (l : List Nat) (x : Nat) : Int :=
  if x ∈ l then (List.indexOf x l : Int) else -1

/-- The call `QList::removeAll(x)`. -/
def QList.removeAll (l : List Nat) (x : Nat) : List Nat :=
  l.filter (fun y => y != x)

/-! ## The data model -/

/-- A `QGeoCoordinate`: latitude and longitude (real numbers are taken as rationals). -/
structure QGeoCoordinate where
  latitude : Rat
  longitude : Rat
  deriving DecidableEq

/-- One `MissionItem` object: its dynamic class, its `objectName()`, its parent as seen by
    `qobject_cast<MissionItem*>(parent())` and its `m_childrenMissionItems`; for a
    BackgroundRaster its `depthValid()`, for a Platform its `speed()`, for a Waypoint its
    `location()`, and for a SurveyPattern the lines it generates (`m_lines`). -/
structure MissionItem where
  className : ClassName
  objectName : String
  parent : Option Nat
  m_childrenMissionItems : List Nat
  m_depthValid : Bool := false
  m_speed : Rat := 0
  m_location : QGeoCoordinate := { latitude := 0, longitude := 0 }
  m_lines : List (List QGeoCoordinate) := []

/-- The document state of an `AutonomousVehicleProject`. -/
structure AutonomousVehicleProject where
  items : Nat → Option MissionItem
  nextAddress : Nat
  m_root : Nat
  m_currentBackground : Option Nat
  m_currentDepthRaster : Option Nat
  m_currentPlatform : Option Nat
  m_currentGroup : Option Nat
  m_currentSelected : Option Nat
  m_contextMode : Bool
  unique_label_counter : Nat

/-- A `QModelIndex`: row, column, internal pointer and whether it belongs to a model. -/
structure QModelIndex where
  r : Int
  c : Int
  i : Option Nat
  m : Bool

/-- The default constructed `QModelIndex()`, the invalid index. -/
def QModelIndex.invalid : QModelIndex :=
  { r := -1, c := -1, i := none, m := false }

/-- The call `QModelIndex::isValid()`. -/
def QModelIndex.isValid (index : QModelIndex) : Bool :=
  decide (0 ≤ index.r) && decide (0 ≤ index.c) && index.m

/-- The call `createIndex(row, column, pointer)`. -/
def createIndex (row column : Int) (pointer : Option Nat) : QModelIndex :=
  { r := row, c := column, i := pointer, m := true }

/-- Stores the object `obj` at address `a`. -/
def AutonomousVehicleProject.store (s : AutonomousVehicleProject) (a : Nat)
    (obj : MissionItem) : AutonomousVehicleProject :=
  { s with items := fun x => if x = a then some obj else s.items x }

/-- The child sequence `childMissionItems()` of the object at `a`, when there is one. -/
def AutonomousVehicleProject.childMissionItems (s : AutonomousVehicleProject) (a : Nat) :
    Option (List Nat) :=
  (s.items a).map (fun n => n.m_childrenMissionItems)

/-! ## missionitem.cpp -/

/-- The constructor `MissionItem::MissionItem(parent, row)` run for a new object of class
    `cls`: the object gets the next address, and when the parent is a mission item the
    object is appended to (`row < 0`) or inserted into its `m_childrenMissionItems`. -/
def MissionItem.new (s : AutonomousVehicleProject) (cls : ClassName)
    (parent : Option Nat) (row : Int) : Option (AutonomousVehicleProject × Nat) :=
  let this := s.nextAddress
  let obj : MissionItem :=
    { className := cls, objectName := "", parent := parent, m_childrenMissionItems := [] }
  match parent with
  | none => some ({ s.store this obj with nextAddress := this + 1 }, this)
  | some p =>
    match s.items p with
    | none => none
    | some parentMissionItem =>
      let children :=
        if row < 0 then parentMissionItem.m_childrenMissionItems ++ [this]
        else QList.insert parentMissionItem.m_childrenMissionItems row this
      let s1 := s.store p { parentMissionItem with m_childrenMissionItems := children }
      some ({ s1.store this obj with nextAddress := this + 1 }, this)

/-- The method `MissionItem::row()`. -/
def MissionItem.row (s : AutonomousVehicleProject) (this : Nat) : Option Int :=
  match s.items this with
  | none => none
  | some n =>
    match n.parent with
    | some p =>
      match s.items p with
      | none => none
      | some item => some (QList.indexOf item.m_childrenMissionItems this)
    | none => some 0

/-- The method `MissionItem::setObjectName(name)`. -/
def MissionItem.setObjectName (s : AutonomousVehicleProject) (this : Nat) (name : String) :
    Option AutonomousVehicleProject :=
  match s.items this with
  | none => none
  | some n => some (s.store this { n with objectName := name })

/-- The method `MissionItem::removeChildMissionItem(cmi)`. -/
def MissionItem.removeChildMissionItem (s : AutonomousVehicleProject) (this : Nat)
    (cmi : Nat) : Option AutonomousVehicleProject :=
  match s.items this with
  | none => none
  | some n =>
    some (s.store this
      { n with m_childrenMissionItems := QList.removeAll n.m_childrenMissionItems cmi })

/-- Whether the parent chain of `a` passes through `target` (`a` itself counts), following
    at most `fuel` objects. -/
def reaches (items : Nat → Option MissionItem) : Nat → Nat → Nat → Bool
  | 0, _, _ => false
  | fuel + 1, a, target =>
    decide (a = target) ||
      (match items a with
       | none => false
       | some n =>
         match n.parent with
         | none => false
         | some p => reaches items fuel p target)

/-- The statement `delete item`: the `QObject` destructor destroys the object together with
    every object that has it as an ancestor. -/
def deleteObject (s : AutonomousVehicleProject) (item : Nat) : AutonomousVehicleProject :=
  { s with items := fun x => if reaches s.items s.nextAddress x item then none else s.items x }

/-! ## autonomousvehicleproject.cpp: the index adapter -/

/-- The method `AutonomousVehicleProject::itemFromIndex`. -/
def itemFromIndex (index : QModelIndex) : Option Nat :=
  if index.isValid then index.i else none

/-- The method `AutonomousVehicleProject::indexFromItem`. -/
def indexFromItem (s : AutonomousVehicleProject) (item : Option Nat) : Option QModelIndex :=
  match item with
  | none => some QModelIndex.invalid
  | some a =>
    if a = s.m_root then some (createIndex 0 0 (some a))
    else
      match s.items a with
      | none => none
      | some n =>
        match n.parent with
        | none => some QModelIndex.invalid
        | some p =>
          match s.items p with
          | none => none
          | some parentItem =>
            some (createIndex (QList.indexOf parentItem.m_childrenMissionItems a) 0 (some a))

/-- The method `AutonomousVehicleProject::parent`. -/
def parent (s : AutonomousVehicleProject) (child : QModelIndex) : Option QModelIndex :=
  if child.isValid then
    match itemFromIndex child with
    | none => some QModelIndex.invalid
    | some a =>
      match s.items a with
      | none => none
      | some n =>
        match n.parent with
        | none => some QModelIndex.invalid
        | some item =>
          match MissionItem.row s item with
          | none => none
          | some r => some (createIndex r 0 (some item))
  else some QModelIndex.invalid

/-! ## autonomousvehicleproject.cpp: current references and deletion -/

/-- The method `AutonomousVehicleProject::setCurrentBackground`. -/
def setCurrentBackground (s : AutonomousVehicleProject) (bgr : Option Nat) :
    Option AutonomousVehicleProject :=
  match (match s.m_currentBackground with
         | none => some ()
         | some old => (s.items old).map (fun _ => ())) with
  | none => none
  | some _ =>
    let s1 := { s with m_currentBackground := bgr }
    match bgr with
    | none => some s1
    | some b =>
      match s1.items b with
      | none => none
      | some n => some (if n.m_depthValid then { s1 with m_currentDepthRaster := some b } else s1)

/-- The first half of `deleteItem(const QModelIndex&)`: the block that runs when the item
    is a `BackgroundRaster` and resets the references to it. -/
def deleteItem_clearBackground (s : AutonomousVehicleProject) (item : Option Nat) :
    Option AutonomousVehicleProject :=
  match item with
  | none => some s
  | some a =>
    match s.items a with
    | none => none
    | some n =>
      if n.className = ClassName.BackgroundRaster then
        match (if s.m_currentBackground = some a then setCurrentBackground s none
               else some s) with
        | none => none
        | some s1 =>
          some (if s1.m_currentDepthRaster = some a then
                  { s1 with m_currentDepthRaster := none }
                else s1)
      else some s

/-- The second half of `deleteItem(const QModelIndex&)`: the item is taken out of its
    parent's child sequence and deleted (`delete` of a null pointer does nothing). -/
def deleteItem_remove (s : AutonomousVehicleProject) (index : QModelIndex)
    (item : Option Nat) : Option AutonomousVehicleProject :=
  match parent s index with
  | none => none
  | some p =>
    match itemFromIndex p with
    | none => none
    | some pi =>
      match item with
      | none => (s.items pi).map (fun _ => s)
      | some a =>
        match MissionItem.removeChildMissionItem s pi a with
        | none => none
        | some s1 => some (deleteObject s1 a)

/-- The method `AutonomousVehicleProject::deleteItem(const QModelIndex&)`. -/
def deleteItem (s : AutonomousVehicleProject) (index : QModelIndex) :
    Option AutonomousVehicleProject :=
  let item := itemFromIndex index
  match deleteItem_clearBackground s item with
  | none => none
  | some s1 => deleteItem_remove s1 index item

/-- The method `AutonomousVehicleProject::deleteItem(MissionItem*)`. -/
def deleteItemPtr (s : AutonomousVehicleProject) (item : Option Nat) :
    Option AutonomousVehicleProject :=
  match indexFromItem s item with
  | none => none
  | some index => deleteItem s index

/-! ## Type acceptance and the effective parent -/

/-- The method `MissionItem::canAcceptChildType` of the base class. -/
def MissionItem.canAcceptChildTypeBase (childType : String) : Bool :=
  decide (childType = "Behavior")

/-- Modelled from the spec: the overrides of the virtual method `canAcceptChildType`, whose
    sources (group.cpp, waypoint.cpp) are not at hand: a Group "accepts any type", a
    Waypoint is a "leaf; accepts nothing", a Platform "accepts only Behavior children",
    which is what the base class method does; every other class is given the base class
    method. -/
def MissionItem.canAcceptChildType (n : MissionItem) (childType : String) : Bool :=
  match n.className with
  | ClassName.Group => true
  | ClassName.Waypoint => false
  | _ => MissionItem.canAcceptChildTypeBase childType

/-- The loop of `potentialParentItemFor`: climbs from `parentItem` while the item does not
    accept `childType`; `fuel` bounds the number of items visited. -/
def potentialParentItemFor_loop (s : AutonomousVehicleProject) (childType : String) :
    Nat → Option Nat → Option (Option Nat)
  | _, none => some none
  | 0, some _ => none
  | fuel + 1, some a =>
    match s.items a with
    | none => none
    | some n =>
      if n.canAcceptChildType childType then some (some a)
      else potentialParentItemFor_loop s childType fuel n.parent

/-- The method `AutonomousVehicleProject::potentialParentItemFor`. -/
def potentialParentItemFor (s : AutonomousVehicleProject) (fuel : Nat)
    (childType : String) : Option (Option Nat) :=
  if !s.m_contextMode then some (some s.m_root)
  else
    let parentItem :=
      match s.m_currentSelected with
      | some a => a
      | none => s.m_root
    potentialParentItemFor_loop s childType fuel (some parentItem)

/-- The path from `a` along the parent links, `a` first, up to the item without a parent. -/
def pathUp (items : Nat → Option MissionItem) : Nat → Nat → List Nat
  | 0, _ => []
  | fuel + 1, a =>
    a :: (match items a with
          | none => []
          | some n =>
            match n.parent with
            | none => []
            | some p => pathUp items fuel p)

/-- The path from `a` to the top of its tree. -/
def AutonomousVehicleProject.pathToRoot (s : AutonomousVehicleProject) (a : Nat) : List Nat :=
  pathUp s.items s.nextAddress a

/-- Whether the item at `a` accepts a child of type `childType`. -/
def AutonomousVehicleProject.accepts (s : AutonomousVehicleProject) (childType : String)
    (a : Nat) : Bool :=
  match s.items a with
  | none => false
  | some n => n.canAcceptChildType childType

/-- The item the upward walk of `potentialParentItemFor` starts from. -/
def AutonomousVehicleProject.walkStart (s : AutonomousVehicleProject) : Nat :=
  match s.m_currentSelected with
  | some a => a
  | none => s.m_root

/-! ## Labels, the base class codec and the factories -/

/-- The method `AutonomousVehicleProject::generateUniqueLabel`: the label and the state
    with the counter advanced. -/
def generateUniqueLabel (s : AutonomousVehicleProject) (pfx : String) :
    String × AutonomousVehicleProject :=
  let number := toString s.unique_label_counter
  let padding : Int := 4 - (number.length : Int)
  (pfx ++ String.mk (List.replicate padding.toNat '0') ++ number,
   { s with unique_label_counter := s.unique_label_counter + 1 })

/-- The method `MissionItem::write` of the base class. -/
def MissionItem.write (s : AutonomousVehicleProject) (this : Nat) (json : QJsonObject) :
    Option QJsonObject :=
  match s.items this with
  | none => none
  | some n => some (json.set "label" (QJsonValue.string n.objectName))

/-- The method `MissionItem::read` of the base class. -/
def MissionItem.read (s : AutonomousVehicleProject) (this : Nat) (json : QJsonObject) :
    Option AutonomousVehicleProject :=
  match s.items this with
  | none => none
  | some _ =>
    let label := (json.value "label").toString
    if label.length > 0 then MissionItem.setObjectName s this label else some s

/-- Modelled from the spec: the factory template `createMissionItem<T>(name, row)` of
    missionitem.h, which is not among the sources. A node is "created only through a
    factory that (1) allocates the node, (2) appends/inserts it into a parent's child
    sequence, (3) returns" it; the name passed in becomes its label. -/
def MissionItem.createMissionItem (s : AutonomousVehicleProject) (this : Nat)
    (cls : ClassName) (name : String) (row : Int) :
    Option (AutonomousVehicleProject × Nat) :=
  match MissionItem.new s cls (some this) row with
  | none => none
  | some (s1, item) => (MissionItem.setObjectName s1 item name).map (fun s2 => (s2, item))

/-- The receiver of the factory call in the `create...` methods: the parent passed in, or
    `potentialParentItemFor(childType)` when it is null. -/
def factoryReceiver (s : AutonomousVehicleProject) (parent : Option Nat)
    (childType : String) : Option Nat :=
  match parent with
  | some p => some p
  | none =>
    match potentialParentItemFor s s.nextAddress childType with
    | some (some p) => some p
    | _ => none

/-- The method `AutonomousVehicleProject::createPlatform`. -/
def createPlatform (s : AutonomousVehicleProject) (parent : Option Nat) (row : Int) :
    Option (AutonomousVehicleProject × Nat) :=
  match factoryReceiver s parent "Platform" with
  | none => none
  | some receiver =>
    match MissionItem.createMissionItem s receiver ClassName.Platform "platform" row with
    | none => none
    | some (s1, p) => some ({ s1 with m_currentPlatform := some p }, p)

/-- The method `AutonomousVehicleProject::createGroup`. -/
def createGroup (s : AutonomousVehicleProject) (parent : Option Nat) (row : Int) :
    Option (AutonomousVehicleProject × Nat) :=
  match factoryReceiver s parent "Group" with
  | none => none
  | some receiver =>
    let (label, s1) := generateUniqueLabel s "group"
    MissionItem.createMissionItem s1 receiver ClassName.Group label row

/-- The method `AutonomousVehicleProject::createSurveyPattern`. -/
def createSurveyPattern (s : AutonomousVehicleProject) (parent : Option Nat) (row : Int) :
    Option (AutonomousVehicleProject × Nat) :=
  match factoryReceiver s parent "SurveyPattern" with
  | none => none
  | some receiver =>
    let (label, s1) := generateUniqueLabel s "pattern"
    MissionItem.createMissionItem s1 receiver ClassName.SurveyPattern label row

/-- The method `AutonomousVehicleProject::createSurveyArea`. -/
def createSurveyArea (s : AutonomousVehicleProject) (parent : Option Nat) (row : Int) :
    Option (AutonomousVehicleProject × Nat) :=
  match factoryReceiver s parent "SurveyArea" with
  | none => none
  | some receiver =>
    let (label, s1) := generateUniqueLabel s "area"
    MissionItem.createMissionItem s1 receiver ClassName.SurveyArea label row

/-- The method `AutonomousVehicleProject::createTrackLine`. -/
def createTrackLine (s : AutonomousVehicleProject) (parent : Option Nat) (row : Int) :
    Option (AutonomousVehicleProject × Nat) :=
  match factoryReceiver s parent "TrackLine" with
  | none => none
  | some receiver =>
    let (label, s1) := generateUniqueLabel s "trackline"
    MissionItem.createMissionItem s1 receiver ClassName.TrackLine label row

/-- The method `AutonomousVehicleProject::createBehavior`. -/
def createBehavior (s : AutonomousVehicleProject) :
    Option (AutonomousVehicleProject × Nat) :=
  match factoryReceiver s none "Behavior" with
  | none => none
  | some receiver =>
    let (label, s1) := generateUniqueLabel s "behavior"
    MissionItem.createMissionItem s1 receiver ClassName.Behavior label (-1)

/-- The method `AutonomousVehicleProject::addWaypoint` (the position of the waypoint is
    not part of the model). -/
def addWaypoint (s : AutonomousVehicleProject) : Option (AutonomousVehicleProject × Nat) :=
  match factoryReceiver s none "Waypoint" with
  | none => none
  | some receiver =>
    let (label, s1) := generateUniqueLabel s "waypoint"
    MissionItem.createMissionItem s1 receiver ClassName.Waypoint label (-1)

/-- Modelled from the spec: the raster loader behind `BackgroundRaster`, whose source is
    not at hand: for a file name it reports the "validity flag" of the loaded raster, and
    whether the raster carries depth data. -/
structure RasterFiles where
  valid : String → Bool
  depthValid : String → Bool

/-- The method `AutonomousVehicleProject::openBackground`. -/
def openBackground (files : RasterFiles) (s : AutonomousVehicleProject) (fname : String) :
    Option (AutonomousVehicleProject × Option Nat) :=
  match s.m_currentGroup with
  | none => none
  | some g =>
    match indexFromItem s (some g), MissionItem.new s ClassName.BackgroundRaster (some g) (-1)
      with
    | none, _ => none
    | _, none => none
    | some _, some (s1, bgr) =>
      match s1.items bgr with
      | none => none
      | some n =>
        let s2 := s1.store bgr { n with m_depthValid := files.depthValid fname }
        if files.valid fname then
          match MissionItem.setObjectName s2 bgr fname with
          | none => none
          | some s3 => (setCurrentBackground s3 (some bgr)).map (fun s4 => (s4, some bgr))
        else (deleteItemPtr s2 (some bgr)).map (fun s3 => (s3, none))

/-- The method `AutonomousVehicleProject::openGeometry` (the contents that the vector
    loader puts below the new dataset are not part of the model). -/
def openGeometry (s : AutonomousVehicleProject) (fname : String) :
    Option AutonomousVehicleProject :=
  match s.m_currentGroup with
  | none => none
  | some g =>
    match indexFromItem s (some g), MissionItem.new s ClassName.VectorDataset (some g) (-1)
      with
    | none, _ => none
    | _, none => none
    | some _, some (s1, vd) => MissionItem.setObjectName s1 vd fname

/-! ## The child reader -/

/-- The two special cases at the head of the loop body of `readChildren`: a
    "BackgroundRaster" entry goes to `openBackground` and the raster returned reads the
    entry (base class `read`), a "VectorDataset" entry goes to `openGeometry`. -/
def MissionItem.readChildren_resources (files : RasterFiles) (s : AutonomousVehicleProject)
    (object : QJsonObject) : Option AutonomousVehicleProject :=
  match (if (object.value "type").isString "BackgroundRaster" then
           match openBackground files s (object.value "filename").toString with
           | none => none
           | some (_, none) => none
           | some (s1, some bgr) => MissionItem.read s1 bgr object
         else some s) with
  | none => none
  | some s1 =>
    if (object.value "type").isString "VectorDataset" then
      openGeometry s1 (object.value "filename").toString
    else some s1

/-- One of the six `if(object["type"] == ...) item = ...;` statements of `readChildren`:
    when the type matches, `create` runs and its result replaces `item`. -/
def MissionItem.readChildren_case (object : QJsonObject) (type : String)
    (create : AutonomousVehicleProject → Option (AutonomousVehicleProject × Nat))
    (acc : Option (AutonomousVehicleProject × Option Nat)) :
    Option (AutonomousVehicleProject × Option Nat) :=
  match acc with
  | none => none
  | some (s, item) =>
    if (object.value "type").isString type then
      (create s).map (fun r => (r.1, some r.2))
    else some (s, item)

/-- The dispatch on `object["type"]` in the loop body of `readChildren`, from
    `MissionItem *item = nullptr;` to the last `if`. -/
def MissionItem.readChildren_create (s : AutonomousVehicleProject) (this : Nat)
    (object : QJsonObject) (insertRow : Int) :
    Option (AutonomousVehicleProject × Option Nat) :=
  MissionItem.readChildren_case object "Group"
    (fun s => createGroup s (some this) insertRow)
  (MissionItem.readChildren_case object "Platform"
    (fun s => createPlatform s (some this) insertRow)
  (MissionItem.readChildren_case object "SurveyArea"
    (fun s => createSurveyArea s (some this) insertRow)
  (MissionItem.readChildren_case object "SurveyPattern"
    (fun s => createSurveyPattern s (some this) insertRow)
  (MissionItem.readChildren_case object "TrackLine"
    (fun s => createTrackLine s (some this) insertRow)
  (MissionItem.readChildren_case object "Waypoint"
    (fun s => MissionItem.createMissionItem s this ClassName.Waypoint "waypoint" insertRow)
  (some (s, none)))))))

mutual
/-- The method `MissionItem::readChildren(json, row)`: the loop over the array. Every
    pass starts from `int insertRow = row;`, which is declared inside the loop body. The
    `qDebug` listings of the children before and after the loop are left out. -/
def MissionItem.readChildren (files : RasterFiles) (s : AutonomousVehicleProject)
    (this : Nat) (row : Int) : List QJsonValue → Option AutonomousVehicleProject
  | [] => some s
  | v :: rest =>
    match MissionItem.readChildren_body files s this row v with
    | none => none
    | some s1 => MissionItem.readChildren files s1 this row rest
/-- The loop body of `readChildren` for one array element; an element that is no object
    yields the empty object, which matches no type. -/
def MissionItem.readChildren_body (files : RasterFiles) (s : AutonomousVehicleProject)
    (this : Nat) (row : Int) : QJsonValue → Option AutonomousVehicleProject
  | QJsonValue.object object =>
    match MissionItem.readChildren_resources files s object with
    | none => none
    | some s1 =>
      match MissionItem.readChildren_create s1 this object row with
      | none => none
      | some (s2, none) => some s2
      | some (s2, some item) =>
        match MissionItem.read s2 item object with
        | none => none
        | some s3 => MissionItem.read_children files s3 item object
  | _ => some s
/-- Modelled from the spec: what the overrides of the virtual method `read` (group.cpp,
    trackline.cpp, ..., not among the sources) do after the base class `read`: they
    "recurse into `children`", that is the item calls `readChildren` on the array stored
    under the key "children" of its object. -/
def MissionItem.read_children (files : RasterFiles) (s : AutonomousVehicleProject)
    (this : Nat) : List (String × QJsonValue) → Option AutonomousVehicleProject
  | [] => some s
  | (k, QJsonValue.array a) :: rest =>
    if k = "children" then MissionItem.readChildren files s this (-1) a
    else MissionItem.read_children files s this rest
  | (k, _) :: rest =>
    if k = "children" then some s
    else MissionItem.read_children files s this rest
end

/-- The method `AutonomousVehicleProject::dropMimeData`, given the JSON array decoded from
    the payload. -/
def dropMimeData (files : RasterFiles) (s : AutonomousVehicleProject) (data : QJsonArray)
    (row : Int) (parent : QModelIndex) : Option (AutonomousVehicleProject × Bool) :=
  let (parentItem, row) :=
    match itemFromIndex parent with
    | some parentItem => (parentItem, row)
    | none => (s.m_root, (-1 : Int))
  (MissionItem.readChildren files s parentItem row data).map (fun s1 => (s1, true))

/-! ## Selection and the mission documents -/

/-- The method `AutonomousVehicleProject::setCurrent`. -/
def setCurrent (s : AutonomousVehicleProject) (index : QModelIndex) :
    Option AutonomousVehicleProject :=
  let last_selected := s.m_currentSelected
  let s1 := { s with m_currentSelected := itemFromIndex index }
  match (match s1.m_currentSelected with
         | none => some s1
         | some a =>
           match s1.items a with
           | none => none
           | some n =>
             match (if n.className = ClassName.BackgroundRaster then
                      setCurrentBackground s1 (some a)
                    else some s1) with
             | none => none
             | some s2 =>
               let s3 :=
                 if n.className = ClassName.Platform ∧ some a ≠ s2.m_currentPlatform then
                   { s2 with m_currentPlatform := some a }
                 else s2
               some (if n.className = ClassName.Group then
                       { s3 with m_currentGroup := some a }
                     else { s3 with m_currentGroup := some s3.m_root })) with
  | none => none
  | some s4 =>
    match last_selected with
    | none => some s4
    | some l => (s4.items l).map (fun _ => s4)

/-- The method `AutonomousVehicleProject::generateMissionPlan`; `writeToMissionPlan` stands
    for the virtual method of that name of the item classes. -/
def generateMissionPlan
    (writeToMissionPlan : AutonomousVehicleProject → Nat → QJsonArray → QJsonArray)
    (s : AutonomousVehicleProject) (index : QModelIndex) : Option QJsonValue :=
  let item := itemFromIndex index
  match (match s.m_currentPlatform with
         | none => some ([] : QJsonObject)
         | some platform =>
           (s.items platform).map (fun n =>
             QJsonObject.set [] "defaultspeed_ms" (QJsonValue.double (n.m_speed * 0.514444))))
    with
  | none => none
  | some defaultParameters =>
    let topLevel := QJsonObject.set [] "DEFAULT_PARAMETERS" (QJsonValue.object defaultParameters)
    match item with
    | none => none
    | some a =>
      match s.items a with
      | none => none
      | some _ =>
        let navArray := writeToMissionPlan s a []
        some (QJsonValue.object (topLevel.set "NAVIGATION" (QJsonValue.array navArray)))

/-- The method `AutonomousVehicleProject::generateMissionTask`; `write` stands for the
    virtual method `write` of the item classes. -/
def generateMissionTask
    (write : AutonomousVehicleProject → Nat → QJsonObject → QJsonObject)
    (s : AutonomousVehicleProject) (index : QModelIndex) : Option QJsonValue :=
  let mi := itemFromIndex index
  match (match s.m_currentPlatform with
         | none => some ([] : QJsonArray)
         | some platform =>
           (s.items platform).map (fun _ => [QJsonValue.object (write s platform [])])) with
  | none => none
  | some topArray =>
    match mi with
    | none => none
    | some a =>
      match s.items a with
      | none => none
      | some _ => some (QJsonValue.array (topArray ++ [QJsonValue.object (write s a [])]))

/-! ## Sequences of constructions and deletions -/

/-- A structural operation on the tree: the construction of a new item of some class under
    a parent at a row, or the deletion of an item. -/
inductive TreeOp where
  | construct (cls : ClassName) (parent : Option Nat) (row : Int) : TreeOp
  | delete (item : Nat) : TreeOp

/-- Runs one structural operation. -/
def TreeOp.apply (s : AutonomousVehicleProject) : TreeOp → Option AutonomousVehicleProject
  | TreeOp.construct cls parent row => (MissionItem.new s cls parent row).map Prod.fst
  | TreeOp.delete item => deleteItemPtr s (some item)

/-- Runs a sequence of structural operations, from left to right. -/
def runOps (s : AutonomousVehicleProject) : List TreeOp → Option AutonomousVehicleProject
  | [] => some s
  | op :: rest =>
    match op.apply s with
    | none => none
    | some s1 => runOps s1 rest

/-- The object store is a forest: live objects lie below `next`, an object with a parent
    was constructed after it and occurs exactly once in the parent's child sequence, and a
    child sequence lists only live objects that have this parent. -/
def TreeInvOn (items : Nat → Option MissionItem) (next : Nat) : Prop :=
  (∀ a n, items a = some n → a < next) ∧
  (∀ a n p, items a = some n → n.parent = some p →
    p < a ∧ ∃ pn, items p = some pn ∧ pn.m_childrenMissionItems.count a = 1) ∧
  (∀ p pn c, items p = some pn → c ∈ pn.m_childrenMissionItems →
    ∃ cn, items c = some cn ∧ cn.parent = some p)

/-- The tree invariant of a project state. -/
def TreeInv (s : AutonomousVehicleProject) : Prop :=
  TreeInvOn s.items s.nextAddress

/-- Row consistency: every item other than the root that has a parent occurs exactly once
    in the parent's child sequence, at the row that `MissionItem::row()` and
    `indexFromItem` report. -/
def RowConsistent (s : AutonomousVehicleProject) : Prop :=
  ∀ a n p, s.items a = some n → n.parent = some p → a ≠ s.m_root →
    ∃ (pn : MissionItem) (r : Nat),
      s.items p = some pn ∧
      MissionItem.row s a = some (r : Int) ∧
      indexFromItem s (some a) = some (createIndex (r : Int) 0 (some a)) ∧
      pn.m_childrenMissionItems[r]? = some a ∧
      pn.m_childrenMissionItems.count a = 1

/-- A small project: the root group `0` holding a platform `1`, a group `2` and a
    background raster `3`; the group `2` holds a waypoint `4`. -/
def sampleProject : AutonomousVehicleProject :=
  { items := fun a =>
      if a = 0 then some { className := ClassName.Group, objectName := "root",
                           parent := none, m_childrenMissionItems := [1, 2, 3] }
      else if a = 1 then some { className := ClassName.Platform, objectName := "platform",
                                parent := some 0, m_childrenMissionItems := [] }
      else if a = 2 then some { className := ClassName.Group, objectName := "group0000",
                                parent := some 0, m_childrenMissionItems := [4] }
      else if a = 3 then some { className := ClassName.BackgroundRaster,
                                objectName := "chart.tif", parent := some 0,
                                m_childrenMissionItems := [], m_depthValid := true }
      else if a = 4 then some { className := ClassName.Waypoint, objectName := "waypoint0001",
                                parent := some 2, m_childrenMissionItems := [] }
      else none
    nextAddress := 5
    m_root := 0
    m_currentBackground := some 3
    m_currentDepthRaster := some 3
    m_currentPlatform := some 1
    m_currentGroup := some 0
    m_currentSelected := some 1
    m_contextMode := true
    unique_label_counter := 2 }

/-- A raster loader for which every load fails. -/
def noRasters : RasterFiles :=
  { valid := fun _ => false, depthValid := fun _ => false }

/-- The JSON object of an item of the given type with the given label. -/
def entry (type label : String) : QJsonValue :=
  QJsonValue.object [("label", QJsonValue.string label), ("type", QJsonValue.string type)]

/-- The JSON object of a platform whose "children" array holds one waypoint. -/
def platformWithWaypoint : QJsonValue :=
  QJsonValue.object
    [("children", QJsonValue.array [entry "Waypoint" "wp"]),
     ("label", QJsonValue.string "boat"), ("type", QJsonValue.string "Platform")]

/-- The index of the platform `1` of `sampleProject`. -/
def platformIndex : QModelIndex := createIndex 0 0 (some 1)

/-- The index of the group `2` of `sampleProject`. -/
def groupIndex : QModelIndex := createIndex 1 0 (some 2)

/-- The index of the background raster `3` of `sampleProject`. -/
def rasterIndex : QModelIndex := createIndex 2 0 (some 3)

/-- The project `sampleProject` after the platform `1` lost its label. -/
def unlabelledProject : AutonomousVehicleProject :=
  sampleProject.store 1
    { className := ClassName.Platform, objectName := "", parent := some 0,
      m_childrenMissionItems := [] }

/-- A run of constructions and deletions on `sampleProject`. -/
def sampleOps : List TreeOp :=
  [TreeOp.construct ClassName.Waypoint (some 2) 0,
   TreeOp.construct ClassName.TrackLine (some 0) 1,
   TreeOp.delete 1,
   TreeOp.construct ClassName.Waypoint (some 6) (-1),
   TreeOp.delete 2,
   TreeOp.construct ClassName.Group none 7]

/-- The call `QJsonObject::contains(key)`. -/
def QJsonObject.contains : QJsonObject → String → Bool
  | [], _ => false
  | (k, _) :: rest, key => decide (k = key) || QJsonObject.contains rest key

/-- The project `sampleProject` with no current platform. -/
def noPlatformProject : AutonomousVehicleProject :=
  { sampleProject with m_currentPlatform := none }

/-- The project `sampleProject` whose platform `1` cruises at 10 knots. -/
def tenKnotsProject : AutonomousVehicleProject :=
  sampleProject.store 1
    { className := ClassName.Platform, objectName := "platform", parent := some 0,
      m_childrenMissionItems := [], m_speed := 10 }

/-- An array entry of type "BackgroundRaster" for the file "chart.tif". -/
def rasterEntry : QJsonObject :=
  [("filename", QJsonValue.string "chart.tif"), ("type", QJsonValue.string "BackgroundRaster")]

/-! ## Labels: the fresh project, decimal suffixes and runs of operations -/

/-- The constructor `AutonomousVehicleProject::AutonomousVehicleProject`: the root group
    "root" at address `0` is the current group, every other reference is null and the label
    counter is `0`. The constructor does not set `m_contextMode`; its value is a
    parameter. -/
def AutonomousVehicleProject.new (contextMode : Bool) : AutonomousVehicleProject :=
  { items := fun a =>
      if a = 0 then some { className := ClassName.Group, objectName := "root",
                           parent := none, m_childrenMissionItems := [] }
      else none
    nextAddress := 1
    m_root := 0
    m_currentBackground := none
    m_currentDepthRaster := none
    m_currentPlatform := none
    m_currentGroup := some 0
    m_currentSelected := none
    m_contextMode := contextMode
    unique_label_counter := 0 }

/-- The method `AutonomousVehicleProject::setContextMode`. -/
def setContextMode (s : AutonomousVehicleProject) (mode : Bool) : AutonomousVehicleProject :=
  { s with m_contextMode := mode }

/-- The labels returned by `k` successive calls of `generateUniqueLabel` with one prefix. -/
def labelsFrom (s : AutonomousVehicleProject) (pfx : String) : Nat → List String
  | 0 => []
  | k + 1 => (generateUniqueLabel s pfx).1 :: labelsFrom (generateUniqueLabel s pfx).2 pfx k

/-- The number written by a list of decimal digit characters, most significant first. -/
def decimalValue (l : List Char) : Nat :=
  l.foldl (fun acc c => 10 * acc + (c.toNat - 48)) 0

/-- Every character of the list is one of the decimal digits '0' to '9'. -/
def IsDecimal (l : List Char) : Prop :=
  ∀ c ∈ l, ∃ d, d < 10 ∧ c = Nat.digitChar d

/-- The decimal digits of `n`, left-padded with '0' to a width of at least four. -/
def paddedDecimal (n : Nat) : List Char :=
  List.replicate (4 - (Nat.toDigits 10 n).length) '0' ++ Nat.toDigits 10 n

/-- The number that a label shows after its prefix. -/
def numericSuffix (pfx label : String) : Nat :=
  decimalValue (label.data.drop pfx.length)

/-- Character-by-character order of two strings: at the first position where they differ
    the smaller character code decides, and a proper prefix comes first. -/
def lexLt : List Char → List Char → Bool
  | [], [] => false
  | [], _ :: _ => true
  | _ :: _, [] => false
  | a :: as, b :: bs => decide (a.toNat < b.toNat) || (decide (a = b) && lexLt as bs)

/-- The operations of the project that change its state. -/
inductive ProjectOp where
  | construct (cls : ClassName) (parent : Option Nat) (row : Int) : ProjectOp
  | setObjectName (item : Nat) (name : String) : ProjectOp
  | deleteItem (index : QModelIndex) : ProjectOp
  | deleteItemPtr (item : Option Nat) : ProjectOp
  | setCurrent (index : QModelIndex) : ProjectOp
  | setCurrentBackground (bgr : Option Nat) : ProjectOp
  | setContextMode (mode : Bool) : ProjectOp
  | createPlatform (parent : Option Nat) (row : Int) : ProjectOp
  | createGroup (parent : Option Nat) (row : Int) : ProjectOp
  | createSurveyPattern (parent : Option Nat) (row : Int) : ProjectOp
  | createSurveyArea (parent : Option Nat) (row : Int) : ProjectOp
  | createTrackLine (parent : Option Nat) (row : Int) : ProjectOp
  | createBehavior : ProjectOp
  | addWaypoint : ProjectOp
  | openBackground (fname : String) : ProjectOp
  | openGeometry (fname : String) : ProjectOp
  | read (item : Nat) (json : QJsonObject) : ProjectOp
  | readChildren (item : Nat) (json : QJsonArray) (row : Int) : ProjectOp
  | dropMimeData (data : QJsonArray) (row : Int) (parent : QModelIndex) : ProjectOp
  | generateUniqueLabel (pfx : String) : ProjectOp

/-- Runs one operation of the project. -/
def applyProjectOp (files : RasterFiles) (s : AutonomousVehicleProject) :
    ProjectOp → Option AutonomousVehicleProject
  | ProjectOp.construct cls parent row => (MissionItem.new s cls parent row).map Prod.fst
  | ProjectOp.setObjectName item name => MissionItem.setObjectName s item name
  | ProjectOp.deleteItem index => deleteItem s index
  | ProjectOp.deleteItemPtr item => deleteItemPtr s item
  | ProjectOp.setCurrent index => setCurrent s index
  | ProjectOp.setCurrentBackground bgr => setCurrentBackground s bgr
  | ProjectOp.setContextMode mode => some (setContextMode s mode)
  | ProjectOp.createPlatform parent row => (createPlatform s parent row).map Prod.fst
  | ProjectOp.createGroup parent row => (createGroup s parent row).map Prod.fst
  | ProjectOp.createSurveyPattern parent row => (createSurveyPattern s parent row).map Prod.fst
  | ProjectOp.createSurveyArea parent row => (createSurveyArea s parent row).map Prod.fst
  | ProjectOp.createTrackLine parent row => (createTrackLine s parent row).map Prod.fst
  | ProjectOp.createBehavior => (createBehavior s).map Prod.fst
  | ProjectOp.addWaypoint => (addWaypoint s).map Prod.fst
  | ProjectOp.openBackground fname => (openBackground files s fname).map Prod.fst
  | ProjectOp.openGeometry fname => openGeometry s fname
  | ProjectOp.read item json => MissionItem.read s item json
  | ProjectOp.readChildren item json row => MissionItem.readChildren files s item row json
  | ProjectOp.dropMimeData data row parent =>
    (dropMimeData files s data row parent).map Prod.fst
  | ProjectOp.generateUniqueLabel pfx => some (generateUniqueLabel s pfx).2

/-- Runs a sequence of operations of the project, from left to right. -/
def runProjectOps (files : RasterFiles) (s : AutonomousVehicleProject) :
    List ProjectOp → Option AutonomousVehicleProject
  | [] => some s
  | op :: rest =>
    match applyProjectOp files s op with
    | none => none
    | some s1 => runProjectOps files s1 rest

/-- The labels of successive calls of `generateUniqueLabel` with one prefix, where each
    call comes after a sequence of other operations. -/
def successiveLabels (files : RasterFiles) (pfx : String) :
    AutonomousVehicleProject → List (List ProjectOp) → Option (List String)
  | _, [] => some []
  | s, ops :: rest =>
    match runProjectOps files s ops with
    | none => none
    | some s1 =>
      (successiveLabels files pfx (generateUniqueLabel s1 pfx).2 rest).map
        (fun labels => (generateUniqueLabel s1 pfx).1 :: labels)

/-- Three calls for a "wp" label on `sampleProject`, with a deletion, a new group and a
    call for another prefix in between. -/
def sampleSegments : List (List ProjectOp) :=
  [[], [ProjectOp.deleteItem platformIndex],
   [ProjectOp.createGroup (some 2) (-1), ProjectOp.generateUniqueLabel "x"]]

/-- The project `sampleProject` after 9999 labels have been handed out. -/
def manyLabelsProject : AutonomousVehicleProject :=
  { sampleProject with unique_label_counter := 9999 }

/-! ## Line extraction and the legacy line-survey export -/

/-- The two loops of `MissionItem::getLines()`: for every child in turn, every line of the
    child's `getLines()` is appended to `ret`; `get` is the virtual call on a child. -/
def MissionItem.getLines_append (get : Nat → Option (List (List QGeoCoordinate))) :
    List Nat → List (List QGeoCoordinate) → Option (List (List QGeoCoordinate))
  | [], ret => some ret
  | mi :: rest, ret =>
    match get mi with
    | none => none
    | some lines => MissionItem.getLines_append get rest (ret ++ lines)

/-- The objects behind a list of pointers, when all of them are live. -/
def AutonomousVehicleProject.derefAll (s : AutonomousVehicleProject) :
    List Nat → Option (List MissionItem)
  | [] => some []
  | a :: rest =>
    match s.items a, AutonomousVehicleProject.derefAll s rest with
    | some n, some ns => some (n :: ns)
    | _, _ => none

/-- The locations of the children that are waypoints (`qobject_cast<Waypoint*>`), in child
    order. -/
def waypointLocations (children : List MissionItem) : List QGeoCoordinate :=
  (children.filter (fun c => decide (c.className = ClassName.Waypoint))).map
    (fun c => c.m_location)

/-- Modelled from the spec: the override `TrackLine::getLines` (trackline.cpp is not among
    the sources): "a TrackLine yields one line (its waypoints in child order)". -/
def TrackLine.getLines (s : AutonomousVehicleProject) (n : MissionItem) :
    Option (List (List QGeoCoordinate)) :=
  (s.derefAll n.m_childrenMissionItems).map (fun children => [waypointLocations children])

/-- The virtual method `getLines()`. A TrackLine and a SurveyPattern override it; modelled
    from the spec: "a SurveyPattern yields its generated parallel lines" (surveypattern.cpp
    is not among the sources, the generated lines are the data `m_lines` of the item).
    Every other class runs `MissionItem::getLines()` of the base class. `fuel` bounds the
    depth of the recursion into the children. -/
def MissionItem.getLines (s : AutonomousVehicleProject) :
    Nat → Nat → Option (List (List QGeoCoordinate))
  | 0, _ => none
  | fuel + 1, this =>
    match s.items this with
    | none => none
    | some n =>
      match n.className with
      | ClassName.TrackLine => TrackLine.getLines s n
      | ClassName.SurveyPattern => some n.m_lines
      | _ =>
        MissionItem.getLines_append (MissionItem.getLines s fuel) n.m_childrenMissionItems []

/-- What is handed to a `QTextStream` with `<<`: a text, an integer, or a real number
    together with the real number precision in force when it is written. -/
inductive StreamItem where
  | text (s : String) : StreamItem
  | int (n : Int) : StreamItem
  | real (x : Rat) (precision : Nat) : StreamItem
  deriving DecidableEq

/-- A `QTextStream`: its `realNumberPrecision()` and what has been written to it. -/
structure QTextStream where
  realNumberPrecision : Nat
  out : List StreamItem

/-- A newly constructed `QTextStream`; the real number precision of Qt defaults to 6. -/
def QTextStream.new : QTextStream :=
  { realNumberPrecision := 6, out := [] }

/-- The call `stream << "text"`. -/
def QTextStream.text (st : QTextStream) (s : String) : QTextStream :=
  { st with out := st.out ++ [StreamItem.text s] }

/-- The call `stream << n` for an integer. -/
def QTextStream.int (st : QTextStream) (n : Int) : QTextStream :=
  { st with out := st.out ++ [StreamItem.int n] }

/-- The call `stream << x` for a real number. -/
def QTextStream.real (st : QTextStream) (x : Rat) : QTextStream :=
  { st with out := st.out ++ [StreamItem.real x st.realNumberPrecision] }

/-- The call `stream.setRealNumberPrecision(precision)`. -/
def QTextStream.setRealNumberPrecision (st : QTextStream) (precision : Nat) : QTextStream :=
  { st with realNumberPrecision := precision }

/-- The statement `outstream << "PTS " << latitude << " " << longitude << "\n";`. -/
def writePTS (st : QTextStream) (p : QGeoCoordinate) : QTextStream :=
  (((st.text "PTS ").real p.latitude).text " ").real p.longitude |>.text "\n"

/-- The TrackLine branch of `exportHypack`, from the construction of the stream on:
    `waypoints` are all the children of the track line. -/
def exportHypack_trackLine (waypoints : List MissionItem) : QTextStream :=
  let st := QTextStream.new.text "LNS 1\n"
  let st := ((st.text "LIN ").int waypoints.length).text "\n"
  let st := waypoints.foldl
    (fun st i =>
      if i.className = ClassName.Waypoint then writePTS st i.m_location else st) st
  (st.text "LNN 1\n").text "EOL\n"

/-- The loop `for (auto l: lines)` of the SurveyPattern branch of `exportHypack`, with the
    running `lineNum`. -/
def exportHypack_lines (st : QTextStream) (lineNum : Int) :
    List (List QGeoCoordinate) → QTextStream
  | [] => st
  | l :: rest =>
    let st := ((st.text "LIN ").int l.length).text "\n"
    let st := l.foldl writePTS st
    let st := ((st.text "LNN ").int lineNum).text "\n"
    exportHypack_lines (st.text "EOL\n") (lineNum + 1) rest

/-- The SurveyPattern branch of `exportHypack`, from `sp->getLines()` on. -/
def exportHypack_surveyPattern (lines : List (List QGeoCoordinate)) : QTextStream :=
  let st := QTextStream.new.setRealNumberPrecision 8
  let st := ((st.text "LNS ").int lines.length).text "\n"
  exportHypack_lines st 1 lines

/-- The method `AutonomousVehicleProject::exportHypack`, for a file dialog that returns a
    file name and a file that opens: the contents of the files written, in order. -/
def exportHypack (s : AutonomousVehicleProject) (index : QModelIndex) :
    Option (List (List StreamItem)) :=
  match itemFromIndex index with
  | none => some []
  | some item =>
    match s.items item with
    | none => none
    | some n =>
      match (if n.className = ClassName.TrackLine then
               (s.derefAll n.m_childrenMissionItems).map
                 (fun waypoints => [(exportHypack_trackLine waypoints).out])
             else some []) with
      | none => none
      | some files =>
        if n.className = ClassName.SurveyPattern then
          (MissionItem.getLines s s.nextAddress item).map
            (fun lines => files ++ [(exportHypack_surveyPattern lines).out])
        else some files

/-- The records that the legacy format asks for a track line with the given points:
    "LNS 1", "LIN n" with `n` the number of points, one "PTS lat lon" per point, "LNN 1",
    "EOL", each closed by a newline; real numbers carry the precision they are written
    with. -/
def trackLineRecords (precision : Nat) (points : List QGeoCoordinate) : List StreamItem :=
  [StreamItem.text "LNS 1\n", StreamItem.text "LIN ", StreamItem.int points.length,
   StreamItem.text "\n"] ++
  points.flatMap (fun p =>
    [StreamItem.text "PTS ", StreamItem.real p.latitude precision, StreamItem.text " ",
     StreamItem.real p.longitude precision, StreamItem.text "\n"]) ++
  [StreamItem.text "LNN 1\n", StreamItem.text "EOL\n"]

/-- The records of line number `k` of a survey pattern: "LIN |l|", one "PTS lat lon" per
    point, "LNN k", "EOL". -/
def surveyLineRecords (precision : Nat) (k : Nat) (l : List QGeoCoordinate) :
    List StreamItem :=
  [StreamItem.text "LIN ", StreamItem.int l.length, StreamItem.text "\n"] ++
  l.flatMap (fun p =>
    [StreamItem.text "PTS ", StreamItem.real p.latitude precision, StreamItem.text " ",
     StreamItem.real p.longitude precision, StreamItem.text "\n"]) ++
  [StreamItem.text "LNN ", StreamItem.int k, StreamItem.text "\n", StreamItem.text "EOL\n"]

/-- The records that the legacy format asks for a survey pattern with the lines
    `[l1, ..., lm]`: "LNS m", then the records of the lines numbered 1, 2, ..., m. -/
def surveyPatternRecords (precision : Nat) (lines : List (List QGeoCoordinate)) :
    List StreamItem :=
  [StreamItem.text "LNS ", StreamItem.int lines.length, StreamItem.text "\n"] ++
  (lines.enum.flatMap (fun kl => surveyLineRecords precision (kl.1 + 1) kl.2))

/-- A project with a track line: the root group `0` holds the group `1` and the survey
    pattern `6`, which generates two lines; the group `1` holds the track line `2`, whose
    children are the waypoints `3` at (10, 20) and `4` at (11, 21), and the bare waypoint
    `5`. The track line is selected. -/
def linesProject : AutonomousVehicleProject :=
  { items := fun a =>
      if a = 0 then some { className := ClassName.Group, objectName := "root",
                           parent := none, m_childrenMissionItems := [1, 6] }
      else if a = 1 then some { className := ClassName.Group, objectName := "group0000",
                                parent := some 0, m_childrenMissionItems := [2, 5] }
      else if a = 2 then some { className := ClassName.TrackLine, objectName := "trackline",
                                parent := some 1, m_childrenMissionItems := [3, 4] }
      else if a = 3 then some { className := ClassName.Waypoint, objectName := "waypoint",
                                parent := some 2, m_childrenMissionItems := [],
                                m_location := { latitude := 10, longitude := 20 } }
      else if a = 4 then some { className := ClassName.Waypoint, objectName := "waypoint",
                                parent := some 2, m_childrenMissionItems := [],
                                m_location := { latitude := 11, longitude := 21 } }
      else if a = 5 then some { className := ClassName.Waypoint, objectName := "waypoint",
                                parent := some 1, m_childrenMissionItems := [],
                                m_location := { latitude := 5, longitude := 5 } }
      else if a = 6 then some { className := ClassName.SurveyPattern, objectName := "pattern",
                                parent := some 0, m_childrenMissionItems := [],
                                m_lines := [[{ latitude := 1, longitude := 2 },
                                             { latitude := 3, longitude := 4 }],
                                            [{ latitude := 5, longitude := 6 }]] }
      else none
    nextAddress := 7
    m_root := 0
    m_currentBackground := none
    m_currentDepthRaster := none
    m_currentPlatform := none
    m_currentGroup := some 0
    m_currentSelected := some 2
    m_contextMode := true
    unique_label_counter := 1 }

/-- The index of the track line `2` of `linesProject`. -/
def trackLineIndex : QModelIndex := createIndex 0 0 (some 2)

/-- The index of the survey pattern `6` of `linesProject`. -/
def surveyPatternIndex : QModelIndex := createIndex 1 0 (some 6)

/-- The line of the track line of `linesProject`. -/
def sampleLine : List QGeoCoordinate :=
  [{ latitude := 10, longitude := 20 }, { latitude := 11, longitude := 21 }]

/-! ## The index adapter: `index`, `rowCount` and `removeRows` -/

/-- The method `AutonomousVehicleProject::index`. -/
def index (s : AutonomousVehicleProject) (row column : Int) (parent : QModelIndex) :
    Option QModelIndex :=
  if column ≠ 0 ∨ row < 0 then some QModelIndex.invalid
  else
    let parentItem := if parent.isValid then itemFromIndex parent else some s.m_root
    match parentItem with
    | none => some QModelIndex.invalid
    | some p =>
      match s.items p with
      | none => none
      | some n =>
        let subitems := n.m_childrenMissionItems
        if row < (subitems.length : Int) then some (createIndex row 0 subitems[row.toNat]?)
        else some QModelIndex.invalid

/-- The method `AutonomousVehicleProject::rowCount`. -/
def rowCount (s : AutonomousVehicleProject) (parent : QModelIndex) : Option Int :=
  let item := if parent.isValid then itemFromIndex parent else some s.m_root
  match item with
  | none => some 0
  | some a => (s.items a).map (fun n => (n.m_childrenMissionItems.length : Int))

/-- The loop `for (int i = 0; i < count; i++)` of `removeRows`, with `count` passes left:
    a pass deletes the child at position `row` when there is one and otherwise leaves the
    method with `false`; reading `childMissionItems()[row]` for a negative `row` is out of
    range. -/
def removeRows_loop (parentItem : Nat) (row : Int) :
    Nat → AutonomousVehicleProject → Option (AutonomousVehicleProject × Bool)
  | 0, s => some (s, true)
  | count + 1, s =>
    match s.items parentItem with
    | none => none
    | some n =>
      if (n.m_childrenMissionItems.length : Int) > row then
        if row < 0 then none
        else
          match deleteItemPtr s n.m_childrenMissionItems[row.toNat]? with
          | none => none
          | some s1 => removeRows_loop parentItem row count s1
      else some (s, false)

/-- The method `AutonomousVehicleProject::removeRows`: the state after the call and the
    value returned. The debug output in front of the null test reads
    `parentItem->objectName()`, so a null parent item is dereferenced. -/
def removeRows (s : AutonomousVehicleProject) (row count : Int) (parent : QModelIndex) :
    Option (AutonomousVehicleProject × Bool) :=
  let parentItem := if parent.isValid then itemFromIndex parent else some s.m_root
  match parentItem with
  | none => none
  | some p =>
    match s.items p with
    | none => none
    | some n =>
      if n.className = ClassName.SurveyPattern then some (s, false)
      else removeRows_loop p row count.toNat s

/-- The project `sampleProject` after the group `2` has been selected. -/
def groupSelectedProject : AutonomousVehicleProject :=
  { sampleProject with m_currentSelected := some 2, m_currentGroup := some 2 }

/-! ## The legacy line-survey import -/

/-- The call `QString::split(sep)` on the characters of a string, for a separator of one
    character and the default behaviour of keeping empty parts: the text between the
    occurrences of `sep`; a string without `sep` (also the empty string) is one part. -/
def QString.split_chars (sep : Char) : List Char → List (List Char)
  | [] => [[]]
  | c :: cs =>
    if c = sep then [] :: QString.split_chars sep cs
    else
      match QString.split_chars sep cs with
      | [] => [[c]]
      | part :: parts => (c :: part) :: parts

/-- The call `line.split(" ")`. -/
def QString.split (line : String) (sep : Char) : List String :=
  (QString.split_chars sep line.data).map String.mk

/-- The call `QStringList::join(" ")`. -/
def QStringList.join (parts : List String) (sep : String) : String :=
  sep.intercalate parts

/-- The call `QFileInfo(fname).fileName()`: the name of the file without its path. -/
def QFileInfo.fileName (fname : String) : String :=
  ((QString.split fname '/').getLast?).getD ""

/-- Modelled from the spec: the method `TrackLine::addWaypoint(location)` of trackline.cpp,
    which is not among the sources. A TrackLine is an "ordered sequence of Waypoint
    children; a line is its children's coordinates in order", and a node is "created only
    through a factory that (1) allocates the node, (2) appends/inserts it into a parent's
    child sequence": a new Waypoint holding `location` is appended to the children of the
    track line and returned. -/
def TrackLine.addWaypoint (s : AutonomousVehicleProject) (this : Nat)
    (location : QGeoCoordinate) : Option (AutonomousVehicleProject × Nat) :=
  match MissionItem.new s ClassName.Waypoint (some this) (-1) with
  | none => none
  | some (s1, wp) =>
    match s1.items wp with
    | none => none
    | some n => some (s1.store wp { n with m_location := location }, wp)

/-- The loop `for(int i = 1; i < parts.size()-1; i += 2)` of the "PTS" block of `import`,
    from position `i` on; `toDouble` stands for `QString::toDouble` (`none` when `ok` is
    false), `fuel` bounds the number of passes. -/
def importHypack_PTS (toDouble : String → Option Rat) (currentLine : Nat)
    (parts : List String) : Nat → Nat → AutonomousVehicleProject →
    Option AutonomousVehicleProject
  | 0, _, _ => none
  | fuel + 1, i, s =>
    if (i : Int) < (parts.length : Int) - 1 then
      match parts[i]? with
      | none => none
      | some latText =>
        match toDouble latText with
        | none => importHypack_PTS toDouble currentLine parts fuel (i + 2) s
        | some lat =>
          match parts[i + 1]? with
          | none => none
          | some lonText =>
            match toDouble lonText with
            | none => importHypack_PTS toDouble currentLine parts fuel (i + 2) s
            | some lon =>
              match TrackLine.addWaypoint s currentLine
                  { latitude := lat, longitude := lon } with
              | none => none
              | some (s1, wp) =>
                match MissionItem.setObjectName s1 wp "waypoint" with
                | none => none
                | some s2 => importHypack_PTS toDouble currentLine parts fuel (i + 2) s2
    else some s

/-- The block `if(parts[0] == "LIN")` of `import`: the state and the current line after
    it. -/
def importHypack_LIN (hypackGroup : Nat) (s : AutonomousVehicleProject)
    (currentLine : Option Nat) (parts : List String) :
    Option (AutonomousVehicleProject × Option Nat) :=
  match parts[0]? with
  | none => none
  | some tag =>
    if tag = "LIN" then
      match MissionItem.new s ClassName.TrackLine (some hypackGroup) (-1) with
      | none => none
      | some (s1, line) =>
        (MissionItem.setObjectName s1 line "trackline").map (fun s2 => (s2, some line))
    else some (s, currentLine)

/-- The block `if(parts[0] == "LNN" && currentLine)` of `import`: the state and the token
    list after it (`parts.removeAt(0)` drops the first token). -/
def importHypack_LNN (s : AutonomousVehicleProject) (currentLine : Option Nat)
    (parts : List String) : Option (AutonomousVehicleProject × List String) :=
  match parts[0]? with
  | none => none
  | some tag =>
    match currentLine with
    | none => some (s, parts)
    | some line =>
      if tag = "LNN" then
        let parts1 := parts.eraseIdx 0
        (MissionItem.setObjectName s line (QStringList.join parts1 " ")).map
          (fun s1 => (s1, parts1))
      else some (s, parts)

/-- The block `if(parts[0] == "PTS" && currentLine)` of `import`; reading `parts[0]` of an
    empty token list is out of range. -/
def importHypack_PTS_block (toDouble : String → Option Rat) (s : AutonomousVehicleProject)
    (currentLine : Option Nat) (parts : List String) : Option AutonomousVehicleProject :=
  match parts[0]? with
  | none => none
  | some tag =>
    match currentLine with
    | none => some s
    | some line =>
      if tag = "PTS" then importHypack_PTS toDouble line parts parts.length 1 s
      else some s

/-- The body of the loop `while(!instream.atEnd())` of `import` for one line of the file:
    the state and the current line after it. -/
def importHypack_line (toDouble : String → Option Rat) (hypackGroup : Nat)
    (s : AutonomousVehicleProject) (currentLine : Option Nat) (line : String) :
    Option (AutonomousVehicleProject × Option Nat) :=
  let parts := QString.split line ' '
  if parts.isEmpty then some (s, currentLine)
  else
    match parts[0]? with
    | none => none
    | some tag =>
      if tag.length = 3 then
        match importHypack_LIN hypackGroup s currentLine parts with
        | none => none
        | some (s1, currentLine1) =>
          match importHypack_LNN s1 currentLine1 parts with
          | none => none
          | some (s2, parts1) =>
            (importHypack_PTS_block toDouble s2 currentLine1 parts1).map
              (fun s3 => (s3, currentLine1))
      else some (s, currentLine)

/-- The loop `while(!instream.atEnd())` of `import` over the lines `readLine()` returns. -/
def importHypack_lines (toDouble : String → Option Rat) (hypackGroup : Nat) :
    AutonomousVehicleProject → Option Nat → List String →
    Option (AutonomousVehicleProject × Option Nat)
  | s, currentLine, [] => some (s, currentLine)
  | s, currentLine, line :: rest =>
    match importHypack_line toDouble hypackGroup s currentLine line with
    | none => none
    | some (s1, currentLine1) => importHypack_lines toDouble hypackGroup s1 currentLine1 rest

/-- The method `AutonomousVehicleProject::import` (the name is a reserved word here).
    `files` gives for a file name the lines of the file, or `none` when `open` fails;
    `toDouble` stands for `QString::toDouble`. -/
def importHypack (toDouble : String → Option Rat) (files : String → Option (List String))
    (s : AutonomousVehicleProject) (fname : String) : Option AutonomousVehicleProject :=
  match files fname with
  | none => some s
  | some lines =>
    match s.m_currentGroup with
    | none => none
    | some g =>
      match indexFromItem s (some g), MissionItem.new s ClassName.Group (some g) (-1) with
      | none, _ => none
      | _, none => none
      | some _, some (s1, hypackGroup) =>
        match MissionItem.setObjectName s1 hypackGroup (QFileInfo.fileName fname) with
        | none => none
        | some s2 => (importHypack_lines toDouble hypackGroup s2 none lines).map Prod.fst

/-- The pairs `(t1, t2), (t3, t4), ...` of a token list, from left to right; a last token
    without a partner is dropped. -/
def tokenPairs : List String → List (String × String)
  | t1 :: t2 :: rest => (t1, t2) :: tokenPairs rest
  | _ => []

/-- The coordinates the tokens of a PTS record stand for: one `(lat, lon)` for each pair
    whose two tokens both parse as numbers, in pair order. -/
def ptsCoordinates (toDouble : String → Option Rat) (tokens : List String) :
    List QGeoCoordinate :=
  (tokenPairs tokens).filterMap (fun p =>
    match toDouble p.1, toDouble p.2 with
    | some lat, some lon => some { latitude := lat, longitude := lon }
    | _, _ => none)

/-- Appends to the track line `line` one waypoint named "waypoint" for each coordinate,
    in order. -/
def appendWaypoints (line : Nat) :
    AutonomousVehicleProject → List QGeoCoordinate → Option AutonomousVehicleProject
  | s, [] => some s
  | s, c :: rest =>
    match TrackLine.addWaypoint s line c with
    | none => none
    | some (s1, wp) =>
      match MissionItem.setObjectName s1 wp "waypoint" with
      | none => none
      | some s2 => appendWaypoints line s2 rest

/-- A reader of unsigned decimal integers, used in the examples in the place of
    `QString::toDouble`: a non-empty string of digits is read as its value, any other
    string is not a number. -/
def decimalToDouble (t : String) : Option Rat :=
  if t.data ≠ [] ∧ t.data.all Char.isDigit = true then some (decimalValue t.data : Rat)
  else none

/-- The files of the examples. -/
def sampleFiles (fname : String) : Option (List String) :=
  if fname = "/data/lines.l84" then
    some ["LNS 1", "PTS 1 2", "LIN 2", "PTS 10 20 11 21 5", "LNN 7", "EOL", "hello", ""]
  else if fname = "/data/tag.l84" then some ["LIN 1", "LNN"]
  else if fname = "/data/name.l84" then some ["LIN 1", "LNN PTS 1 2"]
  else none

/-- The item at `a` as `(className, objectName, location, children)`. -/
def AutonomousVehicleProject.describe (s : AutonomousVehicleProject) (a : Nat) :
    Option (ClassName × String × QGeoCoordinate × List Nat) :=
  (s.items a).map (fun n => (n.className, n.objectName, n.m_location, n.m_childrenMissionItems))

/-! # Theorems -/

theorem sampleProject_live (a : Nat) (n : MissionItem)
    (h : sampleProject.items a = some n) : a < 5 := by
  simp only [sampleProject] at h
  split_ifs at h
  all_goals omega

theorem sampleProject_treeInv : TreeInv sampleProject := by
  refine ⟨sampleProject_live, ?_, ?_⟩
  · intro a n p h hp
    have ha := sampleProject_live a n h
    interval_cases a
    all_goals
      simp only [sampleProject] at h
      simp at h
      subst h
      simp at hp
    all_goals
      subst hp
      simp [sampleProject]
  · intro p pn c h hc
    have hp := sampleProject_live p pn h
    interval_cases p
    all_goals
      simp only [sampleProject] at h
      simp at h
      subst h
      simp at hc
    · rcases hc with rfl | rfl | rfl <;> simp [sampleProject]
    · subst hc
      simp [sampleProject]

/-! ## The parent chain -/

theorem reaches_succ (items : Nat → Option MissionItem) (f a t : Nat)
    (h : reaches items f a t = true) : reaches items (f + 1) a t = true := by
  induction f generalizing a with
  | zero => simp [reaches] at h
  | succ f ih =>
    rw [reaches] at h ⊢
    rcases Bool.or_eq_true _ _ |>.mp h with h1 | h1
    · simp [h1]
    · cases hi : items a with
      | none => simp [hi] at h1
      | some n =>
        cases hp : n.parent with
        | none => simp [hi, hp] at h1
        | some p =>
          simp only [hi, hp] at h1 ⊢
          simp [ih p h1]

theorem reaches_mono (items : Nat → Option MissionItem) (f g a t : Nat) (hfg : f ≤ g)
    (h : reaches items f a t = true) : reaches items g a t = true := by
  induction hfg with
  | refl => exact h
  | step _ ih => exact reaches_succ _ _ _ _ ih

theorem reaches_self (items : Nat → Option MissionItem) (f a : Nat) :
    reaches items (f + 1) a a = true := by
  simp [reaches]

theorem reaches_step (items : Nat → Option MissionItem) (f a t : Nat) (n : MissionItem)
    (p : Nat) (hi : items a = some n) (hp : n.parent = some p) (hne : a ≠ t) :
    reaches items (f + 1) a t = reaches items f p t := by
  rw [reaches]
  simp [hi, hp, hne]

theorem reaches_orphan (items : Nat → Option MissionItem) (f a t : Nat)
    (h : reaches items f a t = true) (hne : a ≠ t) :
    ∃ n p, items a = some n ∧ n.parent = some p := by
  cases f with
  | zero => simp [reaches] at h
  | succ f =>
    rw [reaches] at h
    cases hi : items a with
    | none => simp [hi, hne] at h
    | some n =>
      cases hp : n.parent with
      | none => simp [hi, hp, hne] at h
      | some p => exact ⟨n, p, rfl, hp⟩

theorem reaches_suffices (items : Nat → Option MissionItem)
    (hord : ∀ a n p, items a = some n → n.parent = some p → p < a) (t : Nat) :
    ∀ (a f : Nat), reaches items f a t = true → reaches items (a + 1) a t = true := by
  intro a
  induction a using Nat.strong_induction_on with
  | _ a ih =>
    intro f h
    by_cases hat : a = t
    · subst hat
      exact reaches_self _ _ _
    · cases f with
      | zero => simp [reaches] at h
      | succ f =>
        obtain ⟨n, p, hi, hp⟩ := reaches_orphan items (f + 1) a t h hat
        rw [reaches_step items f a t n p hi hp hat] at h
        rw [reaches_step items a a t n p hi hp hat]
        have hpa := hord a n p hi hp
        exact reaches_mono items (p + 1) a p t hpa (ih p hpa f h)

theorem reaches_congr (items items2 : Nat → Option MissionItem)
    (hpar : ∀ x, (items x).map (fun n => n.parent) = (items2 x).map (fun n => n.parent))
    (f a t : Nat) : reaches items f a t = reaches items2 f a t := by
  induction f generalizing a with
  | zero => simp [reaches]
  | succ f ih =>
    rw [reaches, reaches]
    have hx := hpar a
    cases hi : items a with
    | none =>
      cases hi2 : items2 a with
      | none => rfl
      | some n2 => simp [hi, hi2] at hx
    | some n =>
      cases hi2 : items2 a with
      | none => simp [hi, hi2] at hx
      | some n2 =>
        simp only [hi, hi2, Option.map_some', Option.some.injEq] at hx
        simp only [hx]
        cases n2.parent with
        | none => rfl
        | some p => simp only [ih p]

/-! ## The tree invariant is kept by construction and deletion -/

theorem count_removeAll_of_ne (l : List Nat) (a x : Nat) (h : x ≠ a) :
    (QList.removeAll l a).count x = l.count x := by
  unfold QList.removeAll
  exact List.count_filter (by simpa using h)

theorem mem_removeAll (l : List Nat) (a x : Nat) :
    x ∈ QList.removeAll l a ↔ x ∈ l ∧ x ≠ a := by
  simp [QList.removeAll]

theorem treeInv_deleteObject (s : AutonomousVehicleProject) (a : Nat) (n : MissionItem)
    (pi : Nat) (pn : MissionItem) (h : TreeInv s) (ha : s.items a = some n)
    (hp : n.parent = some pi) (hpi : s.items pi = some pn) :
    TreeInv (deleteObject (s.store pi
      { pn with m_childrenMissionItems := QList.removeAll pn.m_childrenMissionItems a })
      a) := by
  obtain ⟨h1, h2, h3⟩ := h
  have hord : ∀ a n p, s.items a = some n → n.parent = some p → p < a :=
    fun a n p hi hp => (h2 a n p hi hp).1
  have hcongr : ∀ f x, reaches (s.store pi
      { pn with m_childrenMissionItems :=
          QList.removeAll pn.m_childrenMissionItems a }).items f x a
      = reaches s.items f x a := by
    intro f x
    apply reaches_congr
    intro y
    simp only [AutonomousVehicleProject.store]
    split_ifs with hy
    · subst hy
      simp [hpi]
    · rfl
  have hDa : reaches s.items s.nextAddress a a = true := by
    have := h1 a n ha
    obtain ⟨k, hk⟩ := Nat.exists_eq_succ_of_ne_zero (show s.nextAddress ≠ 0 by omega)
    rw [hk]
    exact reaches_self _ _ _
  have hclos : ∀ x nx p, s.items x = some nx → nx.parent = some p →
      reaches s.items s.nextAddress p a = true →
      reaches s.items s.nextAddress x a = true := by
    intro x nx p hx hxp hD
    have hpx := hord x nx p hx hxp
    have hxn := h1 x nx hx
    have hsuf := reaches_suffices s.items hord a p _ hD
    by_cases hxa : x = a
    · subst hxa
      exact hDa
    · have h' : reaches s.items (x + 1) x a = true := by
        rw [reaches_step s.items x x a nx p hx hxp hxa]
        exact reaches_mono _ (p + 1) x p a hpx hsuf
      exact reaches_mono _ (x + 1) _ x a hxn h'
  have hup : ∀ x nx p, s.items x = some nx → nx.parent = some p → x ≠ a →
      reaches s.items s.nextAddress x a = true →
      reaches s.items s.nextAddress p a = true := by
    intro x nx p hx hxp hxa hD
    have hsuf := reaches_suffices s.items hord a x _ hD
    rw [reaches_step s.items x x a nx p hx hxp hxa] at hsuf
    have hsuf2 := reaches_suffices s.items hord a p _ hsuf
    have hpx := hord x nx p hx hxp
    have hxn := h1 x nx hx
    exact reaches_mono _ (p + 1) _ p a (by omega) hsuf2
  have hpilt : pi < a := hord a n pi ha hp
  refine ⟨?_, ?_, ?_⟩
  · intro x nx hx
    simp only [deleteObject, AutonomousVehicleProject.store] at hx ⊢
    split_ifs at hx with hD hxp
    · subst hxp
      exact h1 _ _ hpi
    · exact h1 _ _ hx
  · intro x nx p hx hxp
    simp only [deleteObject] at hx ⊢
    rw [hcongr] at hx
    simp only [hcongr]
    simp only [AutonomousVehicleProject.store] at hx ⊢
    split_ifs at hx with hD hxpi
    · -- x is the parent of the deleted item
      subst hxpi
      simp only [Option.some.injEq] at hx
      subst hx
      obtain ⟨hlt, ppn, hpp, hcnt⟩ := h2 x pn p hpi hxp
      refine ⟨hlt, ?_⟩
      have hDp : ¬ reaches s.items s.nextAddress p a = true :=
        fun hc => hD (hclos x pn p hpi hxp hc)
      have hpne : p ≠ x := by omega
      simp only [hDp, hpne, if_false]
      exact ⟨ppn, hpp, hcnt⟩
    · obtain ⟨hlt, ppn, hpp, hcnt⟩ := h2 x nx p hx hxp
      refine ⟨hlt, ?_⟩
      have hDp : ¬ reaches s.items s.nextAddress p a = true :=
        fun hc => hD (hclos x nx p hx hxp hc)
      have hxa : x ≠ a := by
        intro hxa
        subst hxa
        exact hD hDa
      simp only [hDp, if_false]
      by_cases hppi : p = pi
      · subst hppi
        rw [hpi] at hpp
        simp only [Option.some.injEq] at hpp
        subst hpp
        simp only [if_true]
        exact ⟨_, rfl, by rw [count_removeAll_of_ne _ _ _ hxa]; exact hcnt⟩
      · simp only [hppi, if_false]
        exact ⟨ppn, hpp, hcnt⟩
  · intro p pn2 c hx hc
    simp only [deleteObject] at hx ⊢
    rw [hcongr] at hx
    simp only [hcongr]
    simp only [AutonomousVehicleProject.store] at hx ⊢
    split_ifs at hx with hD hppi
    · subst hppi
      simp only [Option.some.injEq] at hx
      subst hx
      simp only at hc
      obtain ⟨hcm, hca⟩ := (mem_removeAll _ _ _).mp hc
      obtain ⟨cn, hcn, hcp⟩ := h3 p pn c hpi hcm
      have hDc : ¬ reaches s.items s.nextAddress c a = true :=
        fun hcD => hD (hup c cn p hcn hcp hca hcD)
      have hcne : c ≠ p := by
        have := hord c cn p hcn hcp
        omega
      simp only [hDc, hcne, if_false]
      exact ⟨cn, hcn, hcp⟩
    · obtain ⟨cn, hcn, hcp⟩ := h3 p pn2 c hx hc
      have hca : c ≠ a := by
        intro hca
        subst hca
        rw [ha] at hcn
        simp only [Option.some.injEq] at hcn
        subst hcn
        rw [hp] at hcp
        simp only [Option.some.injEq] at hcp
        exact hppi hcp.symm
      have hDc : ¬ reaches s.items s.nextAddress c a = true :=
        fun hcD => hD (hup c cn p hcn hcp hca hcD)
      simp only [hDc, if_false]
      by_cases hcpi : c = pi
      · subst hcpi
        rw [hpi] at hcn
        simp only [Option.some.injEq] at hcn
        subst hcn
        simp only [if_true]
        exact ⟨_, rfl, hcp⟩
      · simp only [hcpi, if_false]
        exact ⟨cn, hcn, hcp⟩

theorem count_QList_insert (l : List Nat) (i : Int) (x y : Nat) :
    (QList.insert l i y).count x = l.count x + (if y = x then 1 else 0) := by
  have key : ∀ k, (l.take k ++ y :: l.drop k).count x
      = l.count x + (if y = x then 1 else 0) := by
    intro k
    have h := congrArg (List.count x) (List.take_append_drop k l)
    simp only [List.count_append, List.count_cons, beq_iff_eq] at h ⊢
    omega
  unfold QList.insert
  by_cases h1 : i ≤ 0
  · rw [if_pos h1]
    simpa using key 0
  · rw [if_neg h1]
    by_cases h2 : (l.length : Int) ≤ i
    · rw [if_pos h2]
      simpa using key l.length
    · rw [if_neg h2]
      exact key _

theorem mem_QList_insert (l : List Nat) (i : Int) (x y : Nat) :
    x ∈ QList.insert l i y ↔ x = y ∨ x ∈ l := by
  have h := count_QList_insert l i x y
  constructor
  · intro hm
    by_cases hxy : x = y
    · exact Or.inl hxy
    · have hyx : ¬ y = x := fun e => hxy e.symm
      simp only [hyx, if_false, add_zero] at h
      exact Or.inr (List.count_pos_iff.mp (h ▸ List.count_pos_iff.mpr hm))
  · intro hm
    apply List.count_pos_iff.mp
    rw [h]
    rcases hm with rfl | hm
    · simp
    · have := List.count_pos_iff.mpr hm
      omega

/-- The child sequence that the constructor leaves in the parent. -/
theorem new_some (s : AutonomousVehicleProject) (cls : ClassName) (p : Nat)
    (pn : MissionItem) (row : Int) (hp : s.items p = some pn) :
    MissionItem.new s cls (some p) row =
      some ({ (s.store p { pn with m_childrenMissionItems :=
                  if row < 0 then pn.m_childrenMissionItems ++ [s.nextAddress]
                  else QList.insert pn.m_childrenMissionItems row s.nextAddress }).store
                s.nextAddress
                { className := cls, objectName := "", parent := some p,
                  m_childrenMissionItems := [] } with
              nextAddress := s.nextAddress + 1 }, s.nextAddress) := by
  simp only [MissionItem.new, hp]

theorem new_fresh (s : AutonomousVehicleProject) (cls : ClassName) (parent : Option Nat)
    (row : Int) (s' : AutonomousVehicleProject) (x : Nat)
    (h : MissionItem.new s cls parent row = some (s', x)) :
    x = s.nextAddress ∧ s'.nextAddress = s.nextAddress + 1 := by
  unfold MissionItem.new at h
  cases parent with
  | none =>
    simp only [Option.some.injEq, Prod.mk.injEq] at h
    obtain ⟨h1, h2⟩ := h
    subst h1
    exact ⟨h2.symm, rfl⟩
  | some p =>
    cases hp : s.items p with
    | none => simp [hp] at h
    | some pn =>
      simp only [hp, Option.some.injEq, Prod.mk.injEq] at h
      obtain ⟨h1, h2⟩ := h
      subst h1
      exact ⟨h2.symm, rfl⟩

theorem treeInv_new_orphan (s : AutonomousVehicleProject) (cls : ClassName) (row : Int)
    (s' : AutonomousVehicleProject) (x : Nat) (h : TreeInv s)
    (hnew : MissionItem.new s cls none row = some (s', x)) : TreeInv s' := by
  obtain ⟨h1, h2, h3⟩ := h
  simp only [MissionItem.new, Option.some.injEq, Prod.mk.injEq] at hnew
  obtain ⟨hs, -⟩ := hnew
  subst hs
  have hfresh : ∀ n, s.items s.nextAddress ≠ some n := fun n hn => by
    have := h1 _ _ hn
    omega
  refine ⟨?_, ?_, ?_⟩
  · intro a n ha
    simp only [AutonomousVehicleProject.store] at ha ⊢
    split_ifs at ha with hx
    · omega
    · have := h1 a n ha
      omega
  · intro a n p ha hp
    simp only [AutonomousVehicleProject.store] at ha ⊢
    split_ifs at ha with hx
    · simp only [Option.some.injEq] at ha
      subst ha
      simp at hp
    · obtain ⟨hlt, pn, hpn, hcnt⟩ := h2 a n p ha hp
      refine ⟨hlt, pn, ?_, hcnt⟩
      have : p ≠ s.nextAddress := fun e => hfresh pn (e ▸ hpn)
      simp only [this, if_false]
      exact hpn
  · intro p pn c hpn hc
    simp only [AutonomousVehicleProject.store] at hpn ⊢
    split_ifs at hpn with hx
    · simp only [Option.some.injEq] at hpn
      subst hpn
      simp at hc
    · obtain ⟨cn, hcn, hcp⟩ := h3 p pn c hpn hc
      have : c ≠ s.nextAddress := fun e => hfresh cn (e ▸ hcn)
      simp only [this, if_false]
      exact ⟨cn, hcn, hcp⟩

theorem treeInv_new_child (s : AutonomousVehicleProject) (cls : ClassName) (q : Nat)
    (row : Int) (s' : AutonomousVehicleProject) (x : Nat) (h : TreeInv s)
    (hnew : MissionItem.new s cls (some q) row = some (s', x)) : TreeInv s' := by
  obtain ⟨h1, h2, h3⟩ := h
  cases hq : s.items q with
  | none => simp [MissionItem.new, hq] at hnew
  | some qn =>
    rw [new_some s cls q qn row hq] at hnew
    have hfresh : ∀ n, s.items s.nextAddress ≠ some n := fun n hn => by
      have := h1 _ _ hn
      omega
    have hqlt : q < s.nextAddress := h1 q qn hq
    have hnotin : s.nextAddress ∉ qn.m_childrenMissionItems := fun hm => by
      obtain ⟨cn, hcn, -⟩ := h3 q qn _ hq hm
      exact hfresh cn hcn
    have hcount : ∀ y, (if row < 0 then qn.m_childrenMissionItems ++ [s.nextAddress]
        else QList.insert qn.m_childrenMissionItems row s.nextAddress).count y
        = qn.m_childrenMissionItems.count y + (if s.nextAddress = y then 1 else 0) := by
      intro y
      split_ifs with hr hy hy
      · simp [List.count_append, hy]
      · simp [List.count_append, List.count_cons, hy]
      · rw [count_QList_insert]
        simp [hy]
      · rw [count_QList_insert]
        simp [hy]
    have hmem : ∀ y, y ∈ (if row < 0 then qn.m_childrenMissionItems ++ [s.nextAddress]
        else QList.insert qn.m_childrenMissionItems row s.nextAddress) →
        y = s.nextAddress ∨ y ∈ qn.m_childrenMissionItems := by
      intro y hy
      split_ifs at hy with hr
      · simp only [List.mem_append, List.mem_singleton] at hy
        tauto
      · exact (mem_QList_insert _ _ _ _).mp hy
    generalize (if row < 0 then qn.m_childrenMissionItems ++ [s.nextAddress]
        else QList.insert qn.m_childrenMissionItems row s.nextAddress) = ch
      at hnew hcount hmem
    simp only [Option.some.injEq, Prod.mk.injEq] at hnew
    obtain ⟨hs, -⟩ := hnew
    subst hs
    refine ⟨?_, ?_, ?_⟩
    · intro a n ha
      simp only [AutonomousVehicleProject.store] at ha ⊢
      split_ifs at ha with hx hx2
      · omega
      · omega
      · have := h1 a n ha
        omega
    · intro a n p ha hp
      simp only [AutonomousVehicleProject.store] at ha ⊢
      split_ifs at ha with hx hx2
      · -- the new object
        simp only [Option.some.injEq] at ha
        subst ha
        simp only [Option.some.injEq] at hp
        subst hp
        subst hx
        refine ⟨hqlt, ?_⟩
        have hne : q ≠ s.nextAddress := by omega
        simp only [hne, if_false, if_true]
        refine ⟨_, rfl, ?_⟩
        simp only
        rw [hcount, List.count_eq_zero_of_not_mem hnotin]
        simp
      · -- the parent of the new object
        subst hx2
        simp only [Option.some.injEq] at ha
        subst ha
        obtain ⟨hlt, pn, hpn, hcnt⟩ := h2 a qn p hq hp
        refine ⟨hlt, ?_⟩
        have hne1 : p ≠ s.nextAddress := by omega
        have hne2 : p ≠ a := by omega
        simp only [hne1, hne2, if_false]
        exact ⟨pn, hpn, hcnt⟩
      · obtain ⟨hlt, pn, hpn, hcnt⟩ := h2 a n p ha hp
        refine ⟨hlt, ?_⟩
        have hne1 : p ≠ s.nextAddress := fun e => hfresh pn (e ▸ hpn)
        simp only [hne1, if_false]
        by_cases hpq : p = q
        · subst hpq
          rw [hq] at hpn
          simp only [Option.some.injEq] at hpn
          subst hpn
          simp only [if_true]
          refine ⟨_, rfl, ?_⟩
          simp only
          rw [hcount]
          have : ¬ s.nextAddress = a := fun e => hx e.symm
          simp [this, hcnt]
        · simp only [hpq, if_false]
          exact ⟨pn, hpn, hcnt⟩
    · intro p pn c hpn hc
      simp only [AutonomousVehicleProject.store] at hpn ⊢
      split_ifs at hpn with hx hx2
      · simp only [Option.some.injEq] at hpn
        subst hpn
        simp at hc
      · subst hx2
        simp only [Option.some.injEq] at hpn
        subst hpn
        simp only at hc
        rcases hmem c hc with hcx | hcm
        · subst hcx
          simp
        · obtain ⟨cn, hcn, hcp⟩ := h3 p qn c hq hcm
          have hne1 : c ≠ s.nextAddress := fun e => hfresh cn (e ▸ hcn)
          have hne2 : c ≠ p := by
            have := (h2 c cn p hcn hcp).1
            omega
          simp only [hne1, hne2, if_false]
          exact ⟨cn, hcn, hcp⟩
      · obtain ⟨cn, hcn, hcp⟩ := h3 p pn c hpn hc
        have hne1 : c ≠ s.nextAddress := fun e => hfresh cn (e ▸ hcn)
        simp only [hne1, if_false]
        by_cases hcq : c = q
        · subst hcq
          rw [hq] at hcn
          simp only [Option.some.injEq] at hcn
          subst hcn
          simp only [if_true]
          exact ⟨_, rfl, hcp⟩
        · simp only [hcq, if_false]
          exact ⟨cn, hcn, hcp⟩

theorem treeInv_new (s : AutonomousVehicleProject) (cls : ClassName) (parent : Option Nat)
    (row : Int) (s' : AutonomousVehicleProject) (x : Nat) (h : TreeInv s)
    (hnew : MissionItem.new s cls parent row = some (s', x)) : TreeInv s' := by
  cases parent with
  | none => exact treeInv_new_orphan s cls row s' x h hnew
  | some q => exact treeInv_new_child s cls q row s' x h hnew

/-! ## What `deleteItem` does to the object store -/

theorem setCurrentBackground_frame (s s1 : AutonomousVehicleProject) (bgr : Option Nat)
    (h : setCurrentBackground s bgr = some s1) :
    s1.items = s.items ∧ s1.nextAddress = s.nextAddress ∧ s1.m_root = s.m_root ∧
    s1.m_currentPlatform = s.m_currentPlatform ∧ s1.m_currentGroup = s.m_currentGroup ∧
    s1.m_currentSelected = s.m_currentSelected ∧ s1.m_contextMode = s.m_contextMode ∧
    s1.unique_label_counter = s.unique_label_counter ∧ s1.m_currentBackground = bgr := by
  unfold setCurrentBackground at h
  split at h
  · simp at h
  · cases bgr with
    | none =>
      simp only [Option.some.injEq] at h
      subst h
      simp
    | some b =>
      simp only at h
      split at h
      · simp at h
      · simp only [Option.some.injEq] at h
        subst h
        split_ifs <;> simp

theorem deleteItem_clearBackground_frame (s s1 : AutonomousVehicleProject)
    (item : Option Nat) (h : deleteItem_clearBackground s item = some s1) :
    s1.items = s.items ∧ s1.nextAddress = s.nextAddress ∧ s1.m_root = s.m_root ∧
    s1.m_currentPlatform = s.m_currentPlatform ∧ s1.m_currentGroup = s.m_currentGroup ∧
    s1.m_currentSelected = s.m_currentSelected ∧ s1.m_contextMode = s.m_contextMode ∧
    s1.unique_label_counter = s.unique_label_counter := by
  unfold deleteItem_clearBackground at h
  cases item with
  | none =>
    simp only [Option.some.injEq] at h
    subst h
    simp
  | some a =>
    simp only at h
    cases hi : s.items a with
    | none => simp [hi] at h
    | some n =>
      simp only [hi] at h
      split_ifs at h with hc hb
      · cases hs : setCurrentBackground s none with
        | none => simp [hs] at h
        | some s2 =>
          obtain ⟨f1, f2, f3, f4, f5, f6, f7, f8, -⟩ := setCurrentBackground_frame s s2 none hs
          simp only [hs, Option.some.injEq] at h
          subst h
          split_ifs <;> simp [f1, f2, f3, f4, f5, f6, f7, f8]
      · simp only [Option.some.injEq] at h
        subst h
        split_ifs <;> simp
      · simp only [Option.some.injEq] at h
        subst h
        simp

theorem itemFromIndex_some (index : QModelIndex) (a : Nat)
    (h : itemFromIndex index = some a) : index.isValid = true ∧ index.i = some a := by
  unfold itemFromIndex at h
  split_ifs at h with hv
  exact ⟨hv, h⟩

theorem deleteItem_remove_some (s s' : AutonomousVehicleProject) (index : QModelIndex)
    (a : Nat) (hitem : itemFromIndex index = some a)
    (h : deleteItem_remove s index (some a) = some s') :
    ∃ n pi pn, s.items a = some n ∧ n.parent = some pi ∧ s.items pi = some pn ∧
      s' = deleteObject (s.store pi
        { pn with m_childrenMissionItems := QList.removeAll pn.m_childrenMissionItems a })
        a := by
  obtain ⟨hv, hi⟩ := itemFromIndex_some index a hitem
  unfold deleteItem_remove at h
  unfold parent at h
  simp only [hv, if_true, hitem] at h
  cases hn : s.items a with
  | none => simp [hn] at h
  | some n =>
    simp only [hn] at h
    cases hp : n.parent with
    | none => simp [hp, itemFromIndex, QModelIndex.invalid, QModelIndex.isValid] at h
    | some pi =>
      simp only [hp] at h
      cases hr : MissionItem.row s pi with
      | none => simp [hr] at h
      | some r =>
        simp only [hr] at h
        cases hpi : itemFromIndex (createIndex r 0 (some pi)) with
        | none => simp [hpi] at h
        | some pi2 =>
          have hpi2 := (itemFromIndex_some _ _ hpi).2
          simp only [createIndex, Option.some.injEq] at hpi2
          subst hpi2
          simp only [hpi] at h
          unfold MissionItem.removeChildMissionItem at h
          cases hpn : s.items pi with
          | none => simp [hpn] at h
          | some pn =>
            simp only [hpn, Option.some.injEq] at h
            exact ⟨n, pi, pn, rfl, hp, hpn, h.symm⟩

theorem deleteItem_some (s s' : AutonomousVehicleProject) (index : QModelIndex)
    (a : Nat) (hitem : itemFromIndex index = some a) (h : deleteItem s index = some s') :
    ∃ s1 n pi pn, deleteItem_clearBackground s (some a) = some s1 ∧
      s.items a = some n ∧ n.parent = some pi ∧ s.items pi = some pn ∧
      s' = deleteObject (s1.store pi
        { pn with m_childrenMissionItems := QList.removeAll pn.m_childrenMissionItems a })
        a := by
  unfold deleteItem at h
  simp only [hitem] at h
  cases hc : deleteItem_clearBackground s (some a) with
  | none => simp [hc] at h
  | some s1 =>
    simp only [hc] at h
    obtain ⟨n, pi, pn, h1, h2, h3, h4⟩ := deleteItem_remove_some s1 s' index a hitem h
    have hf := (deleteItem_clearBackground_frame s s1 (some a) hc).1
    rw [hf] at h1 h3
    exact ⟨s1, n, pi, pn, rfl, h1, h2, h3, h4⟩

/-- An index that designates no item makes `deleteItem` dereference a null parent. -/
theorem deleteItem_null (s : AutonomousVehicleProject) (index : QModelIndex)
    (hitem : itemFromIndex index = none) : deleteItem s index = none := by
  have hpar : parent s index = some QModelIndex.invalid := by
    unfold parent
    rw [hitem]
    split_ifs <;> rfl
  have hinv : itemFromIndex QModelIndex.invalid = none := rfl
  unfold deleteItem
  simp only [hitem, deleteItem_clearBackground, deleteItem_remove, hpar, hinv]

theorem indexFromItem_item (s : AutonomousVehicleProject) (a : Nat) (index : QModelIndex)
    (h : indexFromItem s (some a) = some index) :
    itemFromIndex index = some a ∨ itemFromIndex index = none := by
  unfold indexFromItem at h
  simp only at h
  split_ifs at h with hr
  · simp only [Option.some.injEq] at h
    subst h
    left
    simp [itemFromIndex, createIndex, QModelIndex.isValid]
  · cases hn : s.items a with
    | none => simp [hn] at h
    | some n =>
      simp only [hn] at h
      cases hp : n.parent with
      | none =>
        simp only [hp, Option.some.injEq] at h
        subst h
        right
        simp [itemFromIndex, QModelIndex.invalid, QModelIndex.isValid]
      | some p =>
        simp only [hp] at h
        cases hpn : s.items p with
        | none => simp [hpn] at h
        | some pn =>
          simp only [hpn, Option.some.injEq] at h
          subst h
          unfold itemFromIndex
          split_ifs
          · left
            rfl
          · right
            rfl

theorem treeInv_deleteItemPtr (s s' : AutonomousVehicleProject) (a : Nat) (h : TreeInv s)
    (hdel : deleteItemPtr s (some a) = some s') : TreeInv s' := by
  unfold deleteItemPtr at hdel
  cases hidx : indexFromItem s (some a) with
  | none => simp [hidx] at hdel
  | some index =>
    simp only [hidx] at hdel
    rcases indexFromItem_item s a index hidx with hitem | hitem
    · obtain ⟨s1, n, pi, pn, hc, hn, hp, hpn, hs'⟩ := deleteItem_some s s' index a hitem hdel
      obtain ⟨f1, f2, -⟩ := deleteItem_clearBackground_frame s s1 (some a) hc
      have hinv1 : TreeInv s1 := by
        unfold TreeInv
        rw [f1, f2]
        exact h
      subst hs'
      exact treeInv_deleteObject s1 a n pi pn hinv1 (f1 ▸ hn) hp (f1 ▸ hpn)
    · rw [deleteItem_null s index hitem] at hdel
      simp at hdel

/-! ## C1: row consistency -/

theorem rowConsistent_of_treeInv (s : AutonomousVehicleProject) (h : TreeInv s) :
    RowConsistent s := by
  obtain ⟨-, h2, -⟩ := h
  intro a n p ha hp hroot
  obtain ⟨-, pn, hpn, hcnt⟩ := h2 a n p ha hp
  have hmem : a ∈ pn.m_childrenMissionItems := by
    apply List.count_pos_iff.mp
    omega
  have hlt : List.indexOf a pn.m_childrenMissionItems < pn.m_childrenMissionItems.length :=
    List.indexOf_lt_length.mpr hmem
  refine ⟨pn, List.indexOf a pn.m_childrenMissionItems, hpn, ?_, ?_, ?_, hcnt⟩
  · simp [MissionItem.row, ha, hp, hpn, QList.indexOf, hmem]
  · simp [indexFromItem, hroot, ha, hp, hpn, QList.indexOf, hmem]
  · rw [List.getElem?_eq_getElem hlt, List.getElem_indexOf hlt]

theorem treeInv_apply (s s' : AutonomousVehicleProject) (op : TreeOp) (h : TreeInv s)
    (hop : op.apply s = some s') : TreeInv s' := by
  cases op with
  | construct cls parent row =>
    simp only [TreeOp.apply, Option.map_eq_some'] at hop
    obtain ⟨⟨s2, x⟩, hnew, hfst⟩ := hop
    simp only at hfst
    subst hfst
    exact treeInv_new s cls parent row s2 x h hnew
  | delete item => exact treeInv_deleteItemPtr s s' item h hop

theorem treeInv_runOps (ops : List TreeOp) :
    ∀ (s s' : AutonomousVehicleProject), TreeInv s → runOps s ops = some s' → TreeInv s' := by
  induction ops with
  | nil =>
    intro s s' h hrun
    simp only [runOps, Option.some.injEq] at hrun
    exact hrun ▸ h
  | cons op rest ih =>
    intro s s' h hrun
    simp only [runOps] at hrun
    cases hop : op.apply s with
    | none => simp [hop] at hrun
    | some s1 =>
      simp only [hop] at hrun
      exact ih s1 s' (treeInv_apply s s1 op h hop) hrun

/-- C1: starting from a tree in which every item occurs exactly once in its parent's child
    sequence, after any sequence of constructions (any class, parent and row) and deletions
    the tree invariant still holds and every item other than the root that has a parent `p`
    sits exactly once in the child sequence of `p`, at the row `r` that `MissionItem::row()`
    and `indexFromItem` report: `p.children[r] = item`. -/
theorem row_consistency_invariant (s s' : AutonomousVehicleProject) (ops : List TreeOp)
    (h : TreeInv s) (hrun : runOps s ops = some s') : TreeInv s' ∧ RowConsistent s' :=
  ⟨treeInv_runOps ops s s' h hrun,
   rowConsistent_of_treeInv s' (treeInv_runOps ops s s' h hrun)⟩

theorem row_consistency_invariant_witness :
    TreeInv sampleProject ∧
    ∃ s', runOps sampleProject sampleOps = some s' ∧ TreeInv s' ∧ RowConsistent s' := by
  refine ⟨sampleProject_treeInv, ?_⟩
  obtain ⟨s', hs'⟩ := Option.isSome_iff_exists.mp
    (by decide : (runOps sampleProject sampleOps).isSome = true)
  exact ⟨s', hs', row_consistency_invariant sampleProject s' sampleOps
    sampleProject_treeInv hs'⟩

/-! ## C2: the insertion position of a new item -/

/-- C2: a new item constructed under a live parent with child sequence `c` is appended when
    `row < 0` and put before position `row` when `0 ≤ row ≤ |c|`; for every row the old
    children keep their relative order, and no other object changes. -/
theorem construct_inserts_at_row (s : AutonomousVehicleProject) (cls : ClassName) (p : Nat)
    (pn : MissionItem) (row : Int) (hp : s.items p = some pn)
    (hfresh : s.items s.nextAddress = none) :
    ∃ s', MissionItem.new s cls (some p) row = some (s', s.nextAddress) ∧
      (row < 0 → s'.childMissionItems p =
        some (pn.m_childrenMissionItems ++ [s.nextAddress])) ∧
      (0 ≤ row → row ≤ (pn.m_childrenMissionItems.length : Int) →
        s'.childMissionItems p =
          some (pn.m_childrenMissionItems.take row.toNat ++ [s.nextAddress] ++
                pn.m_childrenMissionItems.drop row.toNat)) ∧
      (∃ c', s'.childMissionItems p = some c' ∧ pn.m_childrenMissionItems.Sublist c') ∧
      (∀ q, q ≠ p → q ≠ s.nextAddress → s'.items q = s.items q) := by
  have hne : p ≠ s.nextAddress := by
    intro e
    rw [e, hfresh] at hp
    simp at hp
  refine ⟨_, new_some s cls p pn row hp, ?_, ?_, ?_, ?_⟩
  · intro hr
    simp [AutonomousVehicleProject.childMissionItems, AutonomousVehicleProject.store, hne, hr]
  · intro h0 hlen
    have hr : ¬ row < 0 := by omega
    simp only [AutonomousVehicleProject.childMissionItems, AutonomousVehicleProject.store,
      hne, if_false, if_true, hr, Option.map_some', Option.some.injEq]
    unfold QList.insert
    split_ifs with h1 h2
    · have : row = 0 := by omega
      subst this
      simp
    · have : row.toNat = pn.m_childrenMissionItems.length := by omega
      rw [this]
      simp
    · simp
  · simp only [AutonomousVehicleProject.childMissionItems, AutonomousVehicleProject.store,
      hne, if_false, if_true, Option.map_some', Option.some.injEq, exists_eq_left']
    split_ifs with hr
    · exact List.sublist_append_left _ _
    · unfold QList.insert
      split_ifs with h1 h2
      · exact List.sublist_cons_self _ _
      · exact List.sublist_append_left _ _
      · have := List.take_append_drop row.toNat pn.m_childrenMissionItems
        conv_lhs => rw [← this]
        exact List.Sublist.append (List.Sublist.refl _) (List.sublist_cons_self _ _)
  · intro q hq hqx
    simp [AutonomousVehicleProject.store, hq, hqx]

theorem construct_inserts_at_row_witness :
    ∃ s', MissionItem.new sampleProject ClassName.Waypoint (some 0) 1 = some (s', 5) ∧
      s'.childMissionItems 0 = some [1, 5, 2, 3] := by
  obtain ⟨s', h1, -, h3, -, -⟩ := construct_inserts_at_row sampleProject ClassName.Waypoint 0
    { className := ClassName.Group, objectName := "root", parent := none,
      m_childrenMissionItems := [1, 2, 3] } 1 rfl rfl
  exact ⟨s', h1, h3 (by decide) (by decide)⟩

/-! ## C3: the effective parent -/

theorem pathUp_fuel (items : Nat → Option MissionItem)
    (hord : ∀ a n p, items a = some n → n.parent = some p → p < a) :
    ∀ (a f g : Nat), a < f → a < g → pathUp items f a = pathUp items g a := by
  intro a
  induction a using Nat.strong_induction_on with
  | _ a ih =>
    intro f g hf hg
    obtain ⟨f, rfl⟩ := Nat.exists_eq_succ_of_ne_zero (show f ≠ 0 by omega)
    obtain ⟨g, rfl⟩ := Nat.exists_eq_succ_of_ne_zero (show g ≠ 0 by omega)
    simp only [pathUp]
    cases hi : items a with
    | none => rfl
    | some n =>
      cases hp : n.parent with
      | none => simp only [hp]
      | some p =>
        have := hord a n p hi hp
        simp only [hp, ih p this f g (by omega) (by omega)]

theorem potentialParentItemFor_loop_eq (s : AutonomousVehicleProject) (childType : String)
    (h : TreeInv s) :
    ∀ (a fuel : Nat), a < fuel → (∃ n, s.items a = some n) →
      potentialParentItemFor_loop s childType fuel (some a) =
        some ((pathUp s.items fuel a).find? (s.accepts childType)) := by
  obtain ⟨h1, h2, -⟩ := h
  intro a
  induction a using Nat.strong_induction_on with
  | _ a ih =>
    intro fuel hf hlive
    obtain ⟨n, hn⟩ := hlive
    obtain ⟨f, rfl⟩ := Nat.exists_eq_succ_of_ne_zero (show fuel ≠ 0 by omega)
    simp only [potentialParentItemFor_loop, pathUp, hn, List.find?_cons,
      AutonomousVehicleProject.accepts]
    cases hacc : n.canAcceptChildType childType with
    | true => simp
    | false =>
      simp only [Bool.false_eq_true, if_false]
      cases hp : n.parent with
      | none => simp [potentialParentItemFor_loop]
      | some p =>
        obtain ⟨hlt, pn, hpn, -⟩ := h2 a n p hn hp
        simp only
        rw [ih p hlt f (by omega) ⟨pn, hpn⟩]

theorem potentialParentItemFor_loop_accepts (s : AutonomousVehicleProject)
    (childType : String) (h : TreeInv s)
    (honly : ∀ a n, s.items a = some n → n.parent = none → a = s.m_root)
    (hroot : ∀ r, s.items s.m_root = some r → r.canAcceptChildType childType = true) :
    ∀ (a fuel : Nat), a < fuel → (∃ n, s.items a = some n) →
      ∃ b nb, potentialParentItemFor_loop s childType fuel (some a) = some (some b) ∧
        s.items b = some nb ∧ nb.canAcceptChildType childType = true := by
  obtain ⟨h1, h2, -⟩ := h
  intro a
  induction a using Nat.strong_induction_on with
  | _ a ih =>
    intro fuel hf hlive
    obtain ⟨n, hn⟩ := hlive
    obtain ⟨f, rfl⟩ := Nat.exists_eq_succ_of_ne_zero (show fuel ≠ 0 by omega)
    simp only [potentialParentItemFor_loop, hn]
    cases hacc : n.canAcceptChildType childType with
    | true => exact ⟨a, n, by simp, hn, hacc⟩
    | false =>
      simp only [Bool.false_eq_true, if_false]
      cases hp : n.parent with
      | none =>
        have := honly a n hn hp
        subst this
        rw [hroot n hn] at hacc
        simp at hacc
      | some p =>
        obtain ⟨hlt, pn, hpn, -⟩ := h2 a n p hn hp
        exact ih p hlt f (by omega) ⟨pn, hpn⟩

/-- C3: with context mode off `potentialParentItemFor` returns the root. With context mode
    on, in a well formed tree whose walk start (the current selection, or the root when
    nothing is selected) is a live item, the upward walk ends for every fuel that covers the
    store and returns the first item on the path from the walk start along the parent links
    that accepts the type, and returns no item exactly when no item on that path accepts.
    When moreover the root is the only item without a parent and accepts the requested
    type, the result is an item that accepts the requested type. -/
theorem potentialParentItemFor_resolves (s : AutonomousVehicleProject) (childType : String)
    (fuel : Nat) (h : TreeInv s) (hstart : ∃ n, s.items s.walkStart = some n)
    (hfuel : s.nextAddress ≤ fuel) :
    (s.m_contextMode = false →
      potentialParentItemFor s fuel childType = some (some s.m_root)) ∧
    (s.m_contextMode = true →
      potentialParentItemFor s fuel childType =
        some ((s.pathToRoot s.walkStart).find? (s.accepts childType)) ∧
      (potentialParentItemFor s fuel childType = some none ↔
        ∀ a ∈ s.pathToRoot s.walkStart, s.accepts childType a = false)) ∧
    ((∀ a n, s.items a = some n → n.parent = none → a = s.m_root) →
      (∃ r, s.items s.m_root = some r ∧ r.canAcceptChildType childType = true) →
      ∃ b nb, potentialParentItemFor s fuel childType = some (some b) ∧
        s.items b = some nb ∧ nb.canAcceptChildType childType = true) := by
  have hlt : s.walkStart < s.nextAddress := by
    obtain ⟨n, hn⟩ := hstart
    exact h.1 _ _ hn
  have hwalk : s.m_contextMode = true → potentialParentItemFor s fuel childType =
      some ((s.pathToRoot s.walkStart).find? (s.accepts childType)) := by
    intro hm
    have := potentialParentItemFor_loop_eq s childType h s.walkStart fuel (by omega) hstart
    rw [pathUp_fuel s.items (fun a n p hi hp => (h.2.1 a n p hi hp).1) s.walkStart fuel
      s.nextAddress (by omega) hlt] at this
    simp only [potentialParentItemFor, hm, Bool.not_true, Bool.false_eq_true, if_false]
    exact this
  refine ⟨?_, ?_, ?_⟩
  · intro hm
    simp [potentialParentItemFor, hm]
  · intro hm
    refine ⟨hwalk hm, ?_⟩
    rw [hwalk hm]
    simp only [Option.some.injEq, List.find?_eq_none, Bool.not_eq_true]
  · intro honly hroot
    obtain ⟨r, hr, hracc⟩ := hroot
    cases hm : s.m_contextMode with
    | false => exact ⟨s.m_root, r, by simp [potentialParentItemFor, hm], hr, hracc⟩
    | true =>
      have hroot2 : ∀ r2, s.items s.m_root = some r2 →
          r2.canAcceptChildType childType = true := by
        intro r2 hr2
        rw [hr] at hr2
        simp only [Option.some.injEq] at hr2
        exact hr2 ▸ hracc
      have := potentialParentItemFor_loop_accepts s childType h honly hroot2 s.walkStart
        fuel (by omega) hstart
      simpa only [potentialParentItemFor, hm, Bool.not_true, Bool.false_eq_true,
        if_false] using this

theorem potentialParentItemFor_resolves_witness :
    potentialParentItemFor sampleProject 5 "Waypoint" = some (some 0) ∧
    sampleProject.m_currentSelected = some 1 ∧
    sampleProject.accepts "Waypoint" 1 = false := by
  have h := (potentialParentItemFor_resolves sampleProject "Waypoint" 5
    sampleProject_treeInv ⟨_, rfl⟩ (Nat.le_refl _)).2.1 rfl
  refine ⟨h.1.trans (by decide), rfl, by decide⟩

/-! ## C4: a waypoint below a platform -/

/-- C4 (the code at the failing input): the platform `1` of `sampleProject` accepts only
    "Behavior" children, and `addWaypoint` with the platform selected puts the new waypoint
    below the root in either context mode; but `readChildren` on the platform, and
    `dropMimeData` onto the platform, given an array with one "Waypoint" object, leave the
    new waypoint `5` as a direct child of the platform. Reading, at the root, a platform
    object whose "children" hold a waypoint likewise leaves the waypoint `6` as a direct
    child of the new platform `5`. -/
theorem readChildren_waypoint_under_platform :
    (∀ t, (sampleProject.items 1).map (fun n => n.canAcceptChildType t)
        = some (decide (t = "Behavior"))) ∧
    (addWaypoint sampleProject).bind (fun r => (r.1.items r.2).map (fun n => n.parent))
      = some (some 0) ∧
    (addWaypoint { sampleProject with m_contextMode := false }).bind
        (fun r => (r.1.items r.2).map (fun n => n.parent)) = some (some 0) ∧
    (MissionItem.readChildren noRasters sampleProject 1 (-1) [entry "Waypoint" "wp"]).bind
        (fun s => (s.childMissionItems 1, (s.items 5).map (fun n => (n.className, n.parent))))
      = some (some [5], some (ClassName.Waypoint, some 1)) ∧
    (dropMimeData noRasters sampleProject [entry "Waypoint" "wp"] 0 platformIndex).bind
        (fun r => (r.1.childMissionItems 1,
                   (r.1.items 5).map (fun n => (n.className, n.parent))))
      = some (some [5], some (ClassName.Waypoint, some 1)) ∧
    (MissionItem.readChildren noRasters sampleProject 0 (-1) [platformWithWaypoint]).bind
        (fun s => (s.childMissionItems 5, (s.items 5).map (fun n => n.className),
                   (s.items 6).map (fun n => (n.className, n.parent))))
      = some (some [6], some ClassName.Platform, some (ClassName.Waypoint, some 5)) := by
  refine ⟨?_, by decide, by decide, by decide, by decide, by decide⟩
  intro t
  rfl

/-! ## C5: the order of the items read at a row -/

/-- C5 (the code at the failing input): reading the array of two waypoints "a", "b" at row
    `1` of the root of `sampleProject`, whose child sequence is `[1, 2, 3]`, leaves
    `[1, 6, 5, 2, 3]`, where `5` is the item built from "a" and `6` the item built from
    "b": the second item lands before the first one. A drop onto the group `2` at row `0`
    does the same, and with a negative row the items are appended in array order. -/
theorem readChildren_row_order_reversed :
    (MissionItem.readChildren noRasters sampleProject 0 1
        [entry "Waypoint" "a", entry "Waypoint" "b"]).bind
        (fun s => (s.childMissionItems 0, (s.items 5).map (fun n => n.objectName),
                   (s.items 6).map (fun n => n.objectName)))
      = some (some [1, 6, 5, 2, 3], some "a", some "b") ∧
    (dropMimeData noRasters sampleProject [entry "Waypoint" "a", entry "Waypoint" "b"] 0
        groupIndex).bind
        (fun r => (r.1.childMissionItems 2, (r.1.items 5).map (fun n => n.objectName),
                   (r.1.items 6).map (fun n => n.objectName)))
      = some (some [6, 5, 4], some "a", some "b") ∧
    (MissionItem.readChildren noRasters sampleProject 0 (-1)
        [entry "Waypoint" "a", entry "Waypoint" "b"]).bind
        (fun s => s.childMissionItems 0)
      = some [1, 2, 3, 5, 6] := by
  refine ⟨by decide, by decide, by decide⟩

/-! ## C6: the kinds the child reader builds -/

theorem isString_eq (v : QJsonValue) (t : String) (h : v.isString t = true) :
    v = QJsonValue.string t := by
  cases v <;> simp_all [QJsonValue.isString]

theorem createMissionItem_some (s : AutonomousVehicleProject) (this : Nat) (n : MissionItem)
    (cls : ClassName) (name : String) (row : Int) (h : s.items this = some n) :
    ∃ s', MissionItem.createMissionItem s this cls name row = some (s', s.nextAddress) ∧
      s'.items s.nextAddress =
        some { className := cls, objectName := name, parent := some this,
               m_childrenMissionItems := [] } ∧
      s'.m_currentPlatform = s.m_currentPlatform := by
  simp only [MissionItem.createMissionItem, new_some s cls this n row h,
    MissionItem.setObjectName, AutonomousVehicleProject.store, if_true, Option.map_some']
  exact ⟨_, rfl, by simp, rfl⟩

/-- The "Waypoint" branch of `readChildren` builds the waypoint below the receiving item
    whatever that item is: `canAcceptChildType` is not consulted. -/
theorem readChildren_create_waypoint (s : AutonomousVehicleProject) (this : Nat)
    (n : MissionItem) (object : QJsonObject) (row : Int) (h : s.items this = some n)
    (htype : (object.value "type").isString "Waypoint" = true) :
    ∃ s', MissionItem.readChildren_create s this object row
        = some (s', some s.nextAddress) ∧
      s'.items s.nextAddress =
        some { className := ClassName.Waypoint, objectName := "waypoint",
               parent := some this, m_childrenMissionItems := [] } := by
  have hv := isString_eq _ _ htype
  obtain ⟨s', h1, h2, -⟩ :=
    createMissionItem_some s this n ClassName.Waypoint "waypoint" row h
  refine ⟨s', ?_, h2⟩
  simp [MissionItem.readChildren_create, MissionItem.readChildren_case, hv,
    QJsonValue.isString, h1]

/-- An array entry whose "type" is none of the eight names `readChildren` knows leaves the
    state as it is, and the entries after it are read from that state. -/
theorem readChildren_skips_unknown (files : RasterFiles) (s : AutonomousVehicleProject)
    (this : Nat) (row : Int) (object : QJsonObject) (rest : QJsonArray)
    (h : ∀ t ∈ ["BackgroundRaster", "VectorDataset", "Waypoint", "TrackLine",
      "SurveyPattern", "SurveyArea", "Platform", "Group"],
      (object.value "type").isString t = false) :
    MissionItem.readChildren files s this row (QJsonValue.object object :: rest)
      = MissionItem.readChildren files s this row rest := by
  simp only [List.mem_cons, List.mem_singleton, List.not_mem_nil, or_false, forall_eq_or_imp,
    forall_eq] at h
  obtain ⟨h1, h2, h3, h4, h5, h6, h7, h8⟩ := h
  simp [MissionItem.readChildren, MissionItem.readChildren_body,
    MissionItem.readChildren_resources, MissionItem.readChildren_create,
    MissionItem.readChildren_case, h1, h2, h3, h4, h5, h6, h7, h8]

/-- For each of the six types that `readChildren` dispatches on, the dispatch builds one new
    item of the class named by the type, below the receiving item. -/
theorem readChildren_create_kind (s : AutonomousVehicleProject) (this : Nat)
    (n : MissionItem) (object : QJsonObject) (row : Int) (type : String) (cls : ClassName)
    (h : s.items this = some n)
    (hkind : (type, cls) ∈ [("Waypoint", ClassName.Waypoint),
      ("TrackLine", ClassName.TrackLine), ("SurveyPattern", ClassName.SurveyPattern),
      ("SurveyArea", ClassName.SurveyArea), ("Platform", ClassName.Platform),
      ("Group", ClassName.Group)])
    (htype : (object.value "type").isString type = true) :
    ∃ s', MissionItem.readChildren_create s this object row
        = some (s', some s.nextAddress) ∧
      (s'.items s.nextAddress).map (fun x => (x.className, x.parent))
        = some (cls, some this) := by
  have hv := isString_eq _ _ htype
  have hcounter : ∀ pfx, (generateUniqueLabel s pfx).2.items this = some n := fun _ => h
  have hnext : ∀ pfx, (generateUniqueLabel s pfx).2.nextAddress = s.nextAddress :=
    fun _ => rfl
  simp only [List.mem_cons, Prod.mk.injEq, List.mem_singleton, List.not_mem_nil,
    or_false] at hkind
  rcases hkind with ⟨rfl, rfl⟩ | ⟨rfl, rfl⟩ | ⟨rfl, rfl⟩ | ⟨rfl, rfl⟩ | ⟨rfl, rfl⟩ | ⟨rfl, rfl⟩
  · obtain ⟨s', h1, h2, -⟩ :=
      createMissionItem_some s this n ClassName.Waypoint "waypoint" row h
    exact ⟨s', by simp [MissionItem.readChildren_create, MissionItem.readChildren_case, hv,
      QJsonValue.isString, h1], by simp [h2]⟩
  · obtain ⟨s', h1, h2, -⟩ := createMissionItem_some (generateUniqueLabel s "trackline").2
      this n ClassName.TrackLine (generateUniqueLabel s "trackline").1 row (hcounter _)
    rw [hnext] at h1 h2
    exact ⟨s', by simp [MissionItem.readChildren_create, MissionItem.readChildren_case, hv,
      QJsonValue.isString, createTrackLine, factoryReceiver, h1], by simp [h2]⟩
  · obtain ⟨s', h1, h2, -⟩ := createMissionItem_some (generateUniqueLabel s "pattern").2
      this n ClassName.SurveyPattern (generateUniqueLabel s "pattern").1 row (hcounter _)
    rw [hnext] at h1 h2
    exact ⟨s', by simp [MissionItem.readChildren_create, MissionItem.readChildren_case, hv,
      QJsonValue.isString, createSurveyPattern, factoryReceiver, h1], by simp [h2]⟩
  · obtain ⟨s', h1, h2, -⟩ := createMissionItem_some (generateUniqueLabel s "area").2
      this n ClassName.SurveyArea (generateUniqueLabel s "area").1 row (hcounter _)
    rw [hnext] at h1 h2
    exact ⟨s', by simp [MissionItem.readChildren_create, MissionItem.readChildren_case, hv,
      QJsonValue.isString, createSurveyArea, factoryReceiver, h1], by simp [h2]⟩
  · obtain ⟨s', h1, h2, -⟩ :=
      createMissionItem_some s this n ClassName.Platform "platform" row h
    exact ⟨{ s' with m_currentPlatform := some s.nextAddress },
      by simp [MissionItem.readChildren_create, MissionItem.readChildren_case, hv,
        QJsonValue.isString, createPlatform, factoryReceiver, h1], by simp [h2]⟩
  · obtain ⟨s', h1, h2, -⟩ := createMissionItem_some (generateUniqueLabel s "group").2
      this n ClassName.Group (generateUniqueLabel s "group").1 row (hcounter _)
    rw [hnext] at h1 h2
    exact ⟨s', by simp [MissionItem.readChildren_create, MissionItem.readChildren_case, hv,
      QJsonValue.isString, createGroup, factoryReceiver, h1], by simp [h2]⟩

/-- C6 (the code at the failing input): an array entry whose "type" is "Behavior" is
    skipped by `readChildren`: for every project state, receiving item and row the call
    returns the state unchanged, so no child is added. -/
theorem readChildren_skips_behavior (files : RasterFiles) (s : AutonomousVehicleProject)
    (this : Nat) (row : Int) (object : QJsonObject)
    (h : (object.value "type").isString "Behavior" = true) :
    MissionItem.readChildren files s this row [QJsonValue.object object] = some s := by
  have hv := isString_eq _ _ h
  simp [MissionItem.readChildren, MissionItem.readChildren_body,
    MissionItem.readChildren_resources, MissionItem.readChildren_create,
    MissionItem.readChildren_case, hv, QJsonValue.isString]

theorem readChildren_skips_behavior_witness :
    MissionItem.readChildren noRasters sampleProject 2 (-1) [entry "Behavior" "b"]
      = some sampleProject ∧
    sampleProject.childMissionItems 2 = some [4] :=
  ⟨readChildren_skips_behavior noRasters sampleProject 2 (-1)
    [("label", QJsonValue.string "b"), ("type", QJsonValue.string "Behavior")] (by decide),
   rfl⟩

/-! ## C7: the label through `write` and `read` -/

theorem value_set (json : QJsonObject) (key : String) (v : QJsonValue) :
    (json.set key v).value key = v := by
  induction json with
  | nil => simp [QJsonObject.set, QJsonObject.value]
  | cons e rest ih =>
    obtain ⟨k, w⟩ := e
    by_cases hk : k = key
    · simp [QJsonObject.set, QJsonObject.value, hk]
    · simp [QJsonObject.set, QJsonObject.value, hk, ih]

/-- C7 (the claim fails for an empty label): in `unlabelledProject` the platform `1` has the
    empty label and the waypoint `4` has the label "waypoint0001"; after the waypoint reads
    the object the platform wrote, its label is still "waypoint0001", not the empty label
    of the platform. -/
theorem label_round_trip_fails_for_empty_label :
    (unlabelledProject.items 1).map (fun n => n.objectName) = some "" ∧
    ((MissionItem.write unlabelledProject 1 []).bind
        (fun j => MissionItem.read unlabelledProject 4 j)).bind
        (fun s => (s.items 4).map (fun n => n.objectName))
      = some "waypoint0001" := by
  refine ⟨by decide, by decide⟩

/-- C7 (amended): for live items `n` at `a` and `m` at `b`, `write` of `n` into any object
    followed by `read` of the result by `m` succeeds and leaves `m` with the label of `n`
    when that label is not empty, and with its own label when the label of `n` is empty.
    Separately, `read` of an object whose "label" is absent, empty or not a string
    succeeds and leaves the state, hence the label of `m`, unchanged. -/
theorem label_round_trip (s : AutonomousVehicleProject) (a b : Nat) (n m : MissionItem)
    (json : QJsonObject) (ha : s.items a = some n) (hb : s.items b = some m) :
    (∃ j s', MissionItem.write s a json = some j ∧ MissionItem.read s b j = some s' ∧
      (s'.items b).map (fun x => x.objectName) =
        some (if n.objectName.length > 0 then n.objectName else m.objectName)) ∧
    (∀ json2 : QJsonObject, (json2.value "label").toString.length = 0 →
      MissionItem.read s b json2 = some s) := by
  constructor
  · have hw : MissionItem.write s a json
        = some (json.set "label" (QJsonValue.string n.objectName)) := by
      simp [MissionItem.write, ha]
    by_cases hl : n.objectName.length > 0
    · refine ⟨_, s.store b { m with objectName := n.objectName }, hw, ?_, ?_⟩
      · simp [MissionItem.read, hb, value_set, QJsonValue.toString, hl,
          MissionItem.setObjectName]
      · simp [hl, AutonomousVehicleProject.store]
    · refine ⟨_, s, hw, ?_, ?_⟩
      · simp [MissionItem.read, hb, value_set, QJsonValue.toString, hl]
      · simp [hl, hb]
  · intro json2 h2
    simp [MissionItem.read, hb, h2]

theorem label_round_trip_witness :
    (∃ j s', MissionItem.write sampleProject 2 [] = some j ∧
      MissionItem.read sampleProject 4 j = some s' ∧
      (s'.items 4).map (fun x => x.objectName) = some "group0000") ∧
    (∀ json2 : QJsonObject, (json2.value "label").toString.length = 0 →
      MissionItem.read sampleProject 4 json2 = some sampleProject) :=
  label_round_trip sampleProject 2 4
    { className := ClassName.Group, objectName := "group0000", parent := some 0,
      m_childrenMissionItems := [4] }
    { className := ClassName.Waypoint, objectName := "waypoint0001", parent := some 2,
      m_childrenMissionItems := [] } [] rfl rfl

/-! ## C8: references to a deleted item -/

/-- C8 (the code at the failing input): in `sampleProject` the platform `1` is both the
    current selection and the current platform; after `deleteItem` of the platform the
    object is gone from the store and from the root's children, and both references still
    hold its address. After `setCurrent` on the group `2` (selection and insertion group
    are then `2`), deleting the group leaves both of these pointing at the deleted group,
    and the next `setCurrent` touches the deleted object. -/
theorem deleteItem_leaves_references :
    (deleteItem sampleProject platformIndex).map
        (fun s => ((s.items 1).isNone, s.childMissionItems 0, s.m_currentSelected,
                   s.m_currentPlatform))
      = some (true, some [2, 3], some 1, some 1) ∧
    ((setCurrent sampleProject groupIndex).bind (fun s => deleteItem s groupIndex)).map
        (fun s => ((s.items 2).isNone, s.childMissionItems 0, s.m_currentSelected,
                   s.m_currentGroup))
      = some (true, some [1, 3], some 2, some 2) ∧
    (((setCurrent sampleProject groupIndex).bind (fun s => deleteItem s groupIndex)).bind
        (fun s => setCurrent s platformIndex)).isNone = true := by
  refine ⟨by decide, by decide, by decide⟩

/-- The second half of `deleteItem` and the block before it leave the current selection,
    the current platform and the current group as they are, whatever item is deleted. -/
theorem deleteItem_keeps_references (s s' : AutonomousVehicleProject) (index : QModelIndex)
    (h : deleteItem s index = some s') :
    s'.m_currentSelected = s.m_currentSelected ∧
    s'.m_currentPlatform = s.m_currentPlatform ∧
    s'.m_currentGroup = s.m_currentGroup := by
  cases hitem : itemFromIndex index with
  | none =>
    rw [deleteItem_null s index hitem] at h
    simp at h
  | some a =>
    obtain ⟨s1, n, pi, pn, hc, -, -, -, hs'⟩ := deleteItem_some s s' index a hitem h
    obtain ⟨-, -, -, f4, f5, f6, -⟩ := deleteItem_clearBackground_frame s s1 (some a) hc
    subst hs'
    simp [deleteObject, AutonomousVehicleProject.store, f4, f5, f6]

/-! ## C9: deleting the current background -/

theorem reaches_le (items : Nat → Option MissionItem)
    (hord : ∀ a n p, items a = some n → n.parent = some p → p < a) (t : Nat) :
    ∀ (f a : Nat), reaches items f a t = true → t ≤ a := by
  intro f
  induction f with
  | zero =>
    intro a h
    simp [reaches] at h
  | succ f ih =>
    intro a h
    by_cases hat : a = t
    · omega
    · obtain ⟨n, p, hi, hp⟩ := reaches_orphan items (f + 1) a t h hat
      rw [reaches_step items f a t n p hi hp hat] at h
      have := ih p h
      have := hord a n p hi hp
      omega

theorem row_nonneg (s : AutonomousVehicleProject) (h : TreeInv s) (a : Nat)
    (n : MissionItem) (ha : s.items a = some n) :
    ∃ r : Nat, MissionItem.row s a = some (r : Int) := by
  cases hp : n.parent with
  | none => exact ⟨0, by simp [MissionItem.row, ha, hp]⟩
  | some p =>
    obtain ⟨-, pn, hpn, hcnt⟩ := h.2.1 a n p ha hp
    have hmem : a ∈ pn.m_childrenMissionItems := by
      apply List.count_pos_iff.mp
      omega
    exact ⟨List.indexOf a pn.m_childrenMissionItems,
      by simp [MissionItem.row, ha, hp, hpn, QList.indexOf, hmem]⟩

theorem deleteItem_remove_ok (s : AutonomousVehicleProject) (h : TreeInv s)
    (index : QModelIndex) (b p : Nat) (n pn : MissionItem)
    (hidx : itemFromIndex index = some b) (hb : s.items b = some n)
    (hp : n.parent = some p) (hpn : s.items p = some pn) :
    deleteItem_remove s index (some b) = some (deleteObject (s.store p
      { pn with m_childrenMissionItems := QList.removeAll pn.m_childrenMissionItems b })
      b) := by
  obtain ⟨hv, -⟩ := itemFromIndex_some index b hidx
  obtain ⟨r, hr⟩ := row_nonneg s h p pn hpn
  have hpar : parent s index = some (createIndex (r : Int) 0 (some p)) := by
    simp [parent, hv, hidx, hb, hp, hr]
  have hitem : itemFromIndex (createIndex (r : Int) 0 (some p)) = some p := by
    simp [itemFromIndex, createIndex, QModelIndex.isValid]
  simp [deleteItem_remove, hpar, hitem, MissionItem.removeChildMissionItem, hpn]

/-- C9: when the current background is the live BackgroundRaster `b`, a child of `p` in a
    well formed tree, `deleteItem` on an index of `b` succeeds. Its first half sets the
    current background to null, and the current depth raster to null if that was `b`,
    while `b` is still stored and still listed by its parent; only the second half takes
    `b` out of the parent's child sequence and deletes it. In the final state neither
    reference points at `b`. -/
theorem deleteItem_clears_background_first (s : AutonomousVehicleProject)
    (index : QModelIndex) (b p : Nat) (n : MissionItem) (hinv : TreeInv s)
    (hidx : itemFromIndex index = some b) (hb : s.items b = some n)
    (hcls : n.className = ClassName.BackgroundRaster) (hp : n.parent = some p)
    (hcur : s.m_currentBackground = some b) :
    ∃ s1 s', deleteItem_clearBackground s (some b) = some s1 ∧
      deleteItem_remove s1 index (some b) = some s' ∧
      deleteItem s index = some s' ∧
      s1.m_currentBackground = none ∧
      s1.m_currentDepthRaster =
        (if s.m_currentDepthRaster = some b then none else s.m_currentDepthRaster) ∧
      s1.items b = some n ∧
      (∃ pn, s1.items p = some pn ∧ b ∈ pn.m_childrenMissionItems) ∧
      s'.m_currentBackground = none ∧
      s'.m_currentDepthRaster ≠ some b ∧
      s'.items b = none ∧
      (∃ pn', s'.items p = some pn' ∧ b ∉ pn'.m_childrenMissionItems) := by
  obtain ⟨hlt, pn, hpn, hcnt⟩ := hinv.2.1 b n p hb hp
  have hmem : b ∈ pn.m_childrenMissionItems := by
    apply List.count_pos_iff.mp
    omega
  have hclear : deleteItem_clearBackground s (some b) = some
      (if s.m_currentDepthRaster = some b then
        { s with m_currentBackground := none, m_currentDepthRaster := none }
       else { s with m_currentBackground := none }) := by
    simp only [deleteItem_clearBackground, hb, hcls, hcur, if_true, setCurrentBackground,
      Option.map_some']
  obtain ⟨f1, f2, -⟩ := deleteItem_clearBackground_frame s _ (some b) hclear
  generalize (if s.m_currentDepthRaster = some b then
        ({ s with m_currentBackground := none, m_currentDepthRaster := none } :
          AutonomousVehicleProject)
       else { s with m_currentBackground := none }) = s1 at hclear f1 f2
  have hbg : s1.m_currentBackground = none ∧ s1.m_currentDepthRaster =
      (if s.m_currentDepthRaster = some b then none else s.m_currentDepthRaster) := by
    have := hclear
    simp only [deleteItem_clearBackground, hb, hcls, hcur, if_true, setCurrentBackground,
      Option.map_some', Option.some.injEq] at this
    subst this
    split_ifs with hd <;> simp [hd]
  have hinv1 : TreeInv s1 := by
    unfold TreeInv
    rw [f1, f2]
    exact hinv
  have hrem := deleteItem_remove_ok s1 hinv1 index b p n pn hidx (f1 ▸ hb) hp (f1 ▸ hpn)
  have hbnext : b < s1.nextAddress := hinv1.1 b n (f1 ▸ hb)
  have hord : ∀ a n p, s1.items a = some n → n.parent = some p → p < a :=
    fun a n p hi hp => (hinv1.2.1 a n p hi hp).1
  refine ⟨s1, _, hclear, hrem, ?_, hbg.1, hbg.2, f1 ▸ hb, ⟨pn, f1 ▸ hpn, hmem⟩, ?_, ?_, ?_, ?_⟩
  · simp only [deleteItem, hidx, hclear, hrem]
  · simp [deleteObject, AutonomousVehicleProject.store, hbg.1]
  · simp only [deleteObject, AutonomousVehicleProject.store, hbg.2]
    split_ifs with hd
    · simp
    · exact hd
  · have hself : reaches (s1.store p
        { pn with m_childrenMissionItems :=
            QList.removeAll pn.m_childrenMissionItems b }).items s1.nextAddress b b
        = true := by
      obtain ⟨k, hk⟩ := Nat.exists_eq_succ_of_ne_zero (show s1.nextAddress ≠ 0 by omega)
      rw [hk]
      exact reaches_self _ _ _
    simp only [deleteObject]
    simp only [AutonomousVehicleProject.store] at hself ⊢
    simp [hself]
  · have hcongr : reaches (s1.store p
        { pn with m_childrenMissionItems :=
            QList.removeAll pn.m_childrenMissionItems b }).items s1.nextAddress p b
        = reaches s1.items s1.nextAddress p b := by
      apply reaches_congr
      intro y
      simp only [AutonomousVehicleProject.store]
      split_ifs with hy
      · subst hy
        simp [f1, hpn]
      · rfl
    have hno : reaches s1.items s1.nextAddress p b ≠ true := by
      intro hr
      have := reaches_le s1.items hord b _ _ hr
      omega
    rw [← hcongr] at hno
    simp only [deleteObject]
    simp only [AutonomousVehicleProject.store] at hno ⊢
    simp only [hno, if_false, if_true]
    exact ⟨_, rfl, by simp [mem_removeAll]⟩

theorem deleteItem_clears_background_first_witness :
    ∃ s1 s', deleteItem_clearBackground sampleProject (some 3) = some s1 ∧
      deleteItem sampleProject rasterIndex = some s' ∧
      s1.m_currentBackground = none ∧ s1.m_currentDepthRaster = none ∧
      (∃ pn, s1.items 0 = some pn ∧ 3 ∈ pn.m_childrenMissionItems) ∧
      s'.m_currentBackground = none ∧ s'.m_currentDepthRaster ≠ some 3 ∧
      s'.items 3 = none := by
  obtain ⟨s1, s', h1, -, h3, h4, h5, -, h7, h8, h9, h10, -⟩ :=
    deleteItem_clears_background_first sampleProject rasterIndex 3 0
      { className := ClassName.BackgroundRaster, objectName := "chart.tif", parent := some 0,
        m_childrenMissionItems := [], m_depthValid := true }
      sampleProject_treeInv rfl rfl rfl rfl rfl
  exact ⟨s1, s', h1, h3, h4, h5, h7, h8, h9, h10⟩

/-! ## C10: an index that designates no item -/

/-- C10 (the code at the failing input): for every project state and every index that
    designates no live item (the invalid index, or a stale index whose object is gone),
    `deleteItem`, `generateMissionPlan` and `generateMissionTask` all run into a
    dereference of a missing object instead of returning. -/
theorem missing_item_is_dereferenced (s : AutonomousVehicleProject) (index : QModelIndex)
    (writeToMissionPlan : AutonomousVehicleProject → Nat → QJsonArray → QJsonArray)
    (write : AutonomousVehicleProject → Nat → QJsonObject → QJsonObject)
    (h : ∀ a, itemFromIndex index = some a → s.items a = none) :
    deleteItem s index = none ∧
    generateMissionPlan writeToMissionPlan s index = none ∧
    generateMissionTask write s index = none := by
  cases hitem : itemFromIndex index with
  | none =>
    refine ⟨deleteItem_null s index hitem, ?_, ?_⟩
    · simp only [generateMissionPlan, hitem]
      split <;> rfl
    · simp only [generateMissionTask, hitem]
      split <;> rfl
  | some a =>
    have ha := h a hitem
    refine ⟨?_, ?_, ?_⟩
    · simp [deleteItem, hitem, deleteItem_clearBackground, ha]
    · simp only [generateMissionPlan, hitem, ha]
      split <;> rfl
    · simp only [generateMissionTask, hitem, ha]
      split <;> rfl

theorem missing_item_is_dereferenced_witness :
    deleteItem sampleProject QModelIndex.invalid = none ∧
    generateMissionPlan (fun _ _ nav => nav) sampleProject QModelIndex.invalid = none ∧
    generateMissionTask (fun _ _ json => json) sampleProject QModelIndex.invalid = none :=
  missing_item_is_dereferenced sampleProject QModelIndex.invalid (fun _ _ nav => nav)
    (fun _ _ json => json) (fun a ha => by simp [itemFromIndex, QModelIndex.invalid,
      QModelIndex.isValid] at ha)

/-! ## C11: a background that fails to load -/

theorem openBackground_failed (files : RasterFiles) (s : AutonomousVehicleProject)
    (fname : String) (hinvalid : files.valid fname = false)
    (r : AutonomousVehicleProject × Option Nat) (h : openBackground files s fname = some r) :
    r.2 = none := by
  unfold openBackground at h
  split at h
  · simp at h
  · split at h
    · simp at h
    · simp at h
    · split at h
      · simp at h
      · simp only [hinvalid, Bool.false_eq_true, if_false, Option.map_eq_some'] at h
        obtain ⟨s3, -, rfl⟩ := h
        rfl

/-- The failed load itself, on `sampleProject`: `openBackground` returns no node, and the
    child sequence of the current group and the two raster references are as before. -/
theorem openBackground_failed_sample :
    (openBackground noRasters sampleProject "chart.tif").map
        (fun r => (r.2, r.1.childMissionItems 0, r.1.childMissionItems 2))
      = some (none, some [1, 2, 3], some [4]) ∧
    (openBackground noRasters sampleProject "chart.tif").map
        (fun r => (r.1.m_currentBackground, r.1.m_currentDepthRaster, (r.1.items 5).isNone))
      = some (some 3, some 3, true) := by
  refine ⟨by decide, by decide⟩

/-- C11 (the code at the failing input): when the raster loader reports the file of a
    "BackgroundRaster" entry invalid, `openBackground` hands back a null pointer and
    `readChildren` calls `read` on it: for every project state, receiving item and row the
    call runs into that dereference, and the entries after it are never read. -/
theorem readChildren_failed_background_faults (files : RasterFiles)
    (s : AutonomousVehicleProject) (this : Nat) (row : Int) (object : QJsonObject)
    (rest : QJsonArray)
    (htype : (object.value "type").isString "BackgroundRaster" = true)
    (hinvalid : files.valid (object.value "filename").toString = false) :
    MissionItem.readChildren files s this row (QJsonValue.object object :: rest) = none := by
  have hres : MissionItem.readChildren_resources files s object = none := by
    unfold MissionItem.readChildren_resources
    rw [if_pos htype]
    cases hopen : openBackground files s (object.value "filename").toString with
    | none => rfl
    | some r =>
      obtain ⟨s1, b⟩ := r
      have hb : b = none := openBackground_failed files s _ hinvalid (s1, b) hopen
      subst hb
      rfl
  simp [MissionItem.readChildren, MissionItem.readChildren_body, hres]

theorem readChildren_failed_background_faults_witness :
    MissionItem.readChildren noRasters sampleProject 0 (-1)
      [QJsonValue.object rasterEntry, entry "Waypoint" "wp"] = none :=
  readChildren_failed_background_faults noRasters sampleProject 0 (-1) rasterEntry
    [entry "Waypoint" "wp"] (by decide) (by decide)

/-! ## C12: the default parameters of the mission plan -/

/-- C12 (the claim fails without a platform): in `noPlatformProject`, where no platform is
    current, the plan generated for the group `2` has a top level object that does contain
    the key "DEFAULT_PARAMETERS"; its value is the empty object. -/
theorem generateMissionPlan_keeps_default_parameters_key :
    noPlatformProject.m_currentPlatform = none ∧
    (generateMissionPlan (fun _ _ nav => nav) noPlatformProject groupIndex).map
        (fun plan => (plan.toObject.contains "DEFAULT_PARAMETERS",
                      (plan.toObject.value "DEFAULT_PARAMETERS").toObject.length))
      = some (true, 0) := by
  refine ⟨rfl, by decide⟩

/-- C12 (amended): for every live target item, when a live current platform with cruise
    speed `v` exists the plan's top level object holds "DEFAULT_PARAMETERS" with the one
    entry "defaultspeed_ms" = `v * 0.514444`; when no platform is current the top level
    object still holds "DEFAULT_PARAMETERS", with the empty object as its value. In both
    cases "NAVIGATION" holds what the item's plan writer produced. Real numbers are taken
    as exact rationals. -/
theorem generateMissionPlan_default_parameters
    (writeToMissionPlan : AutonomousVehicleProject → Nat → QJsonArray → QJsonArray)
    (s : AutonomousVehicleProject) (index : QModelIndex) (a : Nat) (n : MissionItem)
    (hitem : itemFromIndex index = some a) (ha : s.items a = some n) :
    (∀ p pn, s.m_currentPlatform = some p → s.items p = some pn →
      generateMissionPlan writeToMissionPlan s index = some (QJsonValue.object
        [("DEFAULT_PARAMETERS", QJsonValue.object
            [("defaultspeed_ms", QJsonValue.double (pn.m_speed * 0.514444))]),
         ("NAVIGATION", QJsonValue.array (writeToMissionPlan s a []))])) ∧
    (s.m_currentPlatform = none →
      generateMissionPlan writeToMissionPlan s index = some (QJsonValue.object
        [("DEFAULT_PARAMETERS", QJsonValue.object []),
         ("NAVIGATION", QJsonValue.array (writeToMissionPlan s a []))])) := by
  constructor
  · intro p pn hp hpn
    simp [generateMissionPlan, hitem, ha, hp, hpn, QJsonObject.set]
  · intro hp
    simp [generateMissionPlan, hitem, ha, hp, QJsonObject.set]

theorem generateMissionPlan_default_parameters_witness :
    generateMissionPlan (fun _ _ nav => nav) tenKnotsProject groupIndex
      = some (QJsonValue.object
        [("DEFAULT_PARAMETERS", QJsonValue.object
            [("defaultspeed_ms", QJsonValue.double (10 * 0.514444))]),
         ("NAVIGATION", QJsonValue.array [])]) ∧
    (10 : Rat) * 0.514444 = 5.14444 :=
  ⟨(generateMissionPlan_default_parameters (fun _ _ nav => nav) tenKnotsProject groupIndex 2
      { className := ClassName.Group, objectName := "group0000", parent := some 0,
        m_childrenMissionItems := [4] } rfl rfl).1 1
      { className := ClassName.Platform, objectName := "platform", parent := some 0,
        m_childrenMissionItems := [], m_speed := 10 } rfl rfl,
   by norm_num⟩

/-! ## C13: the mission task -/

/-- C13: for every live target item, `generateMissionTask` returns an array whose last
    element is the object written by the target; with a live current platform the array has
    exactly two elements, the object written by the platform first, and with no current
    platform it has exactly one. The method only reads the project state: it returns the
    document and nothing else. -/
theorem generateMissionTask_order
    (write : AutonomousVehicleProject → Nat → QJsonObject → QJsonObject)
    (s : AutonomousVehicleProject) (index : QModelIndex) (a : Nat) (n : MissionItem)
    (hitem : itemFromIndex index = some a) (ha : s.items a = some n) :
    (∀ p pn, s.m_currentPlatform = some p → s.items p = some pn →
      generateMissionTask write s index = some (QJsonValue.array
        [QJsonValue.object (write s p []), QJsonValue.object (write s a [])])) ∧
    (s.m_currentPlatform = none →
      generateMissionTask write s index = some (QJsonValue.array
        [QJsonValue.object (write s a [])])) := by
  constructor
  · intro p pn hp hpn
    simp [generateMissionTask, hitem, ha, hp, hpn]
  · intro hp
    simp [generateMissionTask, hitem, ha, hp]

theorem generateMissionTask_order_witness :
    generateMissionTask (fun s a json => ((MissionItem.write s a json).getD json))
        sampleProject groupIndex
      = some (QJsonValue.array
        [QJsonValue.object [("label", QJsonValue.string "platform")],
         QJsonValue.object [("label", QJsonValue.string "group0000")]]) :=
  (generateMissionTask_order (fun s a json => ((MissionItem.write s a json).getD json))
    sampleProject groupIndex 2
    { className := ClassName.Group, objectName := "group0000", parent := some 0,
      m_childrenMissionItems := [4] } rfl rfl).1 1
    { className := ClassName.Platform, objectName := "platform", parent := some 0,
      m_childrenMissionItems := [] } rfl rfl

/-! ## C15: the format of a generated label -/

theorem digitChar_toNat (d : Nat) (h : d < 10) : (Nat.digitChar d).toNat - 48 = d := by
  interval_cases d <;> rfl

theorem digitChar_lt (d e : Nat) (hd : d < 10) (he : e < 10) (h : d < e) :
    (Nat.digitChar d).toNat < (Nat.digitChar e).toNat := by
  interval_cases d <;> interval_cases e <;> first | omega | decide

theorem foldl_decimal (l : List Char) (a : Nat) :
    l.foldl (fun acc c => 10 * acc + (c.toNat - 48)) a
      = a * 10 ^ l.length + decimalValue l := by
  induction l generalizing a with
  | nil => simp [decimalValue]
  | cons c t ih =>
    simp only [List.foldl_cons, List.length_cons, decimalValue]
    rw [ih, ih (10 * 0 + (c.toNat - 48))]
    ring

theorem decimalValue_cons (c : Char) (t : List Char) :
    decimalValue (c :: t) = (c.toNat - 48) * 10 ^ t.length + decimalValue t := by
  simp only [decimalValue, List.foldl_cons]
  rw [foldl_decimal]
  simp [decimalValue]

theorem decimalValue_append (l1 l2 : List Char) :
    decimalValue (l1 ++ l2) = decimalValue l1 * 10 ^ l2.length + decimalValue l2 := by
  simp only [decimalValue, List.foldl_append]
  rw [foldl_decimal]
  rfl

theorem decimalValue_zeros (k : Nat) : decimalValue (List.replicate k '0') = 0 := by
  induction k with
  | zero => rfl
  | succ k ih =>
    have h0 : '0'.toNat - 48 = 0 := by decide
    rw [List.replicate_succ, decimalValue_cons, ih, h0]
    simp

theorem decimalValue_lt (l : List Char) (h : IsDecimal l) : decimalValue l < 10 ^ l.length := by
  induction l with
  | nil => simp [decimalValue]
  | cons c t ih =>
    obtain ⟨d, hd, rfl⟩ := h c (List.mem_cons_self _ _)
    have ht := ih (fun x hx => h x (List.mem_cons_of_mem _ hx))
    rw [decimalValue_cons, digitChar_toNat d hd, List.length_cons, pow_succ]
    have : d * 10 ^ t.length ≤ 9 * 10 ^ t.length := Nat.mul_le_mul_right _ (by omega)
    omega

theorem toDigitsCore_acc (f n : Nat) (ds : List Char) :
    Nat.toDigitsCore 10 f n ds = Nat.toDigitsCore 10 f n [] ++ ds := by
  induction f generalizing n ds with
  | zero => simp [Nat.toDigitsCore]
  | succ f ih =>
    simp only [Nat.toDigitsCore]
    split_ifs with h
    · simp
    · rw [ih (n / 10) (Nat.digitChar (n % 10) :: ds), ih (n / 10) [Nat.digitChar (n % 10)]]
      simp

theorem toDigitsCore_isDecimal (f n : Nat) : IsDecimal (Nat.toDigitsCore 10 f n []) := by
  induction f generalizing n with
  | zero => simp [Nat.toDigitsCore, IsDecimal]
  | succ f ih =>
    simp only [Nat.toDigitsCore]
    split_ifs with h
    · intro c hc
      simp only [List.mem_singleton] at hc
      exact ⟨n % 10, Nat.mod_lt _ (by decide), hc⟩
    · rw [toDigitsCore_acc]
      intro c hc
      simp only [List.mem_append, List.mem_singleton] at hc
      rcases hc with hc | hc
      · exact ih _ c hc
      · exact ⟨n % 10, Nat.mod_lt _ (by decide), hc⟩

theorem decimalValue_toDigitsCore (f n : Nat) (h : n < f) :
    decimalValue (Nat.toDigitsCore 10 f n []) = n := by
  induction f generalizing n with
  | zero => omega
  | succ f ih =>
    simp only [Nat.toDigitsCore]
    split_ifs with h0
    · rw [decimalValue_cons, digitChar_toNat _ (Nat.mod_lt _ (by decide))]
      simp only [List.length_nil, pow_zero, mul_one, decimalValue, List.foldl_nil, add_zero]
      omega
    · rw [toDigitsCore_acc, decimalValue_append, ih (n / 10) (by omega), decimalValue_cons,
        digitChar_toNat _ (Nat.mod_lt _ (by decide))]
      simp only [List.length_singleton, pow_one, List.length_nil, pow_zero, mul_one,
        decimalValue, List.foldl_nil, add_zero]
      omega

theorem decimalValue_toDigits (n : Nat) : decimalValue (Nat.toDigits 10 n) = n :=
  decimalValue_toDigitsCore (n + 1) n (Nat.lt_succ_self n)

theorem toDigits_isDecimal (n : Nat) : IsDecimal (Nat.toDigits 10 n) :=
  toDigitsCore_isDecimal (n + 1) n

theorem toDigits_length_le (n e : Nat) (he : 0 < e) (h : n < 10 ^ e) :
    (Nat.toDigits 10 n).length ≤ e := by
  have := Nat.repr_length n e he h
  simpa [Nat.repr, String.length, List.asString] using this

theorem lt_pow_toDigits_length (n : Nat) : n < 10 ^ (Nat.toDigits 10 n).length := by
  have := decimalValue_lt _ (toDigits_isDecimal n)
  rwa [decimalValue_toDigits] at this

theorem lexLt_append (p l1 l2 : List Char) : lexLt (p ++ l1) (p ++ l2) = lexLt l1 l2 := by
  induction p with
  | nil => rfl
  | cons c t ih => simp [lexLt, ih]

theorem lexLt_of_value_lt (l1 : List Char) :
    ∀ l2 : List Char, l1.length = l2.length → IsDecimal l1 → IsDecimal l2 →
      decimalValue l1 < decimalValue l2 → lexLt l1 l2 = true := by
  induction l1 with
  | nil =>
    intro l2 hlen _ _ hv
    cases l2 with
    | nil => simp [decimalValue] at hv
    | cons c t => simp at hlen
  | cons c1 t1 ih =>
    intro l2 hlen h1 h2 hv
    cases l2 with
    | nil => simp at hlen
    | cons c2 t2 =>
      simp only [List.length_cons, Nat.add_right_cancel_iff] at hlen
      obtain ⟨d1, hd1, rfl⟩ := h1 c1 (List.mem_cons_self _ _)
      obtain ⟨d2, hd2, rfl⟩ := h2 c2 (List.mem_cons_self _ _)
      have ht1 : IsDecimal t1 := fun x hx => h1 x (List.mem_cons_of_mem _ hx)
      have ht2 : IsDecimal t2 := fun x hx => h2 x (List.mem_cons_of_mem _ hx)
      rw [decimalValue_cons, decimalValue_cons, digitChar_toNat d1 hd1,
        digitChar_toNat d2 hd2, hlen] at hv
      have b1 := decimalValue_lt t1 ht1
      have b2 := decimalValue_lt t2 ht2
      rw [hlen] at b1
      rcases Nat.lt_trichotomy d1 d2 with hlt | heq | hgt
      · simp [lexLt, digitChar_lt d1 d2 hd1 hd2 hlt]
      · subst heq
        simp [lexLt, ih t2 hlen ht1 ht2 (by omega)]
      · exfalso
        have : (d2 + 1) * 10 ^ t2.length ≤ d1 * 10 ^ t2.length :=
          Nat.mul_le_mul_right _ (by omega)
        rw [Nat.add_mul, Nat.one_mul] at this
        omega


theorem generateUniqueLabel_data (s : AutonomousVehicleProject) (pfx : String) :
    (generateUniqueLabel s pfx).1.data = pfx.data ++ paddedDecimal s.unique_label_counter := by
  have hlen : (toString s.unique_label_counter).length
      = (Nat.toDigits 10 s.unique_label_counter).length := rfl
  have hdata : (toString s.unique_label_counter).data
      = Nat.toDigits 10 s.unique_label_counter := rfl
  simp only [generateUniqueLabel, paddedDecimal, String.data_append, hlen, hdata,
    List.append_assoc]
  congr 2
  rw [show ((4 : Int) - ((Nat.toDigits 10 s.unique_label_counter).length : Int)).toNat
      = 4 - (Nat.toDigits 10 s.unique_label_counter).length by omega]

theorem paddedDecimal_length (n : Nat) :
    (paddedDecimal n).length = if n < 10000 then 4 else (Nat.toDigits 10 n).length := by
  simp only [paddedDecimal, List.length_append, List.length_replicate]
  split_ifs with h
  · have := toDigits_length_le n 4 (by decide) (by simpa using h)
    omega
  · have := lt_pow_toDigits_length n
    have h5 : 4 < (Nat.toDigits 10 n).length := by
      by_contra hc
      have : 10 ^ (Nat.toDigits 10 n).length ≤ 10 ^ 4 :=
        Nat.pow_le_pow_right (by decide) (by omega)
      omega
    omega

theorem paddedDecimal_unpadded (n : Nat) (h : 10000 ≤ n) :
    paddedDecimal n = Nat.toDigits 10 n := by
  have hl := paddedDecimal_length n
  rw [if_neg (by omega)] at hl
  simp only [paddedDecimal, List.length_append, List.length_replicate] at hl
  have : 4 - (Nat.toDigits 10 n).length = 0 := by omega
  simp [paddedDecimal, this]

theorem paddedDecimal_value (n : Nat) : decimalValue (paddedDecimal n) = n := by
  rw [paddedDecimal, decimalValue_append, decimalValue_zeros, decimalValue_toDigits]
  simp

theorem paddedDecimal_isDecimal (n : Nat) : IsDecimal (paddedDecimal n) := by
  intro c hc
  simp only [paddedDecimal, List.mem_append, List.mem_replicate] at hc
  rcases hc with ⟨-, rfl⟩ | hc
  · exact ⟨0, by decide, rfl⟩
  · exact toDigits_isDecimal n c hc

/-- C15: for every prefix and counter value `n`, `generateUniqueLabel` returns the prefix
    followed by the decimal digits of `n` left-padded with '0' to at least four characters
    (a list of decimal digits whose value is `n`, of exactly four characters when
    `n < 10000` and equal to the unpadded digits otherwise), and advances the counter by
    exactly one, leaving the rest of the state alone; from a fresh project eleven calls
    with the prefix "wp" return wp0000, wp0001, ..., wp0010. -/
theorem generateUniqueLabel_format (s : AutonomousVehicleProject) (pfx : String)
    (contextMode : Bool) :
    (generateUniqueLabel s pfx).1 = pfx ++ String.mk (paddedDecimal s.unique_label_counter) ∧
    IsDecimal (paddedDecimal s.unique_label_counter) ∧
    decimalValue (paddedDecimal s.unique_label_counter) = s.unique_label_counter ∧
    (paddedDecimal s.unique_label_counter).length
      = (if s.unique_label_counter < 10000 then 4
         else (Nat.toDigits 10 s.unique_label_counter).length) ∧
    (s.unique_label_counter < 10000 ∨
      paddedDecimal s.unique_label_counter = Nat.toDigits 10 s.unique_label_counter) ∧
    (generateUniqueLabel s pfx).2
      = { s with unique_label_counter := s.unique_label_counter + 1 } ∧
    labelsFrom (AutonomousVehicleProject.new contextMode) "wp" 11
      = ["wp0000", "wp0001", "wp0002", "wp0003", "wp0004", "wp0005", "wp0006", "wp0007",
         "wp0008", "wp0009", "wp0010"] := by
  refine ⟨?_, paddedDecimal_isDecimal _, paddedDecimal_value _, paddedDecimal_length _, ?_,
    rfl, by cases contextMode <;> decide⟩
  · apply String.ext
    rw [generateUniqueLabel_data, String.data_append]
  · by_cases h : s.unique_label_counter < 10000
    · exact Or.inl h
    · exact Or.inr (paddedDecimal_unpadded _ (by omega))

/-! ## C16: labels are never reused -/

theorem new_counter (s s' : AutonomousVehicleProject) (cls : ClassName)
    (parent : Option Nat) (row : Int) (x : Nat)
    (h : MissionItem.new s cls parent row = some (s', x)) :
    s'.unique_label_counter = s.unique_label_counter := by
  unfold MissionItem.new at h
  cases parent with
  | none =>
    simp only [Option.some.injEq, Prod.mk.injEq] at h
    obtain ⟨rfl, -⟩ := h
    rfl
  | some p =>
    cases hp : s.items p with
    | none => simp [hp] at h
    | some pn =>
      simp only [hp, Option.some.injEq, Prod.mk.injEq] at h
      obtain ⟨rfl, -⟩ := h
      rfl

theorem setObjectName_counter (s s' : AutonomousVehicleProject) (this : Nat)
    (name : String) (h : MissionItem.setObjectName s this name = some s') :
    s'.unique_label_counter = s.unique_label_counter := by
  unfold MissionItem.setObjectName at h
  cases hi : s.items this with
  | none => simp [hi] at h
  | some n =>
    simp only [hi, Option.some.injEq] at h
    subst h
    rfl

theorem createMissionItem_counter (s : AutonomousVehicleProject) (this : Nat)
    (cls : ClassName) (name : String) (row : Int)
    (r : AutonomousVehicleProject × Nat)
    (h : MissionItem.createMissionItem s this cls name row = some r) :
    r.1.unique_label_counter = s.unique_label_counter := by
  unfold MissionItem.createMissionItem at h
  cases hn : MissionItem.new s cls (some this) row with
  | none => simp [hn] at h
  | some q =>
    obtain ⟨s1, item⟩ := q
    simp only [hn, Option.map_eq_some'] at h
    obtain ⟨s2, h2, rfl⟩ := h
    rw [setObjectName_counter s1 s2 item name h2, new_counter s s1 cls _ row item hn]

theorem deleteItem_counter (s s' : AutonomousVehicleProject) (index : QModelIndex)
    (h : deleteItem s index = some s') :
    s'.unique_label_counter = s.unique_label_counter := by
  cases hitem : itemFromIndex index with
  | none =>
    rw [deleteItem_null s index hitem] at h
    simp at h
  | some a =>
    obtain ⟨s1, n, pi, pn, hc, -, -, -, hs'⟩ := deleteItem_some s s' index a hitem h
    obtain ⟨-, -, -, -, -, -, -, f8⟩ := deleteItem_clearBackground_frame s s1 (some a) hc
    subst hs'
    simp [deleteObject, AutonomousVehicleProject.store, f8]

theorem deleteItemPtr_counter (s s' : AutonomousVehicleProject) (item : Option Nat)
    (h : deleteItemPtr s item = some s') :
    s'.unique_label_counter = s.unique_label_counter := by
  unfold deleteItemPtr at h
  cases hidx : indexFromItem s item with
  | none => simp [hidx] at h
  | some index =>
    simp only [hidx] at h
    exact deleteItem_counter s s' index h

theorem setCurrent_counter (s s' : AutonomousVehicleProject) (index : QModelIndex)
    (h : setCurrent s index = some s') :
    s'.unique_label_counter = s.unique_label_counter := by
  unfold setCurrent at h
  simp only at h
  split at h
  · simp at h
  · rename_i s4 h4
    have hs4 : s4.unique_label_counter = s.unique_label_counter := by
      split at h4
      · simp only [Option.some.injEq] at h4
        subst h4
        rfl
      · split at h4
        · simp at h4
        · split at h4
          · simp at h4
          · rename_i s2 h2
            have hs2 : s2.unique_label_counter = s.unique_label_counter := by
              split_ifs at h2
              · exact (setCurrentBackground_frame _ s2 _ h2).2.2.2.2.2.2.2.1
              · simp only [Option.some.injEq] at h2
                subst h2
                rfl
            simp only [Option.some.injEq] at h4
            subst h4
            split_ifs <;> exact hs2
    split at h
    · simp only [Option.some.injEq] at h
      exact h ▸ hs4
    · simp only [Option.map_eq_some'] at h
      obtain ⟨_, -, rfl⟩ := h
      exact hs4

theorem create_counter (s : AutonomousVehicleProject) (parent : Option Nat) (row : Int)
    (r : AutonomousVehicleProject × Nat) :
    (createPlatform s parent row = some r ∨ createGroup s parent row = some r ∨
      createSurveyPattern s parent row = some r ∨ createSurveyArea s parent row = some r ∨
      createTrackLine s parent row = some r ∨ createBehavior s = some r ∨
      addWaypoint s = some r) →
    s.unique_label_counter ≤ r.1.unique_label_counter := by
  have key : ∀ (pfx : String) (receiver : Nat) (cls : ClassName) (row : Int),
      MissionItem.createMissionItem (generateUniqueLabel s pfx).2 receiver cls
        (generateUniqueLabel s pfx).1 row = some r →
      s.unique_label_counter ≤ r.1.unique_label_counter := by
    intro pfx receiver cls row h
    have := createMissionItem_counter _ _ _ _ _ r h
    simp only [generateUniqueLabel] at this
    omega
  intro h
  rcases h with h | h | h | h | h | h | h
  · unfold createPlatform at h
    split at h
    · simp at h
    · split at h
      · simp at h
      · rename_i s1 p h1
        simp only [Option.some.injEq] at h
        subst h
        exact le_of_eq (createMissionItem_counter _ _ _ _ _ _ h1).symm
  · unfold createGroup at h
    split at h
    · simp at h
    · exact key _ _ _ _ h
  · unfold createSurveyPattern at h
    split at h
    · simp at h
    · exact key _ _ _ _ h
  · unfold createSurveyArea at h
    split at h
    · simp at h
    · exact key _ _ _ _ h
  · unfold createTrackLine at h
    split at h
    · simp at h
    · exact key _ _ _ _ h
  · unfold createBehavior at h
    split at h
    · simp at h
    · exact key _ _ _ _ h
  · unfold addWaypoint at h
    split at h
    · simp at h
    · exact key _ _ _ _ h

theorem read_counter (s s' : AutonomousVehicleProject) (this : Nat) (json : QJsonObject)
    (h : MissionItem.read s this json = some s') :
    s'.unique_label_counter = s.unique_label_counter := by
  unfold MissionItem.read at h
  split at h
  · simp at h
  · simp only at h
    split_ifs at h
    · exact setObjectName_counter s s' this _ h
    · simp only [Option.some.injEq] at h
      exact h ▸ rfl

theorem openBackground_counter (files : RasterFiles) (s : AutonomousVehicleProject)
    (fname : String) (r : AutonomousVehicleProject × Option Nat)
    (h : openBackground files s fname = some r) :
    r.1.unique_label_counter = s.unique_label_counter := by
  unfold openBackground at h
  cases hg : s.m_currentGroup with
  | none => simp [hg] at h
  | some g =>
    cases hidx : indexFromItem s (some g) with
    | none => simp [hg, hidx] at h
    | some idx =>
      cases hnew : MissionItem.new s ClassName.BackgroundRaster (some g) (-1) with
      | none => simp [hg, hidx, hnew] at h
      | some q =>
        obtain ⟨s1, bgr⟩ := q
        have h1 := new_counter s s1 _ _ _ bgr hnew
        simp only [hg, hidx, hnew] at h
        cases hb : s1.items bgr with
        | none => simp [hb] at h
        | some n =>
          simp only [hb] at h
          split_ifs at h
          · cases h3 : MissionItem.setObjectName
                (s1.store bgr { n with m_depthValid := files.depthValid fname }) bgr fname with
            | none => simp [h3] at h
            | some s3 =>
              have h3c := setObjectName_counter _ s3 bgr fname h3
              simp only [h3, Option.map_eq_some'] at h
              obtain ⟨s4, h4, rfl⟩ := h
              rw [(setCurrentBackground_frame s3 s4 _ h4).2.2.2.2.2.2.2.1, h3c]
              exact h1
          · simp only [Option.map_eq_some'] at h
            obtain ⟨s3, h3, rfl⟩ := h
            rw [deleteItemPtr_counter _ s3 _ h3]
            exact h1

theorem openGeometry_counter (s s' : AutonomousVehicleProject) (fname : String)
    (h : openGeometry s fname = some s') :
    s'.unique_label_counter = s.unique_label_counter := by
  unfold openGeometry at h
  cases hg : s.m_currentGroup with
  | none => simp [hg] at h
  | some g =>
    cases hidx : indexFromItem s (some g) with
    | none => simp [hg, hidx] at h
    | some idx =>
      cases hnew : MissionItem.new s ClassName.VectorDataset (some g) (-1) with
      | none => simp [hg, hidx, hnew] at h
      | some q =>
        obtain ⟨s1, vd⟩ := q
        simp only [hg, hidx, hnew] at h
        rw [setObjectName_counter s1 s' vd fname h, new_counter s s1 _ _ _ vd hnew]

theorem readChildren_resources_counter (files : RasterFiles)
    (s : AutonomousVehicleProject) (object : QJsonObject) (s' : AutonomousVehicleProject)
    (h : MissionItem.readChildren_resources files s object = some s') :
    s.unique_label_counter ≤ s'.unique_label_counter := by
  unfold MissionItem.readChildren_resources at h
  have hfirst : ∀ s1, (if (object.value "type").isString "BackgroundRaster" = true then
        match openBackground files s (object.value "filename").toString with
        | none => none
        | some (_, none) => none
        | some (s1, some bgr) => MissionItem.read s1 bgr object
      else some s) = some s1 → s1.unique_label_counter = s.unique_label_counter := by
    intro s1 h1
    split_ifs at h1
    · cases hopen : openBackground files s (object.value "filename").toString with
      | none => simp [hopen] at h1
      | some q =>
        obtain ⟨s2, b⟩ := q
        cases b with
        | none => simp [hopen] at h1
        | some bgr =>
          simp only [hopen] at h1
          rw [read_counter s2 s1 bgr object h1]
          exact openBackground_counter files s _ (s2, some bgr) hopen
    · simp only [Option.some.injEq] at h1
      exact h1 ▸ rfl
  split at h
  · simp at h
  · rename_i s1 h1
    have hs1 := hfirst s1 h1
    split_ifs at h
    · rw [openGeometry_counter s1 s' _ h, hs1]
    · simp only [Option.some.injEq] at h
      rw [← h, hs1]

theorem readChildren_case_counter (object : QJsonObject) (type : String)
    (create : AutonomousVehicleProject → Option (AutonomousVehicleProject × Nat))
    (hcreate : ∀ s r, create s = some r →
      s.unique_label_counter ≤ r.1.unique_label_counter)
    (s0 : AutonomousVehicleProject)
    (acc : Option (AutonomousVehicleProject × Option Nat))
    (hacc : ∀ q, acc = some q → s0.unique_label_counter ≤ q.1.unique_label_counter)
    (r : AutonomousVehicleProject × Option Nat)
    (h : MissionItem.readChildren_case object type create acc = some r) :
    s0.unique_label_counter ≤ r.1.unique_label_counter := by
  unfold MissionItem.readChildren_case at h
  split at h
  · simp at h
  · rename_i s item
    have h0 := hacc (s, item) rfl
    split_ifs at h
    · simp only [Option.map_eq_some'] at h
      obtain ⟨q, hq, rfl⟩ := h
      exact le_trans h0 (hcreate s q hq)
    · simp only [Option.some.injEq] at h
      exact h ▸ h0

theorem readChildren_create_counter (s : AutonomousVehicleProject) (this : Nat)
    (object : QJsonObject) (row : Int) (r : AutonomousVehicleProject × Option Nat)
    (h : MissionItem.readChildren_create s this object row = some r) :
    s.unique_label_counter ≤ r.1.unique_label_counter := by
  unfold MissionItem.readChildren_create at h
  refine readChildren_case_counter object _ _ ?_ s _ ?_ r h
  · exact fun s1 q hq => create_counter s1 (some this) row q (Or.inr (Or.inl hq))
  intro q1 h1
  refine readChildren_case_counter object _ _ ?_ s _ ?_ q1 h1
  · exact fun s1 q hq => create_counter s1 (some this) row q (Or.inl hq)
  intro q2 h2
  refine readChildren_case_counter object _ _ ?_ s _ ?_ q2 h2
  · exact fun s1 q hq =>
      create_counter s1 (some this) row q (Or.inr (Or.inr (Or.inr (Or.inl hq))))
  intro q3 h3
  refine readChildren_case_counter object _ _ ?_ s _ ?_ q3 h3
  · exact fun s1 q hq => create_counter s1 (some this) row q (Or.inr (Or.inr (Or.inl hq)))
  intro q4 h4
  refine readChildren_case_counter object _ _ ?_ s _ ?_ q4 h4
  · exact fun s1 q hq =>
      create_counter s1 (some this) row q (Or.inr (Or.inr (Or.inr (Or.inr (Or.inl hq)))))
  intro q5 h5
  refine readChildren_case_counter object _ _ ?_ s _ ?_ q5 h5
  · exact fun s1 q hq => le_of_eq (createMissionItem_counter s1 this _ _ row q hq).symm
  intro q6 h6
  simp only [Option.some.injEq] at h6
  exact h6 ▸ le_refl _

mutual
theorem readChildren_rel (R : AutonomousVehicleProject → AutonomousVehicleProject → Prop)
    (hrefl : ∀ s, R s s) (htrans : ∀ a b c, R a b → R b c → R a c)
    (hres : ∀ files s object s',
      MissionItem.readChildren_resources files s object = some s' → R s s')
    (hcreate : ∀ s this object row r,
      MissionItem.readChildren_create s this object row = some r → R s r.1)
    (hread : ∀ s this json s', MissionItem.read s this json = some s' → R s s')
    (files : RasterFiles) :
    ∀ (l : List QJsonValue) (s : AutonomousVehicleProject) (this : Nat) (row : Int)
      (s' : AutonomousVehicleProject),
      MissionItem.readChildren files s this row l = some s' → R s s'
  | [], s, this, row, s', h => by
    simp only [MissionItem.readChildren, Option.some.injEq] at h
    exact h ▸ hrefl s
  | v :: rest, s, this, row, s', h => by
    simp only [MissionItem.readChildren] at h
    cases hb : MissionItem.readChildren_body files s this row v with
    | none => simp [hb] at h
    | some s1 =>
      simp only [hb] at h
      exact htrans _ _ _
        (readChildren_body_rel R hrefl htrans hres hcreate hread files v s this row s1 hb)
        (readChildren_rel R hrefl htrans hres hcreate hread files rest s1 this row s' h)
theorem readChildren_body_rel (R : AutonomousVehicleProject → AutonomousVehicleProject → Prop)
    (hrefl : ∀ s, R s s) (htrans : ∀ a b c, R a b → R b c → R a c)
    (hres : ∀ files s object s',
      MissionItem.readChildren_resources files s object = some s' → R s s')
    (hcreate : ∀ s this object row r,
      MissionItem.readChildren_create s this object row = some r → R s r.1)
    (hread : ∀ s this json s', MissionItem.read s this json = some s' → R s s')
    (files : RasterFiles) :
    ∀ (v : QJsonValue) (s : AutonomousVehicleProject) (this : Nat) (row : Int)
      (s' : AutonomousVehicleProject),
      MissionItem.readChildren_body files s this row v = some s' → R s s'
  | QJsonValue.object object, s, this, row, s', h => by
    simp only [MissionItem.readChildren_body] at h
    cases h1 : MissionItem.readChildren_resources files s object with
    | none => simp [h1] at h
    | some s1 =>
      simp only [h1] at h
      cases h2 : MissionItem.readChildren_create s1 this object row with
      | none => simp [h2] at h
      | some r =>
        obtain ⟨s2, item⟩ := r
        have hR2 := hcreate s1 this object row (s2, item) h2
        cases item with
        | none =>
          simp only [h2, Option.some.injEq] at h
          exact h ▸ htrans _ _ _ (hres files s object s1 h1) hR2
        | some item =>
          simp only [h2] at h
          cases h3 : MissionItem.read s2 item object with
          | none => simp [h3] at h
          | some s3 =>
            simp only [h3] at h
            exact htrans _ _ _ (hres files s object s1 h1) (htrans _ _ _ hR2
              (htrans _ _ _ (hread s2 item object s3 h3)
                (read_children_rel R hrefl htrans hres hcreate hread files object s3 item s'
                  h)))
  | QJsonValue.null, s, this, row, s', h => by
    simp only [MissionItem.readChildren_body, Option.some.injEq] at h
    exact h ▸ hrefl s
  | QJsonValue.bool _, s, this, row, s', h => by
    simp only [MissionItem.readChildren_body, Option.some.injEq] at h
    exact h ▸ hrefl s
  | QJsonValue.double _, s, this, row, s', h => by
    simp only [MissionItem.readChildren_body, Option.some.injEq] at h
    exact h ▸ hrefl s
  | QJsonValue.string _, s, this, row, s', h => by
    simp only [MissionItem.readChildren_body, Option.some.injEq] at h
    exact h ▸ hrefl s
  | QJsonValue.array _, s, this, row, s', h => by
    simp only [MissionItem.readChildren_body, Option.some.injEq] at h
    exact h ▸ hrefl s
theorem read_children_rel (R : AutonomousVehicleProject → AutonomousVehicleProject → Prop)
    (hrefl : ∀ s, R s s) (htrans : ∀ a b c, R a b → R b c → R a c)
    (hres : ∀ files s object s',
      MissionItem.readChildren_resources files s object = some s' → R s s')
    (hcreate : ∀ s this object row r,
      MissionItem.readChildren_create s this object row = some r → R s r.1)
    (hread : ∀ s this json s', MissionItem.read s this json = some s' → R s s')
    (files : RasterFiles) :
    ∀ (o : List (String × QJsonValue)) (s : AutonomousVehicleProject) (this : Nat)
      (s' : AutonomousVehicleProject),
      MissionItem.read_children files s this o = some s' → R s s'
  | [], s, this, s', h => by
    simp only [MissionItem.read_children, Option.some.injEq] at h
    exact h ▸ hrefl s
  | (k, QJsonValue.array a) :: rest, s, this, s', h => by
    simp only [MissionItem.read_children] at h
    split_ifs at h with hk
    · exact readChildren_rel R hrefl htrans hres hcreate hread files a s this (-1) s' h
    · exact read_children_rel R hrefl htrans hres hcreate hread files rest s this s' h
  | (k, QJsonValue.null) :: rest, s, this, s', h => by
    simp only [MissionItem.read_children] at h
    split_ifs at h with hk
    · simp only [Option.some.injEq] at h
      exact h ▸ hrefl s
    · exact read_children_rel R hrefl htrans hres hcreate hread files rest s this s' h
  | (k, QJsonValue.bool _) :: rest, s, this, s', h => by
    simp only [MissionItem.read_children] at h
    split_ifs at h with hk
    · simp only [Option.some.injEq] at h
      exact h ▸ hrefl s
    · exact read_children_rel R hrefl htrans hres hcreate hread files rest s this s' h
  | (k, QJsonValue.double _) :: rest, s, this, s', h => by
    simp only [MissionItem.read_children] at h
    split_ifs at h with hk
    · simp only [Option.some.injEq] at h
      exact h ▸ hrefl s
    · exact read_children_rel R hrefl htrans hres hcreate hread files rest s this s' h
  | (k, QJsonValue.string _) :: rest, s, this, s', h => by
    simp only [MissionItem.read_children] at h
    split_ifs at h with hk
    · simp only [Option.some.injEq] at h
      exact h ▸ hrefl s
    · exact read_children_rel R hrefl htrans hres hcreate hread files rest s this s' h
  | (k, QJsonValue.object _) :: rest, s, this, s', h => by
    simp only [MissionItem.read_children] at h
    split_ifs at h with hk
    · simp only [Option.some.injEq] at h
      exact h ▸ hrefl s
    · exact read_children_rel R hrefl htrans hres hcreate hread files rest s this s' h
end

theorem readChildren_counter (files : RasterFiles) (l : List QJsonValue)
    (s : AutonomousVehicleProject) (this : Nat) (row : Int) (s' : AutonomousVehicleProject)
    (h : MissionItem.readChildren files s this row l = some s') :
    s.unique_label_counter ≤ s'.unique_label_counter :=
  readChildren_rel (fun a b => a.unique_label_counter ≤ b.unique_label_counter)
    (fun _ => le_refl _) (fun _ _ _ h1 h2 => le_trans h1 h2)
    (fun files s object s' h => readChildren_resources_counter files s object s' h)
    (fun s this object row r h => readChildren_create_counter s this object row r h)
    (fun s this json s' h => le_of_eq (read_counter s s' this json h).symm)
    files l s this row s' h

theorem applyProjectOp_counter (files : RasterFiles) (s s' : AutonomousVehicleProject)
    (op : ProjectOp) (h : applyProjectOp files s op = some s') :
    s.unique_label_counter ≤ s'.unique_label_counter := by
  cases op with
  | construct cls parent row =>
    simp only [applyProjectOp, Option.map_eq_some'] at h
    obtain ⟨⟨s1, x⟩, h1, rfl⟩ := h
    exact le_of_eq (new_counter s s1 cls parent row x h1).symm
  | setObjectName item name => exact le_of_eq (setObjectName_counter s s' item name h).symm
  | deleteItem index => exact le_of_eq (deleteItem_counter s s' index h).symm
  | deleteItemPtr item => exact le_of_eq (deleteItemPtr_counter s s' item h).symm
  | setCurrent index => exact le_of_eq (setCurrent_counter s s' index h).symm
  | setCurrentBackground bgr =>
    exact le_of_eq (setCurrentBackground_frame s s' bgr h).2.2.2.2.2.2.2.1.symm
  | setContextMode mode =>
    simp only [applyProjectOp, Option.some.injEq] at h
    exact h ▸ le_refl _
  | createPlatform parent row =>
    simp only [applyProjectOp, Option.map_eq_some'] at h
    obtain ⟨r, h1, rfl⟩ := h
    exact create_counter s parent row r (Or.inl h1)
  | createGroup parent row =>
    simp only [applyProjectOp, Option.map_eq_some'] at h
    obtain ⟨r, h1, rfl⟩ := h
    exact create_counter s parent row r (Or.inr (Or.inl h1))
  | createSurveyPattern parent row =>
    simp only [applyProjectOp, Option.map_eq_some'] at h
    obtain ⟨r, h1, rfl⟩ := h
    exact create_counter s parent row r (Or.inr (Or.inr (Or.inl h1)))
  | createSurveyArea parent row =>
    simp only [applyProjectOp, Option.map_eq_some'] at h
    obtain ⟨r, h1, rfl⟩ := h
    exact create_counter s parent row r (Or.inr (Or.inr (Or.inr (Or.inl h1))))
  | createTrackLine parent row =>
    simp only [applyProjectOp, Option.map_eq_some'] at h
    obtain ⟨r, h1, rfl⟩ := h
    exact create_counter s parent row r (Or.inr (Or.inr (Or.inr (Or.inr (Or.inl h1)))))
  | createBehavior =>
    simp only [applyProjectOp, Option.map_eq_some'] at h
    obtain ⟨r, h1, rfl⟩ := h
    exact create_counter s none 0 r
      (Or.inr (Or.inr (Or.inr (Or.inr (Or.inr (Or.inl h1))))))
  | addWaypoint =>
    simp only [applyProjectOp, Option.map_eq_some'] at h
    obtain ⟨r, h1, rfl⟩ := h
    exact create_counter s none 0 r
      (Or.inr (Or.inr (Or.inr (Or.inr (Or.inr (Or.inr h1))))))
  | openBackground fname =>
    simp only [applyProjectOp, Option.map_eq_some'] at h
    obtain ⟨r, h1, rfl⟩ := h
    exact le_of_eq (openBackground_counter files s fname r h1).symm
  | openGeometry fname => exact le_of_eq (openGeometry_counter s s' fname h).symm
  | read item json => exact le_of_eq (read_counter s s' item json h).symm
  | readChildren item json row => exact readChildren_counter files json s item row s' h
  | dropMimeData data row parent =>
    simp only [applyProjectOp, dropMimeData, Option.map_eq_some'] at h
    obtain ⟨r, ⟨s1, h1, rfl⟩, rfl⟩ := h
    exact readChildren_counter files data s _ _ s1 h1
  | generateUniqueLabel pfx =>
    simp only [applyProjectOp, Option.some.injEq] at h
    subst h
    simp [generateUniqueLabel]

theorem runProjectOps_counter (files : RasterFiles) (ops : List ProjectOp) :
    ∀ (s s' : AutonomousVehicleProject), runProjectOps files s ops = some s' →
      s.unique_label_counter ≤ s'.unique_label_counter := by
  induction ops with
  | nil =>
    intro s s' h
    simp only [runProjectOps, Option.some.injEq] at h
    exact h ▸ le_refl _
  | cons op rest ih =>
    intro s s' h
    simp only [runProjectOps] at h
    cases hop : applyProjectOp files s op with
    | none => simp [hop] at h
    | some s1 =>
      simp only [hop] at h
      exact le_trans (applyProjectOp_counter files s s1 op hop) (ih s1 s' h)

theorem numericSuffix_label (s : AutonomousVehicleProject) (pfx : String) :
    numericSuffix pfx (generateUniqueLabel s pfx).1 = s.unique_label_counter := by
  rw [numericSuffix, generateUniqueLabel_data, String.length, List.drop_left,
    paddedDecimal_value]

theorem successiveLabels_suffixes (files : RasterFiles) (pfx : String)
    (segments : List (List ProjectOp)) :
    ∀ (s : AutonomousVehicleProject) (labels : List String),
      successiveLabels files pfx s segments = some labels →
      labels.length = segments.length ∧
      (∀ l ∈ labels, s.unique_label_counter ≤ numericSuffix pfx l) ∧
      (labels.map (numericSuffix pfx)).Pairwise (fun a b => a < b) := by
  induction segments with
  | nil =>
    intro s labels h
    simp only [successiveLabels, Option.some.injEq] at h
    subst h
    simp
  | cons ops rest ih =>
    intro s labels h
    simp only [successiveLabels] at h
    cases hrun : runProjectOps files s ops with
    | none => simp [hrun] at h
    | some s1 =>
      simp only [hrun, Option.map_eq_some'] at h
      obtain ⟨tail, htail, rfl⟩ := h
      obtain ⟨hlen, hge, hpair⟩ := ih _ tail htail
      have h01 := runProjectOps_counter files ops s s1 hrun
      have hnext : (generateUniqueLabel s1 pfx).2.unique_label_counter
          = s1.unique_label_counter + 1 := rfl
      refine ⟨by simp [hlen], ?_, ?_⟩
      · intro l hl
        rcases List.mem_cons.mp hl with rfl | hl
        · rw [numericSuffix_label]
          exact h01
        · have := hge l hl
          omega
      · rw [List.map_cons, List.pairwise_cons]
        refine ⟨?_, hpair⟩
        intro v hv
        obtain ⟨l, hl, rfl⟩ := List.mem_map.mp hv
        rw [numericSuffix_label]
        have := hge l hl
        omega

/-- C16: the labels returned by successive calls of `generateUniqueLabel` with one prefix,
    each call coming after any sequence of other operations of the project (deletions,
    constructions, reads, drops, selection changes, calls for other prefixes, ...) that
    ran without a fault, are pairwise distinct and the numbers after the prefix are
    strictly increasing: no operation lowers the counter and every call raises it. -/
theorem labels_never_reused (files : RasterFiles) (pfx : String)
    (segments : List (List ProjectOp)) (s : AutonomousVehicleProject) (labels : List String)
    (h : successiveLabels files pfx s segments = some labels) :
    labels.length = segments.length ∧
    labels.Pairwise (fun a b => a ≠ b) ∧
    (labels.map (numericSuffix pfx)).Pairwise (fun a b => a < b) := by
  obtain ⟨hlen, -, hpair⟩ := successiveLabels_suffixes files pfx segments s labels h
  refine ⟨hlen, ?_, hpair⟩
  rw [List.pairwise_map] at hpair
  exact hpair.imp (fun hab heq => by
    rw [heq] at hab
    exact lt_irrefl _ hab)

theorem labels_never_reused_witness :
    successiveLabels noRasters "wp" sampleProject sampleSegments
      = some ["wp0002", "wp0003", "wp0006"] ∧
    ["wp0002", "wp0003", "wp0006"].Pairwise (fun a b => a ≠ b) ∧
    (["wp0002", "wp0003", "wp0006"].map (numericSuffix "wp")).Pairwise
      (fun a b => a < b) :=
  ⟨by decide,
   (labels_never_reused noRasters "wp" sampleSegments sampleProject
      ["wp0002", "wp0003", "wp0006"] (by decide)).2⟩

/-! ## C17: the order of successive labels -/

/-- C17 (the claim fails at the step from 9999 to 10000): in `manyLabelsProject` the
    counter is 9999; the call returns "wp9999" and the next call returns "wp10000", which
    is not greater but smaller in character-by-character order. -/
theorem labels_not_increasing_at_10000 :
    (generateUniqueLabel manyLabelsProject "wp").1 = "wp9999" ∧
    (generateUniqueLabel (generateUniqueLabel manyLabelsProject "wp").2 "wp").1 = "wp10000" ∧
    lexLt "wp9999".data "wp10000".data = false ∧
    lexLt "wp10000".data "wp9999".data = true := by
  refine ⟨by decide, by decide, by decide, by decide⟩

/-- C17 (amended): for every prefix, when the counter `n` of a call and the counter
    `n + 1` of the next call are both below 10000, or have the same number of decimal
    digits, the label of the next call is strictly greater in character-by-character
    order than the label of the call. -/
theorem labels_lexicographic (s : AutonomousVehicleProject) (pfx : String)
    (h : s.unique_label_counter + 1 < 10000 ∨
      (Nat.toDigits 10 s.unique_label_counter).length
        = (Nat.toDigits 10 (s.unique_label_counter + 1)).length) :
    lexLt (generateUniqueLabel s pfx).1.data
      (generateUniqueLabel (generateUniqueLabel s pfx).2 pfx).1.data = true := by
  rw [generateUniqueLabel_data, generateUniqueLabel_data, lexLt_append]
  have hnext : (generateUniqueLabel s pfx).2.unique_label_counter
      = s.unique_label_counter + 1 := rfl
  rw [hnext]
  apply lexLt_of_value_lt _ _ _ (paddedDecimal_isDecimal _) (paddedDecimal_isDecimal _)
  · rw [paddedDecimal_value, paddedDecimal_value]
    omega
  · rcases h with h | h
    · rw [paddedDecimal_length, paddedDecimal_length, if_pos (by omega), if_pos h]
    · simp only [paddedDecimal, List.length_append, List.length_replicate, h]

theorem labels_lexicographic_witness :
    lexLt "wp0002".data "wp0003".data = true :=
  labels_lexicographic sampleProject "wp" (Or.inl (by decide))

/-! ## C14: line extraction of a container -/

theorem linesProject_live (a : Nat) (n : MissionItem)
    (h : linesProject.items a = some n) : a < 7 := by
  simp only [linesProject] at h
  split_ifs at h
  all_goals omega

theorem linesProject_treeInv : TreeInv linesProject := by
  refine ⟨linesProject_live, ?_, ?_⟩
  · intro a n p h hp
    have ha := linesProject_live a n h
    interval_cases a
    all_goals
      simp only [linesProject] at h
      simp at h
      subst h
      simp at hp
    all_goals
      subst hp
      simp [linesProject]
  · intro p pn c h hc
    have hp := linesProject_live p pn h
    interval_cases p
    all_goals
      simp only [linesProject] at h
      simp at h
      subst h
      simp at hc
    all_goals
      rcases hc with rfl | rfl <;> simp [linesProject]

theorem getLines_append_eq (get : Nat → Option (List (List QGeoCoordinate)))
    (children : List Nat) (rs : List (List (List QGeoCoordinate)))
    (h : List.Forall₂ (fun c r => get c = some r) children rs) :
    ∀ ret, MissionItem.getLines_append get children ret = some (ret ++ rs.flatten) := by
  induction h with
  | nil =>
    intro ret
    simp [MissionItem.getLines_append]
  | cons hc _ ih =>
    intro ret
    simp only [MissionItem.getLines_append, hc, ih, List.flatten_cons, List.append_assoc]

theorem derefAll_isSome (s : AutonomousVehicleProject) (l : List Nat)
    (h : ∀ c ∈ l, ∃ n, s.items c = some n) : ∃ ns, s.derefAll l = some ns := by
  induction l with
  | nil => exact ⟨[], rfl⟩
  | cons a rest ih =>
    obtain ⟨n, hn⟩ := h a (List.mem_cons_self _ _)
    obtain ⟨ns, hns⟩ := ih (fun c hc => h c (List.mem_cons_of_mem _ hc))
    exact ⟨n :: ns, by simp [AutonomousVehicleProject.derefAll, hn, hns]⟩

theorem getLines_total (s : AutonomousVehicleProject) (h : TreeInv s) :
    ∀ (k a : Nat) (n : MissionItem), s.items a = some n → s.nextAddress - a ≤ k →
      ∃ r, ∀ fuel, s.nextAddress - a ≤ fuel → MissionItem.getLines s fuel a = some r := by
  obtain ⟨h1, h2, h3⟩ := h
  intro k
  induction k with
  | zero =>
    intro a n ha hk
    have := h1 a n ha
    omega
  | succ k ih =>
    intro a n ha hk
    have halt := h1 a n ha
    have hchildren : ∀ (l : List Nat), (∀ c ∈ l, c ∈ n.m_childrenMissionItems) →
        ∃ rs, List.Forall₂ (fun c r => ∀ fuel, s.nextAddress - a - 1 ≤ fuel →
          MissionItem.getLines s fuel c = some r) l rs := by
      intro l
      induction l with
      | nil => exact fun _ => ⟨[], List.Forall₂.nil⟩
      | cons c rest ihl =>
        intro hl
        obtain ⟨rs, hrs⟩ := ihl (fun x hx => hl x (List.mem_cons_of_mem _ hx))
        obtain ⟨cn, hcn, hcp⟩ := h3 a n c ha (hl c (List.mem_cons_self _ _))
        have hac := (h2 c cn a hcn hcp).1
        obtain ⟨r, hr⟩ := ih c cn hcn (by omega)
        exact ⟨r :: rs, List.Forall₂.cons (fun fuel hf => hr fuel (by omega)) hrs⟩
    obtain ⟨rs, hrs⟩ := hchildren n.m_childrenMissionItems (fun c hc => hc)
    obtain ⟨ns, hns⟩ := derefAll_isSome s n.m_childrenMissionItems
      (fun c hc => (h3 a n c ha hc).imp (fun _ hx => hx.1))
    have hstep : ∀ fuel, s.nextAddress - a ≤ fuel →
        MissionItem.getLines s fuel a =
          (match n.className with
           | ClassName.TrackLine => TrackLine.getLines s n
           | ClassName.SurveyPattern => some n.m_lines
           | _ => some rs.flatten) := by
      intro fuel hf
      obtain ⟨f, rfl⟩ := Nat.exists_eq_succ_of_ne_zero (show fuel ≠ 0 by omega)
      have happ : MissionItem.getLines_append (MissionItem.getLines s f)
          n.m_childrenMissionItems [] = some rs.flatten := by
        rw [getLines_append_eq _ _ rs (hrs.imp (fun _ _ hcr => hcr f (by omega)))]
        simp
      simp only [MissionItem.getLines, ha]
      cases n.className <;> simp only [happ]
    cases hcls : n.className <;> simp only [hcls] at hstep
    case TrackLine => exact ⟨[waypointLocations ns], fun fuel hf => by
      rw [hstep fuel hf, TrackLine.getLines, hns]
      rfl⟩
    case SurveyPattern => exact ⟨n.m_lines, hstep⟩
    all_goals exact ⟨rs.flatten, hstep⟩

/-- C14: in a well formed tree, for every live item whose class runs the base class
    `getLines` (any class but TrackLine and SurveyPattern) and every fuel that covers the
    store, every child returns its lines and the result of the item is the concatenation
    of the children's results in child order; so it is empty for an item with no children
    and it is the concatenation of the non-empty contributions alone. In `linesProject` the
    group `1` holds the track line with the waypoints (10, 20), (11, 21) and a bare
    waypoint: the track line yields the one line, the bare waypoint nothing, and the group
    exactly that one line. -/
theorem getLines_concatenates_children (s : AutonomousVehicleProject) (this fuel : Nat)
    (n : MissionItem) (h : TreeInv s) (hn : s.items this = some n)
    (hcls : n.className ≠ ClassName.TrackLine ∧ n.className ≠ ClassName.SurveyPattern)
    (hfuel : s.nextAddress ≤ fuel) :
    ∃ rs : List (List (List QGeoCoordinate)),
      List.Forall₂ (fun c r => MissionItem.getLines s fuel c = some r)
        n.m_childrenMissionItems rs ∧
      MissionItem.getLines s fuel this = some rs.flatten ∧
      (n.m_childrenMissionItems = [] → MissionItem.getLines s fuel this = some []) ∧
      rs.flatten = (rs.filter (fun r => !r.isEmpty)).flatten ∧
      MissionItem.getLines linesProject 7 2 = some [sampleLine] ∧
      MissionItem.getLines linesProject 7 5 = some [] ∧
      MissionItem.getLines linesProject 7 1 = some [sampleLine] := by
  obtain ⟨h1, h2, h3⟩ := h
  have hthis := h1 this n hn
  have hchildren : ∀ (l : List Nat), (∀ c ∈ l, c ∈ n.m_childrenMissionItems) →
      ∃ rs, List.Forall₂ (fun c r => ∀ f, s.nextAddress - this - 1 ≤ f →
        MissionItem.getLines s f c = some r) l rs := by
    intro l
    induction l with
    | nil => exact fun _ => ⟨[], List.Forall₂.nil⟩
    | cons c rest ihl =>
      intro hl
      obtain ⟨rs, hrs⟩ := ihl (fun x hx => hl x (List.mem_cons_of_mem _ hx))
      obtain ⟨cn, hcn, hcp⟩ := h3 this n c hn (hl c (List.mem_cons_self _ _))
      have hac := (h2 c cn this hcn hcp).1
      obtain ⟨r, hr⟩ := getLines_total s ⟨h1, h2, h3⟩ (s.nextAddress - c) c cn hcn
        (le_refl _)
      exact ⟨r :: rs, List.Forall₂.cons (fun f hf => hr f (by omega)) hrs⟩
  obtain ⟨rs, hrs⟩ := hchildren n.m_childrenMissionItems (fun c hc => hc)
  obtain ⟨f, rfl⟩ := Nat.exists_eq_succ_of_ne_zero (show fuel ≠ 0 by omega)
  have happ : MissionItem.getLines_append (MissionItem.getLines s f)
      n.m_childrenMissionItems [] = some rs.flatten := by
    rw [getLines_append_eq _ _ rs (hrs.imp (fun _ _ hcr => hcr f (by omega)))]
    simp
  have hres : MissionItem.getLines s (f + 1) this = some rs.flatten := by
    simp only [MissionItem.getLines, hn]
    cases hc : n.className <;> simp_all
  refine ⟨rs, hrs.imp (fun _ _ hcr => hcr (f + 1) (by omega)), hres, ?_, ?_, by decide,
    by decide, by decide⟩
  · intro hnil
    rw [hnil] at hrs
    cases hrs
    exact hres
  · clear hrs happ hres
    induction rs with
    | nil => rfl
    | cons r rest ih =>
      cases r with
      | nil => simpa using ih
      | cons x xs => simp [List.filter, ih]

theorem getLines_concatenates_children_witness :
    ∃ rs : List (List (List QGeoCoordinate)),
      List.Forall₂ (fun c r => MissionItem.getLines linesProject 7 c = some r) [2, 5] rs ∧
      MissionItem.getLines linesProject 7 1 = some rs.flatten := by
  obtain ⟨rs, h1, h2, -⟩ := getLines_concatenates_children linesProject 1 7
    { className := ClassName.Group, objectName := "group0000", parent := some 0,
      m_childrenMissionItems := [2, 5] }
    linesProject_treeInv rfl ⟨by decide, by decide⟩ (le_refl _)
  exact ⟨rs, h1, h2⟩

/-! ## C18, C19, C20: the legacy line-survey export -/

/-- The records of one point, as `writePTS` writes them. -/
theorem writePTS_out (st : QTextStream) (p : QGeoCoordinate) :
    (writePTS st p).out = st.out ++
      [StreamItem.text "PTS ", StreamItem.real p.latitude st.realNumberPrecision,
       StreamItem.text " ", StreamItem.real p.longitude st.realNumberPrecision,
       StreamItem.text "\n"] ∧
    (writePTS st p).realNumberPrecision = st.realNumberPrecision := by
  simp [writePTS, QTextStream.text, QTextStream.real]

theorem foldl_writePTS (l : List QGeoCoordinate) :
    ∀ st : QTextStream, (l.foldl writePTS st).out = st.out ++
      l.flatMap (fun p =>
        [StreamItem.text "PTS ", StreamItem.real p.latitude st.realNumberPrecision,
         StreamItem.text " ", StreamItem.real p.longitude st.realNumberPrecision,
         StreamItem.text "\n"]) ∧
      (l.foldl writePTS st).realNumberPrecision = st.realNumberPrecision := by
  induction l with
  | nil =>
    intro st
    simp
  | cons p rest ih =>
    intro st
    obtain ⟨h1, h2⟩ := writePTS_out st p
    obtain ⟨h3, h4⟩ := ih (writePTS st p)
    constructor
    · simp only [List.foldl_cons, h3, h1, h2, List.flatMap_cons, List.append_assoc]
    · simp only [List.foldl_cons, h4, h2]

theorem foldl_writePTS_waypoints (waypoints : List MissionItem) :
    ∀ st : QTextStream,
      waypoints.foldl (fun st i =>
        if i.className = ClassName.Waypoint then writePTS st i.m_location else st) st
      = (waypointLocations waypoints).foldl writePTS st := by
  induction waypoints with
  | nil =>
    intro st
    rfl
  | cons i rest ih =>
    intro st
    by_cases hi : i.className = ClassName.Waypoint
    · simp [waypointLocations, List.filter, hi, ih]
    · simp [waypointLocations, List.filter, hi, ih]

/-- What the TrackLine branch writes: "LIN" counts all the children, the "PTS" records
    are those of the children that are waypoints, written with precision 6. -/
theorem exportHypack_trackLine_out (waypoints : List MissionItem) :
    (exportHypack_trackLine waypoints).out =
      [StreamItem.text "LNS 1\n", StreamItem.text "LIN ",
       StreamItem.int waypoints.length, StreamItem.text "\n"] ++
      (waypointLocations waypoints).flatMap (fun p =>
        [StreamItem.text "PTS ", StreamItem.real p.latitude 6, StreamItem.text " ",
         StreamItem.real p.longitude 6, StreamItem.text "\n"]) ++
      [StreamItem.text "LNN 1\n", StreamItem.text "EOL\n"] := by
  simp only [exportHypack_trackLine, foldl_writePTS_waypoints]
  simp [QTextStream.text, QTextStream.int, QTextStream.new, (foldl_writePTS _ _).1]

/-- When every child of the track line is a waypoint, the export is what the format asks
    for, written with precision 6. -/
theorem exportHypack_trackLine_waypoints (waypoints : List MissionItem)
    (h : ∀ i ∈ waypoints, i.className = ClassName.Waypoint) :
    (exportHypack_trackLine waypoints).out
      = trackLineRecords 6 (waypoints.map (fun i => i.m_location)) := by
  have hloc : waypointLocations waypoints = waypoints.map (fun i => i.m_location) := by
    unfold waypointLocations
    rw [List.filter_eq_self.mpr (fun i hi => by simp [h i hi])]
  rw [exportHypack_trackLine_out, hloc, trackLineRecords]
  simp

/-- C18 (the code at the failing input): in `linesProject` the track line `2` is selected;
    `createBehavior` puts the new behavior `7` below it, after its two waypoints. The
    export of the track line then declares "LIN 3" and writes two "PTS" records; the same
    happens after a group has been dropped onto the track line. Before that, with the two
    waypoints alone, the export is LNS 1, LIN 2, PTS 10 20, PTS 11 21, LNN 1, EOL. -/
theorem exportHypack_trackLine_count_mismatch :
    exportHypack linesProject trackLineIndex = some [trackLineRecords 6 sampleLine] ∧
    (createBehavior linesProject).bind (fun r => r.1.childMissionItems 2) = some [3, 4, 7] ∧
    (createBehavior linesProject).bind (fun r => exportHypack r.1 trackLineIndex)
      = some [[StreamItem.text "LNS 1\n",
               StreamItem.text "LIN ", StreamItem.int 3, StreamItem.text "\n",
               StreamItem.text "PTS ", StreamItem.real 10 6, StreamItem.text " ",
               StreamItem.real 20 6, StreamItem.text "\n",
               StreamItem.text "PTS ", StreamItem.real 11 6, StreamItem.text " ",
               StreamItem.real 21 6, StreamItem.text "\n",
               StreamItem.text "LNN 1\n", StreamItem.text "EOL\n"]] ∧
    (dropMimeData noRasters linesProject [entry "Group" "g"] (-1) trackLineIndex).bind
        (fun r => (exportHypack r.1 trackLineIndex).map
          (fun files => files.map (fun file =>
            (file.filter (fun i => decide (i = StreamItem.int 3)),
             (file.filter (fun i => decide (i = StreamItem.text "PTS "))).length))))
      = some [([StreamItem.int 3], 2)] := by
  refine ⟨by decide, by decide, by decide, by decide⟩

theorem exportHypack_lines_out (lines : List (List QGeoCoordinate)) :
    ∀ (st : QTextStream) (k : Nat),
      (exportHypack_lines st ((k : Int) + 1) lines).out = st.out ++
        (lines.enumFrom k).flatMap
          (fun kl => surveyLineRecords st.realNumberPrecision (kl.1 + 1) kl.2) := by
  induction lines with
  | nil =>
    intro st k
    simp [exportHypack_lines]
  | cons l rest ih =>
    intro st k
    simp only [exportHypack_lines, List.enumFrom_cons, List.flatMap_cons]
    have hk : ((k : Int) + 1 + 1) = ((k + 1 : Nat) : Int) + 1 := by push_cast; ring
    rw [hk, ih]
    simp [QTextStream.text, QTextStream.int, (foldl_writePTS _ _).1, (foldl_writePTS _ _).2,
      surveyLineRecords]

/-- C19: for every list of lines `[l1, ..., lm]`, the SurveyPattern branch of
    `exportHypack` writes "LNS m" and then, for k = 1..m in order, "LIN |lk|", one "PTS"
    record per point of `lk` in order, "LNN k" and "EOL", with precision 8; and
    `exportHypack` on the index of a live SurveyPattern writes exactly one file, with these
    records for the lines the pattern generates. -/
theorem exportHypack_surveyPattern_records (s : AutonomousVehicleProject)
    (index : QModelIndex) (a : Nat) (n : MissionItem) (lines : List (List QGeoCoordinate))
    (hitem : itemFromIndex index = some a) (ha : s.items a = some n)
    (hcls : n.className = ClassName.SurveyPattern) (hlive : a < s.nextAddress) :
    (exportHypack_surveyPattern lines).out = surveyPatternRecords 8 lines ∧
    MissionItem.getLines s s.nextAddress a = some n.m_lines ∧
    exportHypack s index = some [surveyPatternRecords 8 n.m_lines] := by
  have hout : ∀ ls, (exportHypack_surveyPattern ls).out = surveyPatternRecords 8 ls := by
    intro ls
    have := exportHypack_lines_out ls
      (((QTextStream.new.setRealNumberPrecision 8).text "LNS ").int ls.length |>.text "\n") 0
    simp only [Nat.cast_zero, zero_add] at this
    simp only [exportHypack_surveyPattern, this, surveyPatternRecords, List.enum]
    simp [QTextStream.text, QTextStream.int, QTextStream.new,
      QTextStream.setRealNumberPrecision]
  have hget : MissionItem.getLines s s.nextAddress a = some n.m_lines := by
    obtain ⟨f, hf⟩ := Nat.exists_eq_succ_of_ne_zero (show s.nextAddress ≠ 0 by omega)
    rw [hf]
    simp [MissionItem.getLines, ha, hcls]
  refine ⟨hout lines, hget, ?_⟩
  simp [exportHypack, hitem, ha, hcls, hget, hout]

theorem exportHypack_surveyPattern_records_witness :
    exportHypack linesProject surveyPatternIndex
      = some [[StreamItem.text "LNS ", StreamItem.int 2, StreamItem.text "\n",
               StreamItem.text "LIN ", StreamItem.int 2, StreamItem.text "\n",
               StreamItem.text "PTS ", StreamItem.real 1 8, StreamItem.text " ",
               StreamItem.real 2 8, StreamItem.text "\n",
               StreamItem.text "PTS ", StreamItem.real 3 8, StreamItem.text " ",
               StreamItem.real 4 8, StreamItem.text "\n",
               StreamItem.text "LNN ", StreamItem.int 1, StreamItem.text "\n",
               StreamItem.text "EOL\n",
               StreamItem.text "LIN ", StreamItem.int 1, StreamItem.text "\n",
               StreamItem.text "PTS ", StreamItem.real 5 8, StreamItem.text " ",
               StreamItem.real 6 8, StreamItem.text "\n",
               StreamItem.text "LNN ", StreamItem.int 2, StreamItem.text "\n",
               StreamItem.text "EOL\n"]] :=
  (exportHypack_surveyPattern_records linesProject surveyPatternIndex 6
    { className := ClassName.SurveyPattern, objectName := "pattern", parent := some 0,
      m_childrenMissionItems := [],
      m_lines := [[{ latitude := 1, longitude := 2 }, { latitude := 3, longitude := 4 }],
                  [{ latitude := 5, longitude := 6 }]] }
    [] rfl rfl rfl (by decide)).2.2

/-- C20 (the code at the failing input): the TrackLine branch of `exportHypack` never calls
    `setRealNumberPrecision`: for every track line, every real number in the file it writes
    is written with the default precision 6 of the stream, not 8. -/
theorem exportHypack_trackLine_precision (waypoints : List MissionItem) (x : Rat)
    (precision : Nat)
    (h : StreamItem.real x precision ∈ (exportHypack_trackLine waypoints).out) :
    precision = 6 := by
  rw [exportHypack_trackLine_out] at h
  simp only [List.mem_append, List.mem_cons, List.mem_singleton, List.not_mem_nil,
    List.mem_flatMap, or_false, false_or, StreamItem.real.injEq, reduceCtorEq] at h
  obtain ⟨p, hp, h⟩ := h
  rcases h with h | h
  · exact h.2
  · exact h.2

theorem exportHypack_trackLine_precision_witness :
    exportHypack linesProject trackLineIndex
      = some [[StreamItem.text "LNS 1\n",
               StreamItem.text "LIN ", StreamItem.int 2, StreamItem.text "\n",
               StreamItem.text "PTS ", StreamItem.real 10 6, StreamItem.text " ",
               StreamItem.real 20 6, StreamItem.text "\n",
               StreamItem.text "PTS ", StreamItem.real 11 6, StreamItem.text " ",
               StreamItem.real 21 6, StreamItem.text "\n",
               StreamItem.text "LNN 1\n", StreamItem.text "EOL\n"]] ∧
    ¬ StreamItem.real 10 8 ∈ (exportHypack_trackLine
        [{ className := ClassName.Waypoint, objectName := "waypoint", parent := some 2,
           m_childrenMissionItems := [],
           m_location := { latitude := 10, longitude := 20 } }]).out :=
  ⟨by decide,
   fun h => absurd (exportHypack_trackLine_precision _ 10 8 h) (by decide)⟩

/-! ## C11, continued: a failed load leaves the tree as it was -/

theorem treeInv_store (s : AutonomousVehicleProject) (a : Nat) (n n' : MissionItem)
    (h : TreeInv s) (ha : s.items a = some n) (hp : n'.parent = n.parent)
    (hc : n'.m_childrenMissionItems = n.m_childrenMissionItems) :
    TreeInv (s.store a n') := by
  obtain ⟨h1, h2, h3⟩ := h
  refine ⟨?_, ?_, ?_⟩
  · intro x nx hx
    simp only [AutonomousVehicleProject.store] at hx ⊢
    split_ifs at hx with hxa
    · exact hxa ▸ h1 a n ha
    · exact h1 x nx hx
  · intro x nx p hx hxp
    simp only [AutonomousVehicleProject.store] at hx ⊢
    have hold : ∃ nx0, s.items x = some nx0 ∧ nx0.parent = some p := by
      split_ifs at hx with hxa
      · simp only [Option.some.injEq] at hx
        subst hx
        exact ⟨n, hxa ▸ ha, hp ▸ hxp⟩
      · exact ⟨nx, hx, hxp⟩
    obtain ⟨nx0, hx0, hxp0⟩ := hold
    obtain ⟨hlt, pn, hpn, hcnt⟩ := h2 x nx0 p hx0 hxp0
    refine ⟨hlt, ?_⟩
    by_cases hpa : p = a
    · subst hpa
      rw [ha] at hpn
      simp only [Option.some.injEq] at hpn
      subst hpn
      exact ⟨n', by simp, hc ▸ hcnt⟩
    · exact ⟨pn, by simp [hpa, hpn], hcnt⟩
  · intro p pn c hpn hcm
    simp only [AutonomousVehicleProject.store] at hpn ⊢
    have hold : ∃ pn0, s.items p = some pn0 ∧ c ∈ pn0.m_childrenMissionItems := by
      split_ifs at hpn with hpa
      · simp only [Option.some.injEq] at hpn
        subst hpn
        exact ⟨n, hpa ▸ ha, hc ▸ hcm⟩
      · exact ⟨pn, hpn, hcm⟩
    obtain ⟨pn0, hpn0, hcm0⟩ := hold
    obtain ⟨cn, hcn, hcp⟩ := h3 p pn0 c hpn0 hcm0
    by_cases hca : c = a
    · subst hca
      rw [ha] at hcn
      simp only [Option.some.injEq] at hcn
      subst hcn
      exact ⟨n', by simp, hp ▸ hcp⟩
    · exact ⟨cn, by simp [hca, hcn], hcp⟩

theorem indexFromItem_isSome (s : AutonomousVehicleProject) (h : TreeInv s) (a : Nat)
    (n : MissionItem) (ha : s.items a = some n) :
    ∃ index, indexFromItem s (some a) = some index := by
  unfold indexFromItem
  simp only
  split_ifs with hr
  · exact ⟨_, rfl⟩
  · simp only [ha]
    cases hp : n.parent with
    | none => exact ⟨_, rfl⟩
    | some p =>
      obtain ⟨-, pn, hpn, -⟩ := h.2.1 a n p ha hp
      simp only [hpn]
      exact ⟨_, rfl⟩

theorem removeAll_append_fresh (l : List Nat) (x : Nat) (h : x ∉ l) :
    QList.removeAll (l ++ [x]) x = l := by
  unfold QList.removeAll
  rw [List.filter_append]
  have h1 : l.filter (fun y => y != x) = l :=
    List.filter_eq_self.mpr (fun y hy => by
      have : y ≠ x := fun e => h (e ▸ hy)
      simpa using this)
  simp [h1]

/-- The true half of C11: in a well formed tree whose current group is live and whose
    raster references are not stale, a load that the raster loader reports invalid makes
    `openBackground` return no node and leaves the object store, hence every child
    sequence, and the two raster references as they were before the call. -/
theorem openBackground_failed_restores (files : RasterFiles) (s : AutonomousVehicleProject)
    (fname : String) (g : Nat) (gn : MissionItem) (h : TreeInv s)
    (hg : s.m_currentGroup = some g) (hgn : s.items g = some gn)
    (hbg : s.m_currentBackground ≠ some s.nextAddress)
    (hdepth : s.m_currentDepthRaster ≠ some s.nextAddress)
    (hinvalid : files.valid fname = false) :
    ∃ s', openBackground files s fname = some (s', none) ∧ s'.items = s.items ∧
      s'.m_currentBackground = s.m_currentBackground ∧
      s'.m_currentDepthRaster = s.m_currentDepthRaster := by
  obtain ⟨idx, hidx⟩ := indexFromItem_isSome s h g gn hgn
  have hnew := new_some s ClassName.BackgroundRaster g gn (-1) hgn
  have hfresh : s.items s.nextAddress = none := by
    cases hx : s.items s.nextAddress with
    | none => rfl
    | some n =>
      have := h.1 _ _ hx
      omega
  have hgne : g ≠ s.nextAddress := fun e => by
    rw [e, hfresh] at hgn
    simp at hgn
  have hnotin : s.nextAddress ∉ gn.m_childrenMissionItems := fun hm => by
    obtain ⟨cn, hcn, -⟩ := h.2.2 g gn _ hgn hm
    rw [hfresh] at hcn
    simp at hcn
  -- the state after the constructor
  obtain ⟨s1, hnew1, hb1, hg1, hother1, hrefs1⟩ :
      ∃ s1, MissionItem.new s ClassName.BackgroundRaster (some g) (-1)
          = some (s1, s.nextAddress) ∧
        s1.items s.nextAddress = some
          { className := ClassName.BackgroundRaster, objectName := "", parent := some g,
            m_childrenMissionItems := [] } ∧
        s1.items g = some
          { gn with
            m_childrenMissionItems := gn.m_childrenMissionItems ++ [s.nextAddress] } ∧
        (∀ x, x ≠ g → x ≠ s.nextAddress → s1.items x = s.items x) ∧
        (s1.m_currentBackground = s.m_currentBackground ∧
          s1.m_currentDepthRaster = s.m_currentDepthRaster ∧
          s1.nextAddress = s.nextAddress + 1) := by
    refine ⟨_, hnew, ?_, ?_, ?_, rfl, rfl, rfl⟩
    · simp [AutonomousVehicleProject.store]
    · simp [AutonomousVehicleProject.store, hgne]
    · intro x hx1 hx2
      simp [AutonomousVehicleProject.store, hx1, hx2]
  have hinv1 : TreeInv s1 := treeInv_new s _ _ _ s1 _ h hnew1
  -- the state after the depth flag is stored
  have hinv2 := treeInv_store s1 s.nextAddress _
    { className := ClassName.BackgroundRaster, objectName := "", parent := some g,
      m_childrenMissionItems := [], m_depthValid := files.depthValid fname }
    hinv1 hb1 rfl rfl
  generalize hs2 : s1.store s.nextAddress
    { className := ClassName.BackgroundRaster, objectName := "", parent := some g,
      m_childrenMissionItems := [], m_depthValid := files.depthValid fname } = s2 at hinv2
  have hb2 : s2.items s.nextAddress = some
      { className := ClassName.BackgroundRaster, objectName := "", parent := some g,
        m_childrenMissionItems := [], m_depthValid := files.depthValid fname } := by
    subst hs2
    simp [AutonomousVehicleProject.store]
  have hg2 : s2.items g = some
      { gn with m_childrenMissionItems := gn.m_childrenMissionItems ++ [s.nextAddress] } := by
    subst hs2
    simp [AutonomousVehicleProject.store, hgne, hg1]
  have hother2 : ∀ x, x ≠ g → x ≠ s.nextAddress → s2.items x = s.items x := by
    intro x hx1 hx2
    subst hs2
    simp [AutonomousVehicleProject.store, hx2, hother1 x hx1 hx2]
  have hrefs2 : s2.m_currentBackground = s.m_currentBackground ∧
      s2.m_currentDepthRaster = s.m_currentDepthRaster ∧
      s2.nextAddress = s.nextAddress + 1 := by
    subst hs2
    exact hrefs1
  -- the deletion
  obtain ⟨idx2, hidx2⟩ := indexFromItem_isSome s2 hinv2 s.nextAddress _ hb2
  have hitem2 : itemFromIndex idx2 = some s.nextAddress := by
    rcases indexFromItem_item s2 _ idx2 hidx2 with hi | hi
    · exact hi
    · exfalso
      unfold indexFromItem at hidx2
      simp only [hb2, hg2] at hidx2
      split_ifs at hidx2 with hr
      · simp only [Option.some.injEq] at hidx2
        subst hidx2
        simp [itemFromIndex, createIndex, QModelIndex.isValid] at hi
      · simp only [Option.some.injEq] at hidx2
        subst hidx2
        simp [itemFromIndex, createIndex, QModelIndex.isValid, QList.indexOf] at hi
  have hclear : deleteItem_clearBackground s2 (some s.nextAddress) = some s2 := by
    simp only [deleteItem_clearBackground, hb2, if_true, hrefs2.1, hrefs2.2.1, if_neg hbg,
      if_neg hdepth]
  have hrem := deleteItem_remove_ok s2 hinv2 idx2 s.nextAddress g _ _ hitem2 hb2 rfl hg2
  have hdel : deleteItemPtr s2 (some s.nextAddress) = some (deleteObject (s2.store g
      { gn with
        m_childrenMissionItems :=
          QList.removeAll (gn.m_childrenMissionItems ++ [s.nextAddress]) s.nextAddress })
      s.nextAddress) := by
    simp only [deleteItemPtr, hidx2, deleteItem, hitem2, hclear, hrem]
  refine ⟨deleteObject (s2.store g
      { gn with
        m_childrenMissionItems :=
          QList.removeAll (gn.m_childrenMissionItems ++ [s.nextAddress]) s.nextAddress })
      s.nextAddress, ?_, ?_, ?_, ?_⟩
  · simp only [openBackground, hg, hidx, hnew1, hb1, hs2, hinvalid, Bool.false_eq_true,
      if_false, hdel, Option.map_some']
  · funext x
    have hord : ∀ a n p, s2.items a = some n → n.parent = some p → p < a :=
      fun a n p hi hp => (hinv2.2.1 a n p hi hp).1
    have hcongr : ∀ f y, reaches (s2.store g
        { gn with
          m_childrenMissionItems :=
            QList.removeAll (gn.m_childrenMissionItems ++ [s.nextAddress])
              s.nextAddress }).items f y s.nextAddress
        = reaches s2.items f y s.nextAddress := by
      intro f y
      apply reaches_congr
      intro z
      simp only [AutonomousVehicleProject.store]
      split_ifs with hz
      · subst hz
        simp [hg2]
      · rfl
    simp only [deleteObject]
    rw [hcongr]
    simp only [AutonomousVehicleProject.store, hrefs2.2.2]
    by_cases hx : x = s.nextAddress
    · subst hx
      simp [reaches_self, hfresh]
    · have hno : reaches s2.items (s.nextAddress + 1) x s.nextAddress ≠ true := by
        intro hr
        have hle := reaches_le s2.items hord _ _ _ hr
        obtain ⟨nx, -, hnx, -⟩ := reaches_orphan s2.items _ x _ hr hx
        have := hinv2.1 x nx hnx
        omega
      simp only [hno, if_false]
      by_cases hxg : x = g
      · subst hxg
        simp [removeAll_append_fresh _ _ hnotin, hgn]
      · simp [hxg, hother2 x hxg hx]
  · simp [deleteObject, AutonomousVehicleProject.store, hrefs2.1]
  · simp [deleteObject, AutonomousVehicleProject.store, hrefs2.2.1]

/-! ## C25: the number of rows below an address -/

/-- C25, as stated, fails: for the invalid address `rowCount` reports the three children
    of the root of `sampleProject`, not `0`. -/
theorem rowCount_invalid_counts_root_children :
    rowCount sampleProject QModelIndex.invalid = some 3 ∧
    rowCount sampleProject QModelIndex.invalid ≠ some 0 := by
  decide

/-- C25, amended: `rowCount(a)` is the number of children of the node addressed by `a`
    when `a` is valid and designates a live node; it is the number of children of the root
    when `a` is an invalid address; and it is `0` when `a` is a valid address that carries
    the null pointer. -/
theorem rowCount_counts_children (s : AutonomousVehicleProject) (a : QModelIndex) :
    (∀ x n, itemFromIndex a = some x → s.items x = some n →
      rowCount s a = some (n.m_childrenMissionItems.length : Int)) ∧
    (∀ n, a.isValid = false → s.items s.m_root = some n →
      rowCount s a = some (n.m_childrenMissionItems.length : Int)) ∧
    (a.isValid = true → a.i = none → rowCount s a = some 0) := by
  refine ⟨?_, ?_, ?_⟩
  · intro x n hx hn
    obtain ⟨hv, -⟩ := itemFromIndex_some a x hx
    simp [rowCount, hv, hx, hn]
  · intro n hv hn
    simp [rowCount, hv, hn]
  · intro hv hi
    simp [rowCount, hv, itemFromIndex, hi]

theorem rowCount_counts_children_witness :
    rowCount sampleProject groupIndex = some 1 ∧
    rowCount sampleProject QModelIndex.invalid = some 3 ∧
    rowCount sampleProject (createIndex 0 0 none) = some 0 :=
  ⟨(rowCount_counts_children sampleProject groupIndex).1 2
      { className := ClassName.Group, objectName := "group0000", parent := some 0,
        m_childrenMissionItems := [4] } (by decide) rfl,
   (rowCount_counts_children sampleProject QModelIndex.invalid).2.1
      { className := ClassName.Group, objectName := "root", parent := none,
        m_childrenMissionItems := [1, 2, 3] } (by decide) rfl,
   (rowCount_counts_children sampleProject (createIndex 0 0 none)).2.2 (by decide) (by decide)⟩

/-! ## C24: the address of the root and the round trip through `index` and `parent` -/

theorem itemFromIndex_createIndex (r : Int) (h : 0 ≤ r) (x : Option Nat) :
    itemFromIndex (createIndex r 0 x) = x := by
  simp [itemFromIndex, createIndex, QModelIndex.isValid, h]

/-- The address `indexFromItem` gives to a live item, when it is valid, is
    `createIndex(item->row(), 0, item)`, the address `parent` gives to the item. -/
theorem indexFromItem_eq_row (s : AutonomousVehicleProject) (h : TreeInv s)
    (rn : MissionItem) (hlive : s.items s.m_root = some rn) (hparent : rn.parent = none)
    (a : Nat) (n : MissionItem) (p : QModelIndex) (ha : s.items a = some n)
    (hp : indexFromItem s (some a) = some p) (hv : p.isValid = true) :
    ∃ r : Int, MissionItem.row s a = some r ∧ p = createIndex r 0 (some a) := by
  unfold indexFromItem at hp
  simp only at hp
  split_ifs at hp with hr
  · simp only [Option.some.injEq] at hp
    subst hr
    rw [hlive] at ha
    simp only [Option.some.injEq] at ha
    subst ha
    exact ⟨0, by simp [MissionItem.row, hlive, hparent], hp.symm⟩
  · simp only [ha] at hp
    cases hq : n.parent with
    | none =>
      simp only [hq, Option.some.injEq] at hp
      subst hp
      simp [QModelIndex.invalid, QModelIndex.isValid] at hv
    | some q =>
      obtain ⟨-, qn, hqn, -⟩ := h.2.1 a n q ha hq
      simp only [hq, hqn, Option.some.injEq] at hp
      exact ⟨_, by simp [MissionItem.row, ha, hq, hqn], hp.symm⟩

/-- C24, as stated, fails on `sampleProject`: the address `indexFromItem` gives to the
    root is the valid index `(0, 0, root)`, not the invalid index, and the parent address
    of the first child of the root, addressed through the sentinel, is that valid index. -/
theorem root_address_is_valid :
    (indexFromItem sampleProject (some sampleProject.m_root)).map
        (fun x => (x.r, x.c, x.i, x.isValid)) = some (0, 0, some 0, true) ∧
    (index sampleProject 0 0 QModelIndex.invalid).map
        (fun x => (x.r, x.c, x.i, x.isValid)) = some (0, 0, some 1, true) ∧
    ((index sampleProject 0 0 QModelIndex.invalid).bind (parent sampleProject)).map
        (fun x => (x.r, x.c, x.i, x.isValid)) = some (0, 0, some 0, true) ∧
    QModelIndex.invalid.isValid = false := by
  refine ⟨by decide, by decide, by decide, by decide⟩

/-- C24, amended: in a well formed tree whose root is live and has no parent, the root has
    the valid address `(0, 0, root)` and the parent address of the root is the invalid
    index. Addressing round-trips through the addresses of nodes: for a live node with the
    valid address `p = indexFromItem(node)` (the root included) and every row `r` with
    `0 <= r < rowCount(p)`, `index(r, 0, p)` is the address `(r, 0, c)` of the `r`-th
    child `c` of the node, `itemFromIndex` of it is `c` and `parent` of it is `p`. The
    invalid index is accepted by `index` as a second name of the root: for
    `0 <= r < rowCount(invalid)`, `index(r, 0, invalid)` is the address of the `r`-th
    child of the root, and its parent address is the valid address `(0, 0, root)`. -/
theorem index_parent_round_trip (s : AutonomousVehicleProject) (h : TreeInv s)
    (rn : MissionItem) (hlive : s.items s.m_root = some rn) (hparent : rn.parent = none) :
    indexFromItem s (some s.m_root) = some (createIndex 0 0 (some s.m_root)) ∧
    (createIndex 0 0 (some s.m_root)).isValid = true ∧
    parent s (createIndex 0 0 (some s.m_root)) = some QModelIndex.invalid ∧
    (∀ (a : Nat) (n : MissionItem) (p : QModelIndex) (r k : Int),
      s.items a = some n → indexFromItem s (some a) = some p → p.isValid = true →
      0 ≤ r → rowCount s p = some k → r < k →
      ∃ c, n.m_childrenMissionItems[r.toNat]? = some c ∧
        index s r 0 p = some (createIndex r 0 (some c)) ∧
        itemFromIndex (createIndex r 0 (some c)) = some c ∧
        parent s (createIndex r 0 (some c)) = some p) ∧
    (∀ (r k : Int), 0 ≤ r → rowCount s QModelIndex.invalid = some k → r < k →
      ∃ c, rn.m_childrenMissionItems[r.toNat]? = some c ∧
        index s r 0 QModelIndex.invalid = some (createIndex r 0 (some c)) ∧
        itemFromIndex (createIndex r 0 (some c)) = some c ∧
        parent s (createIndex r 0 (some c)) = some (createIndex 0 0 (some s.m_root))) := by
  have hinv : QModelIndex.invalid.isValid = false := rfl
  have hrow0 : MissionItem.row s s.m_root = some 0 := by
    simp [MissionItem.row, hlive, hparent]
  -- the parent address of a child
  have hpar : ∀ (a : Nat) (n : MissionItem) (c : Nat) (r ra : Int), s.items a = some n →
      c ∈ n.m_childrenMissionItems → 0 ≤ r → MissionItem.row s a = some ra →
      parent s (createIndex r 0 (some c)) = some (createIndex ra 0 (some a)) := by
    intro a n c r ra ha hc hr hra
    obtain ⟨cn, hcn, hcp⟩ := h.2.2 a n c ha hc
    have hval : (createIndex r 0 (some c)).isValid = true := by
      simp [createIndex, QModelIndex.isValid, hr]
    simp [parent, hval, itemFromIndex_createIndex r hr, hcn, hcp, hra]
  refine ⟨by simp [indexFromItem], by simp [createIndex, QModelIndex.isValid], ?_, ?_, ?_⟩
  · have hval : (createIndex 0 0 (some s.m_root)).isValid = true := by
      simp [createIndex, QModelIndex.isValid]
    simp [parent, hval, itemFromIndex_createIndex 0 (le_refl 0), hlive, hparent]
  · intro a n p r k ha hp hv hr hk hrk
    obtain ⟨ra, hra, hpeq⟩ := indexFromItem_eq_row s h rn hlive hparent a n p ha hp hv
    have hitem : itemFromIndex p = some a := by
      rw [itemFromIndex, if_pos hv, hpeq]
      rfl
    have hk2 : k = (n.m_childrenMissionItems.length : Int) := by
      simp [rowCount, hv, hitem, ha] at hk
      exact hk.symm
    have hlt : r.toNat < n.m_childrenMissionItems.length := by omega
    refine ⟨n.m_childrenMissionItems[r.toNat], List.getElem?_eq_getElem hlt, ?_,
      itemFromIndex_createIndex r hr _, ?_⟩
    · have hnot : ¬ r < 0 := by omega
      have hrl : r < (n.m_childrenMissionItems.length : Int) := by omega
      simp [index, hnot, hv, hitem, ha, hrl, List.getElem?_eq_getElem hlt]
    · rw [hpeq]
      exact hpar a n _ r ra ha (List.getElem_mem hlt) hr hra
  · intro r k hr hk hrk
    have hk2 : k = (rn.m_childrenMissionItems.length : Int) := by
      simp [rowCount, hinv, hlive] at hk
      exact hk.symm
    have hlt : r.toNat < rn.m_childrenMissionItems.length := by omega
    refine ⟨rn.m_childrenMissionItems[r.toNat], List.getElem?_eq_getElem hlt, ?_,
      itemFromIndex_createIndex r hr _, ?_⟩
    · have hnot : ¬ r < 0 := by omega
      have hrl : r < (rn.m_childrenMissionItems.length : Int) := by omega
      simp [index, hnot, hinv, hlive, hrl, List.getElem?_eq_getElem hlt]
    · exact hpar s.m_root rn _ r 0 hlive (List.getElem_mem hlt) hr hrow0

theorem index_parent_round_trip_witness :
    indexFromItem sampleProject (some sampleProject.m_root) =
      some (createIndex 0 0 (some sampleProject.m_root)) ∧
    (createIndex 0 0 (some sampleProject.m_root)).isValid = true ∧
    parent sampleProject (createIndex 0 0 (some sampleProject.m_root)) =
      some QModelIndex.invalid ∧
    (∃ c, [4][(0 : Int).toNat]? = some c ∧
        index sampleProject 0 0 groupIndex = some (createIndex 0 0 (some c)) ∧
        itemFromIndex (createIndex 0 0 (some c)) = some c ∧
        parent sampleProject (createIndex 0 0 (some c)) = some groupIndex) ∧
    (∃ c, [1, 2, 3][(2 : Int).toNat]? = some c ∧
        index sampleProject 2 0 QModelIndex.invalid = some (createIndex 2 0 (some c)) ∧
        itemFromIndex (createIndex 2 0 (some c)) = some c ∧
        parent sampleProject (createIndex 2 0 (some c)) =
          some (createIndex 0 0 (some sampleProject.m_root))) :=
  have hw := index_parent_round_trip sampleProject sampleProject_treeInv
    { className := ClassName.Group, objectName := "root", parent := none,
      m_childrenMissionItems := [1, 2, 3] } rfl rfl
  ⟨hw.1, hw.2.1, hw.2.2.1,
   hw.2.2.2.1 2
     { className := ClassName.Group, objectName := "group0000", parent := some 0,
       m_childrenMissionItems := [4] } groupIndex 0 1 rfl rfl rfl (by decide) rfl (by decide),
   hw.2.2.2.2 2 3 (by decide) rfl (by decide)⟩

/-! ## C23: the transitions of `setCurrent` -/

/-- C23, as stated, fails: with the group `2` as insertion context, `setCurrent` on the
    invalid index, which designates no node, clears the selection and leaves the insertion
    context at the group `2`; it does not reset it to the root `0`. -/
theorem setCurrent_no_node_keeps_group :
    groupSelectedProject.m_currentGroup = some 2 ∧
    groupSelectedProject.m_root = 0 ∧
    itemFromIndex QModelIndex.invalid = none ∧
    (setCurrent groupSelectedProject QModelIndex.invalid).map
        (fun x => (x.m_currentSelected, x.m_currentGroup)) = some (none, some 2) := by
  refine ⟨by decide, by decide, by decide, by decide⟩

/-- C23, amended: in a project state whose references to be read designate live nodes (the
    addressed node if any, the previous selection, and the current background),
    `setCurrent` returns, the tree and the root are unchanged, and the current selection
    is the addressed node. When the address designates a node, the insertion context is
    that node if it is a Group and the root otherwise, and the current platform is that
    node if it is a Platform and unchanged otherwise. When the address designates no node,
    the insertion context and the current platform are unchanged. -/
theorem setCurrent_transitions (s : AutonomousVehicleProject) (idx : QModelIndex)
    (hitem : ∀ a, itemFromIndex idx = some a → (s.items a).isSome = true)
    (hsel : ∀ l, s.m_currentSelected = some l → (s.items l).isSome = true)
    (hbg : ∀ b, s.m_currentBackground = some b → (s.items b).isSome = true) :
    ∃ s', setCurrent s idx = some s' ∧
      s'.items = s.items ∧ s'.nextAddress = s.nextAddress ∧ s'.m_root = s.m_root ∧
      s'.m_currentSelected = itemFromIndex idx ∧
      (∀ a n, itemFromIndex idx = some a → s.items a = some n →
        s'.m_currentGroup = (if n.className = ClassName.Group then some a else some s.m_root) ∧
        s'.m_currentPlatform =
          (if n.className = ClassName.Platform then some a else s.m_currentPlatform)) ∧
      (itemFromIndex idx = none →
        s'.m_currentGroup = s.m_currentGroup ∧ s'.m_currentPlatform = s.m_currentPlatform) := by
  have hlast : ∀ (s4 : AutonomousVehicleProject), s4.items = s.items →
      (match s.m_currentSelected with
       | none => some s4
       | some l => (s4.items l).map (fun _ => s4)) = some s4 := by
    intro s4 h4
    cases hl : s.m_currentSelected with
    | none => rfl
    | some l =>
      have := hsel l hl
      rw [← h4] at this
      obtain ⟨x, hx⟩ := Option.isSome_iff_exists.mp this
      simp [hx]
  cases hi : itemFromIndex idx with
  | none =>
    refine ⟨{ s with m_currentSelected := none }, ?_, rfl, rfl, rfl, rfl, ?_, ?_⟩
    · unfold setCurrent
      simp only [hi]
      exact hlast _ rfl
    · intro a n ha
      simp at ha
    · intro _
      exact ⟨rfl, rfl⟩
  | some a =>
    obtain ⟨n, hn⟩ := Option.isSome_iff_exists.mp (hitem a hi)
    -- the state after the background block
    have hback : ∃ s2, (if n.className = ClassName.BackgroundRaster then
          setCurrentBackground { s with m_currentSelected := some a } (some a)
        else some { s with m_currentSelected := some a }) = some s2 ∧
        s2.items = s.items ∧ s2.nextAddress = s.nextAddress ∧ s2.m_root = s.m_root ∧
        s2.m_currentPlatform = s.m_currentPlatform ∧ s2.m_currentSelected = some a := by
      split_ifs with hc
      · have hsome : ∃ s2, setCurrentBackground { s with m_currentSelected := some a }
            (some a) = some s2 := by
          unfold setCurrentBackground
          cases hb : s.m_currentBackground with
          | none => simp [hb, hn]
          | some b =>
            obtain ⟨x, hx⟩ := Option.isSome_iff_exists.mp (hbg b hb)
            simp [hb, hx, hn]
        obtain ⟨s2, h2⟩ := hsome
        obtain ⟨f1, f2, f3, f4, -, f6, -⟩ := setCurrentBackground_frame _ s2 (some a) h2
        exact ⟨s2, h2, f1, f2, f3, f4, f6⟩
      · exact ⟨_, rfl, rfl, rfl, rfl, rfl, rfl⟩
    obtain ⟨s2, h2, g1, g2, g3, g4, g5⟩ := hback
    refine ⟨(if n.className = ClassName.Group then
        { (if n.className = ClassName.Platform ∧ some a ≠ s2.m_currentPlatform then
            { s2 with m_currentPlatform := some a } else s2) with m_currentGroup := some a }
      else
        { (if n.className = ClassName.Platform ∧ some a ≠ s2.m_currentPlatform then
            { s2 with m_currentPlatform := some a } else s2) with
          m_currentGroup := some (if n.className = ClassName.Platform ∧
              some a ≠ s2.m_currentPlatform then
            { s2 with m_currentPlatform := some a } else s2).m_root }), ?_, ?_, ?_, ?_, ?_, ?_, ?_⟩
    · unfold setCurrent
      simp only [hi, hn, h2]
      apply hlast
      split_ifs <;> simp [g1]
    · split_ifs <;> simp [g1]
    · split_ifs <;> simp [g2]
    · split_ifs <;> simp [g3]
    · split_ifs <;> simp [g5]
    · intro a' n' ha' hn'
      simp only [Option.some.injEq] at ha'
      subst ha'
      rw [hn] at hn'
      simp only [Option.some.injEq] at hn'
      subst hn'
      constructor
      · split_ifs <;> simp [g3]
      · by_cases hp : n.className = ClassName.Platform
        · have hg : ¬ n.className = ClassName.Group := by
            rw [hp]
            decide
          by_cases hcur : some a = s2.m_currentPlatform
          · simp [hp, hcur]
          · simp [hp, hcur]
        · have hfalse : ¬ (n.className = ClassName.Platform ∧
              some a ≠ s2.m_currentPlatform) := fun hh => hp hh.1
          simp only [if_neg hfalse, if_neg hp]
          split_ifs <;> simp [g4]
    · intro hnone
      simp at hnone

theorem setCurrent_transitions_witness :
    ∃ s', setCurrent sampleProject groupIndex = some s' ∧
      s'.items = sampleProject.items ∧ s'.nextAddress = sampleProject.nextAddress ∧
      s'.m_root = sampleProject.m_root ∧
      s'.m_currentSelected = itemFromIndex groupIndex ∧
      (∀ a n, itemFromIndex groupIndex = some a → sampleProject.items a = some n →
        s'.m_currentGroup =
          (if n.className = ClassName.Group then some a else some sampleProject.m_root) ∧
        s'.m_currentPlatform =
          (if n.className = ClassName.Platform then some a
           else sampleProject.m_currentPlatform)) ∧
      (itemFromIndex groupIndex = none →
        s'.m_currentGroup = sampleProject.m_currentGroup ∧
        s'.m_currentPlatform = sampleProject.m_currentPlatform) :=
  setCurrent_transitions sampleProject groupIndex
    (by intro a ha
        have h2 : a = 2 := by
          have hh : itemFromIndex groupIndex = some 2 := by decide
          rw [hh] at ha
          exact (Option.some.inj ha).symm
        subst h2
        rfl)
    (by intro l hl
        have h1 : l = 1 := (Option.some.inj hl).symm
        subst h1
        rfl)
    (by intro b hb
        have h3 : b = 3 := (Option.some.inj hb).symm
        subst h3
        rfl)

/-! ## C26: `removeRows` -/

theorem deleteItem_clearBackground_isSome (s : AutonomousVehicleProject) (a : Nat)
    (n : MissionItem) (ha : s.items a = some n) :
    ∃ s1, deleteItem_clearBackground s (some a) = some s1 := by
  unfold deleteItem_clearBackground
  simp only [ha]
  split_ifs with hc hb
  · have hset : ∃ s2, setCurrentBackground s none = some s2 := by
      simp [setCurrentBackground, hb, ha]
    obtain ⟨s2, h2⟩ := hset
    rw [h2]
    exact ⟨_, rfl⟩
  · exact ⟨_, rfl⟩
  · exact ⟨_, rfl⟩

/-- In a well formed tree `deleteItem(MissionItem*)` on a live child `b` of `p` returns:
    `b` is taken out of the child sequence of `p` and deleted with its descendants, and
    `p` stays in the store. -/
theorem deleteItemPtr_child (s : AutonomousVehicleProject) (h : TreeInv s) (b p : Nat)
    (n pn : MissionItem) (hb : s.items b = some n) (hp : n.parent = some p)
    (hpn : s.items p = some pn) :
    ∃ s', deleteItemPtr s (some b) = some s' ∧ TreeInv s' ∧
      s'.items p = some { pn with
        m_childrenMissionItems := QList.removeAll pn.m_childrenMissionItems b } := by
  obtain ⟨hlt, pn2, hpn2, hcnt⟩ := h.2.1 b n p hb hp
  rw [hpn] at hpn2
  simp only [Option.some.injEq] at hpn2
  subst hpn2
  have hmem : b ∈ pn.m_childrenMissionItems := by
    apply List.count_pos_iff.mp
    omega
  obtain ⟨index, hindex⟩ := indexFromItem_isSome s h b n hb
  have hitem : itemFromIndex index = some b := by
    unfold indexFromItem at hindex
    simp only at hindex
    split_ifs at hindex with hr
    · simp only [Option.some.injEq] at hindex
      subst hindex
      simp [itemFromIndex, createIndex, QModelIndex.isValid]
    · simp only [hb, hp, hpn, Option.some.injEq] at hindex
      subst hindex
      simp [itemFromIndex, createIndex, QModelIndex.isValid, QList.indexOf, hmem]
  obtain ⟨s1, hs1⟩ := deleteItem_clearBackground_isSome s b n hb
  obtain ⟨f1, f2, -⟩ := deleteItem_clearBackground_frame s s1 (some b) hs1
  have hinv1 : TreeInv s1 := by
    unfold TreeInv
    rw [f1, f2]
    exact h
  have hdel : deleteItemPtr s (some b) = some (deleteObject (s1.store p
      { pn with m_childrenMissionItems := QList.removeAll pn.m_childrenMissionItems b })
      b) := by
    unfold deleteItemPtr
    simp only [hindex]
    unfold deleteItem
    simp only [hitem, hs1]
    exact deleteItem_remove_ok s1 hinv1 index b p n pn hitem (f1 ▸ hb) hp (f1 ▸ hpn)
  refine ⟨_, hdel, treeInv_deleteItemPtr s _ b h hdel, ?_⟩
  have hord : ∀ a m q, (s1.store p { pn with
        m_childrenMissionItems := QList.removeAll pn.m_childrenMissionItems b }).items a =
          some m →
      m.parent = some q → q < a := by
    intro a m q ha hq
    simp only [AutonomousVehicleProject.store] at ha
    split_ifs at ha with hap
    · simp only [Option.some.injEq] at ha
      subst ha
      subst hap
      exact (h.2.1 a pn q hpn hq).1
    · rw [f1] at ha
      exact (h.2.1 a m q ha hq).1
  have hnot : ∀ f, reaches (s1.store p { pn with
        m_childrenMissionItems := QList.removeAll pn.m_childrenMissionItems b }).items
      f p b = false := by
    intro f
    cases hre : reaches (s1.store p { pn with
        m_childrenMissionItems := QList.removeAll pn.m_childrenMissionItems b }).items
      f p b with
    | false => rfl
    | true =>
      have := reaches_le _ hord b _ p hre
      omega
  simp only [deleteObject, hnot]
  simp [AutonomousVehicleProject.store]

theorem removeAll_getElem (x : Nat) :
    ∀ (l : List Nat) (i : Nat), l.count x = 1 → l[i]? = some x →
      QList.removeAll l x = l.take i ++ l.drop (i + 1) := by
  intro l
  induction l with
  | nil =>
    intro i _ hi
    simp at hi
  | cons y t ih =>
    intro i hc hi
    cases i with
    | zero =>
      simp only [List.getElem?_cons_zero, Option.some.injEq] at hi
      subst hi
      simp only [List.count_cons_self, Nat.add_eq_right] at hc
      have hnot : y ∉ t := List.count_eq_zero.mp hc
      simp only [QList.removeAll, List.take_zero, List.nil_append, zero_add, List.drop_succ_cons,
        List.drop_zero]
      rw [List.filter_cons_of_neg (by simp)]
      apply List.filter_eq_self.mpr
      intro z hz
      have : z ≠ y := fun hzy => hnot (hzy ▸ hz)
      simpa using this
    | succ j =>
      simp only [List.getElem?_cons_succ] at hi
      have hmem : x ∈ t := List.mem_iff_getElem?.mpr ⟨j, hi⟩
      have hpos : 0 < t.count x := List.count_pos_iff.mpr hmem
      have hyx : y ≠ x := by
        intro hyx
        subst hyx
        simp only [List.count_cons_self] at hc
        omega
      have hc2 : t.count x = 1 := by
        rw [List.count_cons_of_ne (Ne.symm hyx)] at hc
        exact hc
      have := ih j hc2 hi
      simp only [QList.removeAll] at this ⊢
      rw [List.filter_cons_of_pos (by simpa using hyx), this]
      simp

theorem take_drop_erase (l : List Nat) (r count : Nat) (hr : r < l.length) :
    (l.take r ++ l.drop (r + 1)).take r ++ (l.take r ++ l.drop (r + 1)).drop (r + count) =
      l.take r ++ l.drop (r + (count + 1)) := by
  have hlen : (l.take r).length = r := by
    rw [List.length_take]
    omega
  have h1 : (l.take r ++ l.drop (r + 1)).take r = l.take r := by
    rw [List.take_append_eq_append_take, hlen]
    simp
  have h2 : (l.take r ++ l.drop (r + 1)).drop (r + count) = l.drop (r + (count + 1)) := by
    rw [List.drop_append_eq_append_drop, hlen]
    have : List.drop (r + count) (List.take r l) = [] := by
      apply List.drop_eq_nil_of_le
      rw [hlen]
      omega
    rw [this, List.nil_append, List.drop_drop]
    congr 1
    omega
  rw [h1, h2]

/-- The loop of `removeRows` in a well formed tree, for a row `r >= 0`: it returns, the
    value is `true` exactly when every pass found a child at position `r`, and the parent
    is left with the children before position `r` and those from position `r + count`
    on. -/
theorem removeRows_loop_spec (p r : Nat) :
    ∀ (count : Nat) (s : AutonomousVehicleProject) (n : MissionItem),
      TreeInv s → s.items p = some n →
      ∃ s' n', removeRows_loop p (r : Int) count s =
          some (s', decide (count = 0 ∨ r + count ≤ n.m_childrenMissionItems.length)) ∧
        TreeInv s' ∧ s'.m_root = s.m_root ∧ s'.items p = some n' ∧
        n'.className = n.className ∧
        n'.m_childrenMissionItems =
          n.m_childrenMissionItems.take r ++ n.m_childrenMissionItems.drop (r + count) := by
  intro count
  induction count with
  | zero =>
    intro s n h hn
    exact ⟨s, n, by simp [removeRows_loop], h, rfl, hn, rfl, by simp⟩
  | succ count ih =>
    intro s n h hn
    by_cases hlt : r < n.m_childrenMissionItems.length
    · have hc : n.m_childrenMissionItems[r]? = some n.m_childrenMissionItems[r] :=
        List.getElem?_eq_getElem hlt
      obtain ⟨cn, hcn, hcp⟩ := h.2.2 p n _ hn (List.getElem_mem hlt)
      obtain ⟨-, pn2, hpn2, hcnt⟩ := h.2.1 _ cn p hcn hcp
      rw [hn] at hpn2
      simp only [Option.some.injEq] at hpn2
      subst hpn2
      obtain ⟨s1, hdel, hinv1, hp1⟩ := deleteItemPtr_child s h _ p cn n hcn hcp hn
      have hroot1 : s1.m_root = s.m_root := by
        unfold deleteItemPtr at hdel
        cases hidx : indexFromItem s (some n.m_childrenMissionItems[r]) with
        | none => simp [hidx] at hdel
        | some index =>
          simp only [hidx] at hdel
          cases hitem : itemFromIndex index with
          | none =>
            rw [deleteItem_null s index hitem] at hdel
            simp at hdel
          | some a =>
            obtain ⟨s0, n0, pi, pn, hc0, -, -, -, hs'⟩ := deleteItem_some s s1 index a hitem hdel
            obtain ⟨-, -, f3, -⟩ := deleteItem_clearBackground_frame s s0 (some a) hc0
            subst hs'
            simp [deleteObject, AutonomousVehicleProject.store, f3]
      rw [removeAll_getElem _ _ r hcnt hc] at hp1
      obtain ⟨s', n', hloop, hinv', hroot', hp', hcls', hch'⟩ := ih s1 _ hinv1 hp1
      refine ⟨s', n', ?_, hinv', hroot'.trans hroot1, hp', hcls', ?_⟩
      · have hgt : (n.m_childrenMissionItems.length : Int) > (r : Int) := by omega
        have hnn : ¬ ((r : Int) < 0) := by omega
        rw [removeRows_loop]
        simp only [hn, hgt, if_true, hnn, if_false, Int.toNat_ofNat, hc, hdel]
        rw [hloop]
        congr 2
        simp only [List.length_append, List.length_take, List.length_drop, decide_eq_decide]
        omega
      · rw [hch']
        exact take_drop_erase _ r count hlt
    · refine ⟨s, n, ?_, h, rfl, hn, rfl, ?_⟩
      · have hgt : ¬ ((n.m_childrenMissionItems.length : Int) > (r : Int)) := by omega
        have hd : decide (count + 1 = 0 ∨ r + (count + 1) ≤ n.m_childrenMissionItems.length) =
            false := by
          apply decide_eq_false
          omega
        rw [removeRows_loop, hd]
        simp only [hn, hgt, if_false]
      · rw [List.take_of_length_le (by omega), List.drop_eq_nil_of_le (by omega)]
        simp

/-- C26, as stated, fails on `sampleProject`, whose root has the children `[1, 2, 3]`:
    `removeRows(1, 5, root)` returns `false` after it has deleted the children `2` and `3`,
    so the child sequence left is `[1]`, not `[1, 2, 3]`; and `removeRows(7, 0, root)`
    returns `true` although `7 + 0 <= 3` does not hold. -/
theorem removeRows_not_all_or_nothing :
    sampleProject.childMissionItems 0 = some [1, 2, 3] ∧
    (removeRows sampleProject 1 5 QModelIndex.invalid).map
        (fun x => (x.1.childMissionItems 0, x.2)) = some (some [1], false) ∧
    (removeRows sampleProject 7 0 QModelIndex.invalid).map
        (fun x => (x.1.childMissionItems 0, x.2)) = some (some [1, 2, 3], true) := by
  refine ⟨by decide, by decide, by decide⟩

/-- C26, amended: in a well formed tree, for a live parent with child sequence `c`,
    `row >= 0` and `count >= 0`, `removeRows(row, count, parent)` returns. On a
    SurveyPattern parent it returns `false` and changes nothing. On any other parent it
    returns `true` exactly when `count = 0` or `row + count <= |c|`, and in either case
    the child sequence left is `c` without the elements at the positions
    `row .. row+count-1` that exist, the others in their original order: exactly `count`
    elements are gone when `row + count <= |c|`, and when it returns `false` every child
    from position `row` on is gone. -/
theorem removeRows_result (s : AutonomousVehicleProject) (h : TreeInv s)
    (parent : QModelIndex) (p : Nat) (n : MissionItem) (row count : Nat)
    (hp : (if parent.isValid then itemFromIndex parent else some s.m_root) = some p)
    (hn : s.items p = some n) :
    (n.className = ClassName.SurveyPattern →
      removeRows s (row : Int) (count : Int) parent = some (s, false)) ∧
    (n.className ≠ ClassName.SurveyPattern →
      ∃ s' n', removeRows s (row : Int) (count : Int) parent =
          some (s', decide (count = 0 ∨ row + count ≤ n.m_childrenMissionItems.length)) ∧
        TreeInv s' ∧ s'.items p = some n' ∧
        n'.m_childrenMissionItems =
          n.m_childrenMissionItems.take row ++ n.m_childrenMissionItems.drop (row + count) ∧
        (row + count ≤ n.m_childrenMissionItems.length →
          n'.m_childrenMissionItems.length + count = n.m_childrenMissionItems.length) ∧
        (n.m_childrenMissionItems.length < row + count →
          n'.m_childrenMissionItems = n.m_childrenMissionItems.take row)) := by
  constructor
  · intro hc
    unfold removeRows
    simp only [hp, hn, hc, if_true]
  · intro hc
    obtain ⟨s', n', hloop, hinv', -, hp', -, hch'⟩ := removeRows_loop_spec p row count s n h hn
    refine ⟨s', n', ?_, hinv', hp', hch', ?_, ?_⟩
    · unfold removeRows
      simp only [hp, hn, hc, if_false, Int.toNat_ofNat]
      exact hloop
    · intro hle
      rw [hch', List.length_append, List.length_take, List.length_drop]
      omega
    · intro hlt
      rw [hch', List.drop_eq_nil_of_le (by omega), List.append_nil]

theorem removeRows_result_witness :
    (ClassName.Group = ClassName.SurveyPattern →
      removeRows sampleProject ((1 : Nat) : Int) ((2 : Nat) : Int) QModelIndex.invalid =
        some (sampleProject, false)) ∧
    (ClassName.Group ≠ ClassName.SurveyPattern →
      ∃ s' n', removeRows sampleProject ((1 : Nat) : Int) ((2 : Nat) : Int)
          QModelIndex.invalid = some (s', decide (2 = 0 ∨ 1 + 2 ≤ [1, 2, 3].length)) ∧
        TreeInv s' ∧ s'.items 0 = some n' ∧
        n'.m_childrenMissionItems = [1, 2, 3].take 1 ++ [1, 2, 3].drop (1 + 2) ∧
        (1 + 2 ≤ [1, 2, 3].length → n'.m_childrenMissionItems.length + 2 = [1, 2, 3].length) ∧
        ([1, 2, 3].length < 1 + 2 → n'.m_childrenMissionItems = [1, 2, 3].take 1)) :=
  removeRows_result sampleProject sampleProject_treeInv QModelIndex.invalid 0
    { className := ClassName.Group, objectName := "root", parent := none,
      m_childrenMissionItems := [1, 2, 3] } 1 2 rfl rfl

/-! ## C21: the tokens of a PTS record -/

/-- One pass of the PTS loop that adds a waypoint: the new Waypoint gets the next address,
    the name "waypoint" and the coordinate, it is appended to the children of the current
    line, and no other object changes. -/
theorem addWaypoint_named (s : AutonomousVehicleProject) (cl : Nat) (n : MissionItem)
    (c : QGeoCoordinate) (hn : s.items cl = some n) (hlt : cl < s.nextAddress) :
    ∃ s1 s2, TrackLine.addWaypoint s cl c = some (s1, s.nextAddress) ∧
      MissionItem.setObjectName s1 s.nextAddress "waypoint" = some s2 ∧
      s2.nextAddress = s.nextAddress + 1 ∧
      s2.items cl = some { n with
        m_childrenMissionItems := n.m_childrenMissionItems ++ [s.nextAddress] } ∧
      s2.items s.nextAddress = some
        { className := ClassName.Waypoint, objectName := "waypoint", parent := some cl,
          m_childrenMissionItems := [], m_location := c } ∧
      ∀ a, a ≠ cl → a ≠ s.nextAddress → s2.items a = s.items a := by
  have hne : cl ≠ s.nextAddress := by omega
  simp only [TrackLine.addWaypoint, new_some s ClassName.Waypoint cl n (-1) hn]
  simp [AutonomousVehicleProject.store, MissionItem.setObjectName, hne]
  intro a h1 h2
  simp [h1, h2]

/-- Appending waypoints to a live track line returns: the new Waypoints get the next
    addresses in order, each holds its coordinate and the name "waypoint", they are
    appended to the children of the line in order, and no older object changes. -/
theorem appendWaypoints_spec (cl : Nat) :
    ∀ (coords : List QGeoCoordinate) (s : AutonomousVehicleProject) (n : MissionItem),
      s.items cl = some n → cl < s.nextAddress →
      ∃ s', appendWaypoints cl s coords = some s' ∧
        s'.nextAddress = s.nextAddress + coords.length ∧
        s'.items cl = some { n with
          m_childrenMissionItems :=
            n.m_childrenMissionItems ++ List.range' s.nextAddress coords.length } ∧
        (∀ (j : Nat) (c : QGeoCoordinate), coords[j]? = some c →
          s'.items (s.nextAddress + j) = some
            { className := ClassName.Waypoint, objectName := "waypoint", parent := some cl,
              m_childrenMissionItems := [], m_location := c }) ∧
        (∀ a, a ≠ cl → a < s.nextAddress → s'.items a = s.items a) := by
  intro coords
  induction coords with
  | nil =>
    intro s n hn _
    exact ⟨s, rfl, rfl, by simp [hn], by simp, fun _ _ _ => rfl⟩
  | cons c rest ih =>
    intro s n hn hlt
    obtain ⟨s1, s2, h1, h2, hnext, hcl, hwp, hother⟩ := addWaypoint_named s cl n c hn hlt
    obtain ⟨s', hs', hnext', hcl', hwp', hother'⟩ := ih s2 _ hcl (by omega)
    refine ⟨s', ?_, ?_, ?_, ?_, ?_⟩
    · simp only [appendWaypoints, h1, h2]
      exact hs'
    · rw [hnext', hnext, List.length_cons]
      omega
    · rw [hcl', hnext]
      simp [List.range'_succ]
    · intro j d hj
      cases j with
      | zero =>
        simp only [List.getElem?_cons_zero, Option.some.injEq] at hj
        subst hj
        rw [Nat.add_zero, hother' s.nextAddress (by omega) (by omega)]
        exact hwp
      | succ k =>
        simp only [List.getElem?_cons_succ] at hj
        have := hwp' k d hj
        rw [hnext] at this
        rw [← this]
        congr 1
        omega
    · intro a ha hlt2
      rw [hother' a ha (by omega), hother a ha (by omega)]

theorem tokenPairs_length : ∀ (k : Nat) (tokens : List String), tokens.length ≤ k →
    (tokenPairs tokens).length ≤ tokens.length / 2 := by
  intro k
  induction k using Nat.strong_induction_on with
  | _ k ih =>
    intro tokens hk
    match tokens with
    | [] => simp [tokenPairs]
    | [_] => simp [tokenPairs]
    | t1 :: t2 :: rest =>
      simp only [tokenPairs, List.length_cons] at hk ⊢
      have := ih rest.length (by omega) rest (le_refl _)
      omega

/-- The coordinates of a PTS record are at most half as many as its tokens. -/
theorem ptsCoordinates_length (toDouble : String → Option Rat) (tokens : List String) :
    (ptsCoordinates toDouble tokens).length ≤ tokens.length / 2 :=
  le_trans (List.length_filterMap_le _ _) (tokenPairs_length tokens.length tokens (le_refl _))

/-- With an odd number of tokens the pairs do not involve the last token. -/
theorem tokenPairs_dropLast : ∀ (k : Nat) (tokens : List String), tokens.length ≤ k →
    tokens.length % 2 = 1 → tokenPairs tokens = tokenPairs tokens.dropLast := by
  intro k
  induction k using Nat.strong_induction_on with
  | _ k ih =>
    intro tokens hk hodd
    match tokens with
    | [] => simp at hodd
    | [_] => simp [tokenPairs]
    | t1 :: t2 :: rest =>
      simp only [List.length_cons] at hk hodd
      have hrest : rest.length % 2 = 1 := by omega
      have hne : rest ≠ [] := by
        intro h
        subst h
        simp at hrest
      obtain ⟨t3, rest2, hr⟩ := List.exists_cons_of_ne_nil hne
      subst hr
      have := ih (t3 :: rest2).length (by omega) (t3 :: rest2) (le_refl _) hrest
      simp only [List.dropLast_cons₂, tokenPairs]
      rw [this]

/-- The PTS loop from position `i` on adds the waypoints of the coordinates that the
    tokens from position `i` on stand for, whenever the fuel covers the tokens left. -/
theorem importHypack_PTS_eq (toDouble : String → Option Rat) (cl : Nat)
    (parts : List String) :
    ∀ (fuel i : Nat) (s : AutonomousVehicleProject), parts.length - i < fuel →
      importHypack_PTS toDouble cl parts fuel i s =
        appendWaypoints cl s (ptsCoordinates toDouble (parts.drop i)) := by
  intro fuel
  induction fuel with
  | zero =>
    intro i s h
    omega
  | succ fuel ih =>
    intro i s h
    by_cases hlt : i + 1 < parts.length
    · have hi : i < parts.length := by omega
      have hcond : (i : Int) < (parts.length : Int) - 1 := by omega
      have hdrop : parts.drop i = parts[i] :: parts[i + 1] :: parts.drop (i + 2) := by
        rw [List.drop_eq_getElem_cons hi, List.drop_eq_getElem_cons hlt]
      rw [importHypack_PTS, if_pos hcond, List.getElem?_eq_getElem hi,
        List.getElem?_eq_getElem hlt, hdrop]
      simp only [ptsCoordinates, tokenPairs, List.filterMap_cons]
      have hrec := fun s2 => ih (i + 2) s2 (by omega)
      simp only [ptsCoordinates] at hrec
      cases hlat : toDouble parts[i] with
      | none =>
        simp only []
        exact hrec s
      | some lat =>
        cases hlon : toDouble parts[i + 1] with
        | none =>
          simp only []
          exact hrec s
        | some lon =>
          simp only [appendWaypoints]
          cases hadd : TrackLine.addWaypoint s cl { latitude := lat, longitude := lon } with
          | none => rfl
          | some r =>
            obtain ⟨s1, wp⟩ := r
            simp only []
            cases hname : MissionItem.setObjectName s1 wp "waypoint" with
            | none => rfl
            | some s2 =>
              simp only []
              exact hrec s2
    · have hcond : ¬ ((i : Int) < (parts.length : Int) - 1) := by omega
      have hshort : (parts.drop i).length ≤ 1 := by
        rw [List.length_drop]
        omega
      have hnil : ptsCoordinates toDouble (parts.drop i) = [] := by
        have hp : tokenPairs (parts.drop i) = [] := by
          match hd : parts.drop i with
          | [] => rfl
          | [_] => rfl
          | _ :: _ :: _ =>
            rw [hd] at hshort
            simp at hshort
        simp [ptsCoordinates, hp]
      rw [importHypack_PTS, if_neg hcond, hnil]
      rfl

/-- While there is no current line, a line whose first token is not "LIN" changes
    nothing. -/
theorem importHypack_line_no_current (toDouble : String → Option Rat) (g : Nat)
    (s : AutonomousVehicleProject) (line : String)
    (h : (QString.split line ' ')[0]? ≠ some "LIN") :
    importHypack_line toDouble g s none line = some (s, none) := by
  unfold importHypack_line
  simp only
  split_ifs with hempty
  · rfl
  · cases hp : (QString.split line ' ')[0]? with
    | none =>
      cases hl : QString.split line ' ' with
      | nil => simp [hl] at hempty
      | cons t ts => simp [hl] at hp
    | some tag =>
      have htag : tag ≠ "LIN" := by
        intro heq
        rw [hp, heq] at h
        exact h rfl
      simp only []
      split_ifs with hlen
      · simp [importHypack_LIN, importHypack_LNN, importHypack_PTS_block, hp, htag]
      · rfl

theorem importHypack_lines_no_current (toDouble : String → Option Rat) (g : Nat)
    (s : AutonomousVehicleProject) :
    ∀ (lines : List String), (∀ l ∈ lines, (QString.split l ' ')[0]? ≠ some "LIN") →
      importHypack_lines toDouble g s none lines = some (s, none) := by
  intro lines
  induction lines with
  | nil =>
    intro _
    rfl
  | cons l rest ih =>
    intro h
    rw [importHypack_lines,
      importHypack_line_no_current toDouble g s l (h l (List.mem_cons_self _ _))]
    exact ih (fun x hx => h x (List.mem_cons_of_mem _ hx))

/-- C21: a PTS record whose tokens after the tag are `tokens`, read while the live track
    line `cl` is the current line, is handled and keeps the current line; it appends to
    the children of `cl`, in pair order, one new Waypoint named "waypoint" with the
    coordinate `(lat, lon)` for each of the pairs `(t1, t2), (t3, t4), ...` whose two
    tokens both parse as numbers, and changes no other object. These are at most
    `floor(k/2)` waypoints, and for an odd number of tokens they are the waypoints of the
    tokens without the last one. Read while there is no current line the record changes
    nothing, and there is no current line as long as no line starting with "LIN" has been
    read. -/
theorem importHypack_PTS_record (toDouble : String → Option Rat) (g cl : Nat)
    (s : AutonomousVehicleProject) (n : MissionItem) (line : String) (tokens : List String)
    (hsplit : QString.split line ' ' = "PTS" :: tokens) (hn : s.items cl = some n)
    (hlt : cl < s.nextAddress) :
    (∃ s', importHypack_line toDouble g s (some cl) line = some (s', some cl) ∧
      s'.nextAddress = s.nextAddress + (ptsCoordinates toDouble tokens).length ∧
      s'.items cl = some { n with
        m_childrenMissionItems := n.m_childrenMissionItems ++
          List.range' s.nextAddress (ptsCoordinates toDouble tokens).length } ∧
      (∀ (j : Nat) (c : QGeoCoordinate), (ptsCoordinates toDouble tokens)[j]? = some c →
        s'.items (s.nextAddress + j) = some
          { className := ClassName.Waypoint, objectName := "waypoint", parent := some cl,
            m_childrenMissionItems := [], m_location := c }) ∧
      (∀ a, a ≠ cl → a < s.nextAddress → s'.items a = s.items a)) ∧
    (ptsCoordinates toDouble tokens).length ≤ tokens.length / 2 ∧
    (tokens.length % 2 = 1 →
      ptsCoordinates toDouble tokens = ptsCoordinates toDouble tokens.dropLast) ∧
    importHypack_line toDouble g s none line = some (s, none) ∧
    (∀ (lines : List String), (∀ l ∈ lines, (QString.split l ' ')[0]? ≠ some "LIN") →
      importHypack_lines toDouble g s none lines = some (s, none)) := by
  have hhead : (QString.split line ' ')[0]? ≠ some "LIN" := by
    rw [hsplit]
    intro heq
    simp only [List.getElem?_cons_zero, Option.some.injEq] at heq
    exact absurd heq (by decide)
  refine ⟨?_, ptsCoordinates_length toDouble tokens, ?_,
    importHypack_line_no_current toDouble g s line hhead,
    importHypack_lines_no_current toDouble g s⟩
  · obtain ⟨s', hs', hnext, hcl, hwp, hother⟩ :=
      appendWaypoints_spec cl (ptsCoordinates toDouble tokens) s n hn hlt
    refine ⟨s', ?_, hnext, hcl, hwp, hother⟩
    have hloop := importHypack_PTS_eq toDouble cl ("PTS" :: tokens)
      ("PTS" :: tokens).length 1 s (by simp)
    simp only [List.drop_succ_cons, List.drop_zero] at hloop
    have h3 : ("PTS" : String).length = 3 := by decide
    have h1 : ¬ (("PTS" : String) = "LIN") := by decide
    have h2 : ¬ (("PTS" : String) = "LNN") := by decide
    unfold importHypack_line
    simp only [hsplit, List.isEmpty_cons, Bool.false_eq_true, if_false, List.getElem?_cons_zero,
      h3, if_true, importHypack_LIN, h1, importHypack_LNN, h2, importHypack_PTS_block, hloop,
      hs', Option.map_some']
  · intro hodd
    simp only [ptsCoordinates]
    rw [tokenPairs_dropLast tokens.length tokens (le_refl _) hodd]

theorem importHypack_PTS_record_witness :
    ∃ s', importHypack_line decimalToDouble 1 linesProject (some 2) "PTS 10 20 11 21 5" =
        some (s', some 2) ∧
      s'.nextAddress = 9 ∧
      (s'.items 2).map (fun n => n.m_childrenMissionItems) = some [3, 4, 7, 8] ∧
      (s'.items 8).map (fun n => n.m_location) = some { latitude := 11, longitude := 21 } :=
  have hcoords : ptsCoordinates decimalToDouble ["10", "20", "11", "21", "5"] =
      [{ latitude := 10, longitude := 20 }, { latitude := 11, longitude := 21 }] := by
    decide
  have hw := (importHypack_PTS_record decimalToDouble 1 2 linesProject
    { className := ClassName.TrackLine, objectName := "trackline", parent := some 1,
      m_childrenMissionItems := [3, 4] } "PTS 10 20 11 21 5" ["10", "20", "11", "21", "5"]
    (by decide) rfl (by decide)).1
  Exists.elim hw (fun s' h =>
    have h8 : s'.items 8 = some
        { className := ClassName.Waypoint, objectName := "waypoint", parent := some 2,
          m_childrenMissionItems := [], m_location := { latitude := 11, longitude := 21 } } :=
      h.2.2.2.1 1 { latitude := 11, longitude := 21 } (by rw [hcoords]; rfl)
    ⟨s', h.1, by rw [h.2.1, hcoords]; rfl, by rw [h.2.2.1, hcoords]; rfl, by rw [h8]; rfl⟩)

/-! ## C22: the dispatch of `import` on the leading tag -/

/-- A line whose first token is none of "LIN", "LNN" and "PTS" changes nothing, whatever
    the current line is. -/
theorem importHypack_line_other_tag (toDouble : String → Option Rat) (g : Nat)
    (s : AutonomousVehicleProject) (currentLine : Option Nat) (line tag : String)
    (hp : (QString.split line ' ')[0]? = some tag)
    (h1 : tag ≠ "LIN") (h2 : tag ≠ "LNN") (h3 : tag ≠ "PTS") :
    importHypack_line toDouble g s currentLine line = some (s, currentLine) := by
  unfold importHypack_line
  simp only
  split_ifs with hempty
  · rfl
  · simp only [hp]
    split_ifs with hlen
    · cases currentLine <;>
        simp [importHypack_LIN, importHypack_LNN, importHypack_PTS_block, hp, h1, h2, h3]
    · rfl

/-- A line whose first token is not 3 characters long changes nothing. -/
theorem importHypack_line_short_tag (toDouble : String → Option Rat) (g : Nat)
    (s : AutonomousVehicleProject) (currentLine : Option Nat) (line tag : String)
    (hp : (QString.split line ' ')[0]? = some tag) (hlen : tag.length ≠ 3) :
    importHypack_line toDouble g s currentLine line = some (s, currentLine) := by
  unfold importHypack_line
  simp only
  split_ifs with hempty
  · rfl
  · simp only [hp, hlen, if_false]

/-- C22: the "LNN" block of `import` removes the tag from the token list and the "PTS"
    test that follows reads `parts[0]` of the list that is left. For a live current line
    `cl`, a record that is the tag "LNN" alone makes that read an out-of-range access of
    the empty list, and a record "LNN PTS t1 t2 ..." renames the current line to
    "PTS t1 t2 ..." and then also appends the waypoints of `t1 t2 ...` to it. -/
theorem importHypack_LNN_falls_through (toDouble : String → Option Rat) (g cl : Nat)
    (s : AutonomousVehicleProject) (n : MissionItem) (line : String) (tokens : List String)
    (hn : s.items cl = some n) (hlt : cl < s.nextAddress) :
    (QString.split line ' ' = ["LNN"] →
      importHypack_line toDouble g s (some cl) line = none) ∧
    (QString.split line ' ' = "LNN" :: "PTS" :: tokens →
      ∃ s', importHypack_line toDouble g s (some cl) line = some (s', some cl) ∧
        s'.nextAddress = s.nextAddress + (ptsCoordinates toDouble tokens).length ∧
        s'.items cl = some { n with
          objectName := QStringList.join ("PTS" :: tokens) " "
          m_childrenMissionItems := n.m_childrenMissionItems ++
            List.range' s.nextAddress (ptsCoordinates toDouble tokens).length } ∧
        (∀ (j : Nat) (c : QGeoCoordinate), (ptsCoordinates toDouble tokens)[j]? = some c →
          s'.items (s.nextAddress + j) = some
            { className := ClassName.Waypoint, objectName := "waypoint", parent := some cl,
              m_childrenMissionItems := [], m_location := c })) := by
  have h3 : ("LNN" : String).length = 3 := by decide
  have h1 : ¬ (("LNN" : String) = "LIN") := by decide
  constructor
  · intro hsplit
    unfold importHypack_line
    simp [hsplit, h3, importHypack_LIN, h1, importHypack_LNN, MissionItem.setObjectName, hn,
      importHypack_PTS_block]
  · intro hsplit
    have hn1 : (s.store cl { n with objectName := QStringList.join ("PTS" :: tokens) " " }).items
        cl = some { n with objectName := QStringList.join ("PTS" :: tokens) " " } := by
      simp [AutonomousVehicleProject.store]
    obtain ⟨s', hs', hnext, hcl, hwp, -⟩ :=
      appendWaypoints_spec cl (ptsCoordinates toDouble tokens)
        (s.store cl { n with objectName := QStringList.join ("PTS" :: tokens) " " }) _ hn1 hlt
    refine ⟨s', ?_, hnext, hcl, hwp⟩
    have hloop := importHypack_PTS_eq toDouble cl ("PTS" :: tokens)
      ("PTS" :: tokens).length 1
      (s.store cl { n with objectName := QStringList.join ("PTS" :: tokens) " " }) (by simp)
    simp only [List.drop_succ_cons, List.drop_zero] at hloop
    unfold importHypack_line
    simp only [hsplit, List.isEmpty_cons, Bool.false_eq_true, if_false, List.getElem?_cons_zero,
      h3, if_true, importHypack_LIN, h1, importHypack_LNN, List.eraseIdx_cons_zero,
      MissionItem.setObjectName, hn, Option.map_some', importHypack_PTS_block, hloop, hs']

theorem importHypack_LNN_falls_through_witness :
    importHypack_line decimalToDouble 1 linesProject (some 2) "LNN" = none ∧
    ∃ s', importHypack_line decimalToDouble 1 linesProject (some 2) "LNN PTS 1 2" =
        some (s', some 2) ∧
      (s'.items 2).map (fun n => (n.objectName, n.m_childrenMissionItems)) =
        some ("PTS 1 2", [3, 4, 7]) ∧
      (s'.items 7).map (fun n => n.m_location) = some { latitude := 1, longitude := 2 } :=
  have hcoords : ptsCoordinates decimalToDouble ["1", "2"] =
      [{ latitude := 1, longitude := 2 }] := by
    decide
  have hw := importHypack_LNN_falls_through decimalToDouble 1 2 linesProject
    { className := ClassName.TrackLine, objectName := "trackline", parent := some 1,
      m_childrenMissionItems := [3, 4] } "LNN" ["1", "2"] rfl (by decide)
  have hv := importHypack_LNN_falls_through decimalToDouble 1 2 linesProject
    { className := ClassName.TrackLine, objectName := "trackline", parent := some 1,
      m_childrenMissionItems := [3, 4] } "LNN PTS 1 2" ["1", "2"] rfl (by decide)
  ⟨hw.1 (by decide),
   Exists.elim (hv.2 (by decide)) (fun s' h =>
    have h7 : s'.items 7 = some
        { className := ClassName.Waypoint, objectName := "waypoint", parent := some 2,
          m_childrenMissionItems := [], m_location := { latitude := 1, longitude := 2 } } :=
      h.2.2.2 0 { latitude := 1, longitude := 2 } (by rw [hcoords]; rfl)
    ⟨s', h.1, by rw [h.2.2.1, hcoords]; decide, by rw [h7]; rfl⟩)⟩

/-- The files of the examples read into a fresh project: the file with the lines "LIN 1"
    and "LNN" makes `import` read out of range; the file with the lines "LIN 1" and
    "LNN PTS 1 2" gives a track line named "PTS 1 2" that holds the waypoint `(1, 2)`; in
    the third file only the records "LIN", "PTS" (after "LIN") and "LNN" have an effect. -/
theorem importHypack_sample_files :
    (importHypack decimalToDouble sampleFiles (AutonomousVehicleProject.new true)
      "/data/tag.l84").isNone = true ∧
    (importHypack decimalToDouble sampleFiles (AutonomousVehicleProject.new true)
      "/data/name.l84").bind (fun s => s.describe 2) =
        some (ClassName.TrackLine, "PTS 1 2", { latitude := 0, longitude := 0 }, [3]) ∧
    (importHypack decimalToDouble sampleFiles (AutonomousVehicleProject.new true)
      "/data/name.l84").bind (fun s => s.describe 3) =
        some (ClassName.Waypoint, "waypoint", { latitude := 1, longitude := 2 }, []) ∧
    (importHypack decimalToDouble sampleFiles (AutonomousVehicleProject.new true)
      "/data/lines.l84").bind (fun s => s.describe 1) =
        some (ClassName.Group, "lines.l84", { latitude := 0, longitude := 0 }, [2]) ∧
    (importHypack decimalToDouble sampleFiles (AutonomousVehicleProject.new true)
      "/data/lines.l84").bind (fun s => s.describe 2) =
        some (ClassName.TrackLine, "7", { latitude := 0, longitude := 0 }, [3, 4]) ∧
    (importHypack decimalToDouble sampleFiles (AutonomousVehicleProject.new true)
      "/data/lines.l84").map (fun s => s.nextAddress) = some 5 := by
  refine ⟨by decide, by decide, by decide, by decide, by decide, by decide⟩

/-! ## The label counter under `removeRows` and `import` -/

theorem removeRows_loop_counter (p : Nat) (row : Int) :
    ∀ (count : Nat) (s s' : AutonomousVehicleProject) (b : Bool),
      removeRows_loop p row count s = some (s', b) →
      s'.unique_label_counter = s.unique_label_counter := by
  intro count
  induction count with
  | zero =>
    intro s s' b h
    simp only [removeRows_loop, Option.some.injEq, Prod.mk.injEq] at h
    rw [h.1]
  | succ count ih =>
    intro s s' b h
    rw [removeRows_loop] at h
    cases hn : s.items p with
    | none => simp [hn] at h
    | some n =>
      simp only [hn] at h
      split_ifs at h with h1 h2
      · cases hd : deleteItemPtr s n.m_childrenMissionItems[row.toNat]? with
        | none => simp [hd] at h
        | some s1 =>
          simp only [hd] at h
          rw [ih s1 s' b h, deleteItemPtr_counter s s1 _ hd]
      · simp only [Option.some.injEq, Prod.mk.injEq] at h
        rw [h.1]

/-- The method `removeRows` hands out no label: it leaves the label counter as it is. -/
theorem removeRows_counter (s s' : AutonomousVehicleProject) (row count : Int)
    (parent : QModelIndex) (b : Bool) (h : removeRows s row count parent = some (s', b)) :
    s'.unique_label_counter = s.unique_label_counter := by
  unfold removeRows at h
  simp only at h
  cases hp : (if parent.isValid then itemFromIndex parent else some s.m_root) with
  | none => simp [hp] at h
  | some p =>
    simp only [hp] at h
    cases hn : s.items p with
    | none => simp [hn] at h
    | some n =>
      simp only [hn] at h
      split_ifs at h with hc
      · simp only [Option.some.injEq, Prod.mk.injEq] at h
        rw [h.1]
      · exact removeRows_loop_counter p row count.toNat s s' b h

theorem addWaypoint_counter (s s1 : AutonomousVehicleProject) (this wp : Nat)
    (c : QGeoCoordinate) (h : TrackLine.addWaypoint s this c = some (s1, wp)) :
    s1.unique_label_counter = s.unique_label_counter := by
  unfold TrackLine.addWaypoint at h
  cases hnew : MissionItem.new s ClassName.Waypoint (some this) (-1) with
  | none => simp [hnew] at h
  | some r =>
    obtain ⟨s0, x⟩ := r
    simp only [hnew] at h
    cases hx : s0.items x with
    | none => simp [hx] at h
    | some n =>
      simp only [hx, Option.some.injEq, Prod.mk.injEq] at h
      rw [← h.1]
      exact new_counter s s0 ClassName.Waypoint (some this) (-1) x hnew

theorem importHypack_PTS_counter (toDouble : String → Option Rat) (cl : Nat)
    (parts : List String) :
    ∀ (fuel i : Nat) (s s' : AutonomousVehicleProject),
      importHypack_PTS toDouble cl parts fuel i s = some s' →
      s'.unique_label_counter = s.unique_label_counter := by
  intro fuel
  induction fuel with
  | zero =>
    intro i s s' h
    simp [importHypack_PTS] at h
  | succ fuel ih =>
    intro i s s' h
    rw [importHypack_PTS] at h
    split_ifs at h with hc
    · cases h1 : parts[i]? with
      | none => simp [h1] at h
      | some latText =>
        simp only [h1] at h
        cases h2 : toDouble latText with
        | none =>
          simp only [h2] at h
          exact ih _ s s' h
        | some lat =>
          simp only [h2] at h
          cases h3 : parts[i + 1]? with
          | none => simp [h3] at h
          | some lonText =>
            simp only [h3] at h
            cases h4 : toDouble lonText with
            | none =>
              simp only [h4] at h
              exact ih _ s s' h
            | some lon =>
              simp only [h4] at h
              cases h5 : TrackLine.addWaypoint s cl { latitude := lat, longitude := lon } with
              | none => simp [h5] at h
              | some r =>
                obtain ⟨s1, wp⟩ := r
                simp only [h5] at h
                cases h6 : MissionItem.setObjectName s1 wp "waypoint" with
                | none => simp [h6] at h
                | some s2 =>
                  simp only [h6] at h
                  rw [ih _ s2 s' h, setObjectName_counter s1 s2 wp "waypoint" h6,
                    addWaypoint_counter s s1 cl wp _ h5]
    · simp only [Option.some.injEq] at h
      rw [h]

theorem importHypack_line_counter (toDouble : String → Option Rat) (g : Nat)
    (s s' : AutonomousVehicleProject) (cl cl' : Option Nat) (line : String)
    (h : importHypack_line toDouble g s cl line = some (s', cl')) :
    s'.unique_label_counter = s.unique_label_counter := by
  unfold importHypack_line at h
  simp only at h
  split_ifs at h with hempty
  · simp only [Option.some.injEq, Prod.mk.injEq] at h
    rw [h.1]
  · cases hp : (QString.split line ' ')[0]? with
    | none => simp [hp] at h
    | some tag =>
      simp only [hp] at h
      split_ifs at h with hlen
      · -- the LIN block
        cases hlin : importHypack_LIN g s cl (QString.split line ' ') with
        | none => simp [hlin] at h
        | some r1 =>
          obtain ⟨s1, cl1⟩ := r1
          simp only [hlin] at h
          have e1 : s1.unique_label_counter = s.unique_label_counter := by
            unfold importHypack_LIN at hlin
            simp only [hp] at hlin
            split_ifs at hlin with ht
            · cases hnew : MissionItem.new s ClassName.TrackLine (some g) (-1) with
              | none => simp [hnew] at hlin
              | some r =>
                obtain ⟨s0, x⟩ := r
                simp only [hnew, Option.map_eq_some', Prod.mk.injEq] at hlin
                obtain ⟨s2, hs2, hs2eq, -⟩ := hlin
                rw [← hs2eq, setObjectName_counter s0 s2 x "trackline" hs2,
                  new_counter s s0 ClassName.TrackLine (some g) (-1) x hnew]
            · simp only [Option.some.injEq, Prod.mk.injEq] at hlin
              rw [hlin.1]
          -- the LNN block
          cases hlnn : importHypack_LNN s1 cl1 (QString.split line ' ') with
          | none => simp [hlnn] at h
          | some r2 =>
            obtain ⟨s2, parts1⟩ := r2
            simp only [hlnn, Option.map_eq_some', Prod.mk.injEq] at h
            obtain ⟨s3, hpts, hs3, -⟩ := h
            have e2 : s2.unique_label_counter = s1.unique_label_counter := by
              unfold importHypack_LNN at hlnn
              simp only [hp] at hlnn
              cases cl1 with
              | none =>
                simp only [Option.some.injEq, Prod.mk.injEq] at hlnn
                rw [hlnn.1]
              | some l =>
                simp only at hlnn
                split_ifs at hlnn with ht
                · simp only [Option.map_eq_some', Prod.mk.injEq] at hlnn
                  obtain ⟨s4, hs4, hs4eq, -⟩ := hlnn
                  rw [← hs4eq]
                  exact setObjectName_counter s1 s4 l _ hs4
                · simp only [Option.some.injEq, Prod.mk.injEq] at hlnn
                  rw [hlnn.1]
            have e3 : s3.unique_label_counter = s2.unique_label_counter := by
              unfold importHypack_PTS_block at hpts
              cases hq : parts1[0]? with
              | none => simp [hq] at hpts
              | some tag2 =>
                simp only [hq] at hpts
                cases cl1 with
                | none =>
                  simp only [Option.some.injEq] at hpts
                  rw [hpts]
                | some l =>
                  simp only at hpts
                  split_ifs at hpts with ht
                  · exact importHypack_PTS_counter toDouble l parts1 _ _ s2 s3 hpts
                  · simp only [Option.some.injEq] at hpts
                    rw [hpts]
            rw [← hs3, e3, e2, e1]
      · simp only [Option.some.injEq, Prod.mk.injEq] at h
        rw [h.1]

theorem importHypack_lines_counter (toDouble : String → Option Rat) (g : Nat) :
    ∀ (lines : List String) (s s' : AutonomousVehicleProject) (cl cl' : Option Nat),
      importHypack_lines toDouble g s cl lines = some (s', cl') →
      s'.unique_label_counter = s.unique_label_counter := by
  intro lines
  induction lines with
  | nil =>
    intro s s' cl cl' h
    simp only [importHypack_lines, Option.some.injEq, Prod.mk.injEq] at h
    rw [h.1]
  | cons line rest ih =>
    intro s s' cl cl' h
    rw [importHypack_lines] at h
    cases hl : importHypack_line toDouble g s cl line with
    | none => simp [hl] at h
    | some r =>
      obtain ⟨s1, cl1⟩ := r
      simp only [hl] at h
      rw [ih s1 s' cl1 cl' h, importHypack_line_counter toDouble g s s1 cl cl1 line hl]

/-- The method `import` hands out no label: it leaves the label counter as it is (the
    track lines and waypoints it builds get the fixed names "trackline" and
    "waypoint"). -/
theorem importHypack_counter (toDouble : String → Option Rat)
    (files : String → Option (List String)) (s s' : AutonomousVehicleProject)
    (fname : String) (h : importHypack toDouble files s fname = some s') :
    s'.unique_label_counter = s.unique_label_counter := by
  unfold importHypack at h
  cases hf : files fname with
  | none =>
    simp only [hf, Option.some.injEq] at h
    rw [h]
  | some lines =>
    simp only [hf] at h
    cases hg : s.m_currentGroup with
    | none => simp [hg] at h
    | some g =>
      simp only [hg] at h
      cases hidx : indexFromItem s (some g) with
      | none => simp [hidx] at h
      | some idx =>
        cases hnew : MissionItem.new s ClassName.Group (some g) (-1) with
        | none => simp [hidx, hnew] at h
        | some r =>
          obtain ⟨s1, x⟩ := r
          simp only [hidx, hnew] at h
          cases hname : MissionItem.setObjectName s1 x (QFileInfo.fileName fname) with
          | none => simp [hname] at h
          | some s2 =>
            simp only [hname, Option.map_eq_some'] at h
            obtain ⟨⟨s3, cl⟩, hl, hs3⟩ := h
            simp only at hs3
            rw [← hs3, importHypack_lines_counter toDouble x lines s2 s3 none cl hl,
              setObjectName_counter s1 s2 x _ hname,
              new_counter s s1 ClassName.Group (some g) (-1) x hnew]

end MissionPlanner
